import Mathlib

/-!
Shallow embedding of the transactional document core of mpr-photo-editor:
the graph model (`model.py`), the command classes (`commands/*.py`), the
controller's push paths (`controller.py`), and the socket type/multiplicity
declarations of the view layer (`nodes.py`), together with proofs about the
undo/redo behaviour of the system.

Python dictionaries are modelled as association lists (insertion ordered,
duplicate-free keys for well-formed states); Python `None` inside a settings
dictionary is the explicit value `SVal.vnull`, while an absent key is an
association-list miss, exactly mirroring the distinction between
`d[k] = None` and `k not in d`.  The Rust image backend is modelled as a
deterministic handle allocator: a path either always loads (fresh handle =
current counter) or always fails, as selected by a `loadable` predicate.
-/

namespace MPE

/-- A Python value stored in a node's settings dictionary:
`None`, a string, or an integer (image handles are integers). -/
inductive SVal where
  | vnull
  | vstr (s : String)
  | vint (n : Int)
deriving DecidableEq, Repr

/-- Python truthiness for the values that appear in settings
(`if self.old_filepath:` in `image_commands.py`). -/
def SVal.truthy : SVal → Bool
  | .vnull => false
  | .vstr s => s != ""
  | .vint n => n != 0

/-- `True` for the values that `backend.release_raw_image` accepts without a
type error (`None` is always guarded by an `is not None` check first). -/
def SVal.isHandleLike : SVal → Bool
  | .vnull => true
  | .vint _ => true
  | .vstr _ => false

/-- A connection record, the four-field dictionary built by
`Model.add_connection`. -/
structure Connection where
  from_node : String
  from_socket : String
  to_node : String
  to_socket : String
deriving DecidableEq, Repr

/-- One entry of `Model.nodes`: `{"type": ..., "position": (x, y),
"settings": {...}}`.  The Python field `type` is called `ntype` here because
`type` is reserved in Lean. -/
structure NodeData where
  ntype : String
  position : Int × Int
  settings : List (String × SVal)
deriving DecidableEq, Repr

/-- The document state of `Model` (`model.py`).  `thumbnail_cache` keys are
image handles; its values (thumbnail bytes, written only by the excluded view
layer) are irrelevant to the core, so only the key set is kept. -/
structure Model where
  version : String
  nodes : List (String × NodeData)
  connections : List Connection
  thumbnail_cache : List Int
deriving DecidableEq, Repr

/-- The Rust backend's state: the next handle to hand out and the set of
currently live (loaded, unreleased) handles. -/
structure Backend where
  nextId : Int
  live : List Int
deriving DecidableEq, Repr

/-- A Qt signal emission of `Model`. -/
inductive Event where
  | nodeAdded (id : String)
  | nodeRemoved (id : String)
  | nodeSettingChanged (id key : String) (v : SVal)
  | nodePositionChanged (id : String) (pos : Int × Int)
  | connectionAdded (c : Connection)
  | connectionRemoved (c : Connection)
deriving DecidableEq, Repr

/-- A raised Python exception: `ValueError` from `Model`'s integrity checks,
`KeyError` from a failed dictionary subscript during command construction,
a backend load failure, and a `TypeError` from handing the Rust backend a
non-integer handle. -/
inductive Err where
  | valueError
  | keyError
  | loadError
  | typeError
deriving DecidableEq, Repr

/-! ### Association-list primitives (Python `dict` and `list.remove`) -/

/-- `d.get(k)` / `d[k]` lookup on an insertion-ordered dictionary. -/
def alookup {α : Type} : List (String × α) → String → Option α
  | [], _ => none
  | (k, v) :: t, key => if k = key then some v else alookup t key

/-- `d[k] = v`: update in place if the key exists, append otherwise. -/
def aset {α : Type} : List (String × α) → String → α → List (String × α)
  | [], key, v => [(key, v)]
  | (k, w) :: t, key, v => if k = key then (key, v) :: t else (k, w) :: aset t key v

/-- `del d[k]`: drop the (first) entry with the given key. -/
def adel {α : Type} : List (String × α) → String → List (String × α)
  | [], _ => []
  | (k, w) :: t, key => if k = key then t else (k, w) :: adel t key

/-- Python `list.remove(a)`: drop the first occurrence of `a`. -/
def lremove {α : Type} [DecidableEq α] : List α → α → List α
  | [], _ => []
  | x :: t, a => if x = a then t else x :: lremove t a

/-- `settings.get(key)`, which conflates an absent key with a stored `None`. -/
def getS (settings : List (String × SVal)) (k : String) : SVal :=
  (alookup settings k).getD .vnull

/-! ### Backend operations (`backend.py`, deterministic model) -/

/-- `backend.load_raw_image(path)`: succeeds iff the path is loadable,
returning a fresh handle. -/
def loadRaw (lb : String → Bool) (b : Backend) (path : String) :
    Except Err (Int × Backend) :=
  if lb path then .ok (b.nextId, ⟨b.nextId + 1, b.nextId :: b.live⟩)
  else .error .loadError

/-- `backend.load_raw_image` applied to an arbitrary settings value, as the
commands do with a captured `old_filepath`; a non-string raises inside the
call (modelled as `.error`, which the callers' `except Exception` catches). -/
def loadRawS (lb : String → Bool) (b : Backend) (v : SVal) :
    Except Err (Int × Backend) :=
  match v with
  | .vstr p => loadRaw lb b p
  | _ => .error .typeError

/-- `backend.release_raw_image(h)`. -/
def Backend.release (b : Backend) (h : Int) : Backend :=
  { b with live := lremove b.live h }

/-- `backend.release_raw_image` applied to an arbitrary settings value; a
non-integer raises a `TypeError`. -/
def releaseS (b : Backend) (v : SVal) : Except Err Backend :=
  match v with
  | .vint n => .ok (b.release n)
  | _ => .error .typeError

/-- `if h in self.thumbnail_cache: del self.thumbnail_cache[h]`. -/
def Model.purgeThumb (m : Model) (h : Int) : Model :=
  { m with thumbnail_cache := lremove m.thumbnail_cache h }

/-! ### Model operations (`model.py`) -/

/-- `Model._add_node_with_data`. -/
def Model.addNodeWithData (m : Model) (node_id : String) (d : NodeData) :
    Except Err (Model × List Event) :=
  if (alookup m.nodes node_id).isSome then .error .valueError
  else .ok ({ m with nodes := m.nodes ++ [(node_id, d)] }, [.nodeAdded node_id])

/-- The fresh-id search of `Model.add_node` (`node_{uuid4.hex[:8]}` with a
collision re-roll loop), modelled as a counter-driven supply that skips names
already in use.  The fuel (one more than the number of nodes) guarantees a
free name is found. -/
def freshIdAux (nodes : List (String × NodeData)) : Nat → Nat → String × Nat
  | 0, k => ("node_" ++ toString k, k + 1)
  | fuel + 1, k =>
      let cand := "node_" ++ toString k
      if (alookup nodes cand).isSome then freshIdAux nodes fuel (k + 1)
      else (cand, k + 1)

/-- `Model.add_node`: generate a fresh id, insert a node with empty settings,
return the id. -/
def Model.addNode (m : Model) (ctr : Nat) (node_type : String)
    (position : Int × Int) : Except Err (String × Model × Nat × List Event) :=
  let p := freshIdAux m.nodes (m.nodes.length + 1) ctr
  match m.addNodeWithData p.1 ⟨node_type, position, []⟩ with
  | .error e => .error e
  | .ok (m', evs) => .ok (p.1, m', p.2, evs)

/-- `Model.remove_connection`. -/
def Model.removeConnection (m : Model) (c : Connection) :
    Except Err (Model × List Event) :=
  if c ∈ m.connections then
    .ok ({ m with connections := lremove m.connections c }, [.connectionRemoved c])
  else .error .valueError

/-- The `for conn in connections_to_remove: self.remove_connection(conn)` loop
of `Model.remove_node`. -/
def removeConnsList : Model → List Connection → Except Err (Model × List Event)
  | m, [] => .ok (m, [])
  | m, c :: rest =>
      match m.removeConnection c with
      | .error e => .error e
      | .ok (m1, e1) =>
          match removeConnsList m1 rest with
          | .error e => .error e
          | .ok (m2, e2) => .ok (m2, e1 ++ e2)

/-- Whether a connection touches a node (the comprehension filter in
`Model.remove_node`). -/
def Connection.touches (c : Connection) (node_id : String) : Bool :=
  c.from_node == node_id || c.to_node == node_id

/-- `Model.remove_node`: remove incident connections, release the backend
handle of an `ImageLoader` node and purge its thumbnail-cache entry, delete
the node, and emit `node_removed`. -/
def Model.removeNode (m : Model) (b : Backend) (node_id : String) :
    Except Err (Model × Backend × List Event) :=
  match alookup m.nodes node_id with
  | none => .error .valueError
  | some nd =>
    match removeConnsList m (m.connections.filter (·.touches node_id)) with
    | .error e => .error e
    | .ok (m1, evs1) =>
      let step2 : Except Err (Model × Backend) :=
        if nd.ntype = "ImageLoader" then
          let raw := getS nd.settings "raw_image_id"
          if raw = .vnull then .ok (m1, b)
          else
            match releaseS b raw with
            | .error e => .error e
            | .ok b2 =>
                match raw with
                | .vint h => .ok (m1.purgeThumb h, b2)
                | _ => .ok (m1, b2)
        else .ok (m1, b)
      match step2 with
      | .error e => .error e
      | .ok (m2, b2) =>
          .ok ({ m2 with nodes := adel m2.nodes node_id }, b2,
               evs1 ++ [.nodeRemoved node_id])

/-- `Model.update_node_setting`. -/
def Model.updateNodeSetting (m : Model) (node_id key : String) (v : SVal) :
    Except Err (Model × List Event) :=
  match alookup m.nodes node_id with
  | none => .error .valueError
  | some nd =>
      let nd' : NodeData := { nd with settings := aset nd.settings key v }
      .ok ({ m with nodes := aset m.nodes node_id nd' },
           [.nodeSettingChanged node_id key v])

/-- `Model.update_node_position`. -/
def Model.updateNodePosition (m : Model) (node_id : String) (pos : Int × Int) :
    Except Err (Model × List Event) :=
  match alookup m.nodes node_id with
  | none => .error .valueError
  | some nd =>
      let nd' : NodeData := { nd with position := pos }
      .ok ({ m with nodes := aset m.nodes node_id nd' },
           [.nodePositionChanged node_id pos])

/-- `Model.add_connection`: both endpoint nodes must exist and the exact tuple
must be new; the connection is appended and `connection_added` emitted.  Note
that the Python method performs no socket-type check and no single-connection
eviction. -/
def Model.addConnection (m : Model) (c : Connection) :
    Except Err (Model × List Event) :=
  if (alookup m.nodes c.from_node).isNone ∨ (alookup m.nodes c.to_node).isNone then
    .error .valueError
  else if c ∈ m.connections then .error .valueError
  else .ok ({ m with connections := m.connections ++ [c] }, [.connectionAdded c])

/-- `Model.to_dict`: the persisted record, version plus nodes plus
connections, passed through verbatim. -/
structure SerializedDoc where
  version : String
  nodes : List (String × NodeData)
  connections : List Connection
deriving DecidableEq, Repr

/-- `Model.to_dict`. -/
def Model.toDict (m : Model) : SerializedDoc :=
  ⟨m.version, m.nodes, m.connections⟩

/-! ### Commands (`commands/*.py`)

Each Python command object is a value carrying its captured and mutable
fields; `cmdRedo`/`cmdUndo` return the updated command together with the new
world, mirroring the in-place field mutation of the Python classes. -/

/-- The mutable state shared by the controller and the commands: the model,
the backend, and the fresh-name supply behind `uuid4`. -/
structure World where
  model : Model
  backend : Backend
  ctr : Nat
deriving DecidableEq, Repr

/-- The command objects.  `addNodeCmd`'s `node_id` starts as `none` and is
filled in by the first redo; `loadImageCmd` carries `_initial_raw_image_id`
(`initial_raw`), the active `new_raw_image_id` (`new_raw`), and the captured
`old_filepath`/`old_raw_image_id` read with `.get` (so an absent key is the
same `vnull` as a stored `None`, as in Python). -/
inductive Cmd where
  | addNodeCmd (node_type : String) (position : Int × Int) (node_id : Option String)
  | removeNodeCmd (node_id : String) (node_data : NodeData)
      (connections_data : List Connection)
  | addConnCmd (conn_data : Connection)
  | removeConnCmd (conn_data : Connection)
  | moveNodeCmd (node_id : String) (end_pos start_pos : Int × Int)
  | changeSettingCmd (node_id key : String) (new_value old_value : SVal)
  | loadImageCmd (node_id new_filepath : String) (initial_raw : Option Int)
      (new_raw : Option Int) (old_filepath old_raw : SVal)
deriving DecidableEq, Repr

/-- A Python `None`-or-int written into a settings dictionary. -/
def optInt : Option Int → SVal
  | none => .vnull
  | some n => .vint n

/-- The `for conn_data in self.connections_data: add_connection(**conn_data)`
loop of `RemoveNodeCommand.undo`. -/
def addConnsList : Model → List Connection → Except Err (Model × List Event)
  | m, [] => .ok (m, [])
  | m, c :: rest =>
      match m.addConnection c with
      | .error e => .error e
      | .ok (m1, e1) =>
          match addConnsList m1 rest with
          | .error e => .error e
          | .ok (m2, e2) => .ok (m2, e1 ++ e2)

/-- `redo()` of each command class. -/
def cmdRedo (lb : String → Bool) (c : Cmd) (w : World) :
    Except Err (Cmd × World × List Event) :=
  match c with
  | .addNodeCmd ty pos oid =>
    match oid with
    | none =>
        -- first run: create the node and record its id
        match w.model.addNode w.ctr ty pos with
        | .error e => .error e
        | .ok (nid, m', ctr', evs) =>
            .ok (.addNodeCmd ty pos (some nid),
                 { w with model := m', ctr := ctr' }, evs)
    | some nid =>
        -- subsequent redos: re-add with the original id and fresh empty settings
        match w.model.addNodeWithData nid ⟨ty, pos, []⟩ with
        | .error e => .error e
        | .ok (m', evs) => .ok (.addNodeCmd ty pos (some nid), { w with model := m' }, evs)
  | .removeNodeCmd nid _ _ =>
      match w.model.removeNode w.backend nid with
      | .error e => .error e
      | .ok (m', b', evs) => .ok (c, { w with model := m', backend := b' }, evs)
  | .addConnCmd cd =>
      match w.model.addConnection cd with
      | .error e => .error e
      | .ok (m', evs) => .ok (c, { w with model := m' }, evs)
  | .removeConnCmd cd =>
      match w.model.removeConnection cd with
      | .error e => .error e
      | .ok (m', evs) => .ok (c, { w with model := m' }, evs)
  | .moveNodeCmd nid ep _ =>
      match w.model.updateNodePosition nid ep with
      | .error e => .error e
      | .ok (m', evs) => .ok (c, { w with model := m' }, evs)
  | .changeSettingCmd nid k nv _ =>
      match w.model.updateNodeSetting nid k nv with
      | .error e => .error e
      | .ok (m', evs) => .ok (c, { w with model := m' }, evs)
  | .loadImageCmd nid path ini _ ofp oraw =>
      -- release the old image handle (outside any try/except)
      let rel : Except Err (Backend × Model) :=
        if oraw = .vnull then .ok (w.backend, w.model)
        else
          match releaseS w.backend oraw with
          | .error e => .error e
          | .ok b1 =>
              match oraw with
              | .vint h => .ok (b1, w.model.purgeThumb h)
              | _ => .ok (b1, w.model)
      match rel with
      | .error e => .error e
      | .ok (b1, m1) =>
        -- consume the pre-validated handle, or reload (failure caught)
        let pick : Option Int × Option Int × Backend :=
          match ini with
          | some h => (none, some h, b1)
          | none =>
            match loadRaw lb b1 path with
            | .ok (h, b2) => (none, some h, b2)
            | .error _ => (none, none, b1)
        match m1.updateNodeSetting nid "filepath" (.vstr path) with
        | .error e => .error e
        | .ok (m2, e1) =>
          match m2.updateNodeSetting nid "raw_image_id" (optInt pick.2.1) with
          | .error e => .error e
          | .ok (m3, e2) =>
              .ok (.loadImageCmd nid path pick.1 pick.2.1 ofp oraw,
                   { w with model := m3, backend := pick.2.2 }, e1 ++ e2)

/-- `undo()` of each command class. -/
def cmdUndo (lb : String → Bool) (c : Cmd) (w : World) :
    Except Err (Cmd × World × List Event) :=
  match c with
  | .addNodeCmd _ _ oid =>
    match oid with
    | none => .ok (c, w, [])          -- `if self.node_id:` — falsy, no-op
    | some nid =>
        if nid = "" then .ok (c, w, [])  -- empty string is falsy too
        else
          match w.model.removeNode w.backend nid with
          | .error e => .error e
          | .ok (m', b', evs) => .ok (c, { w with model := m', backend := b' }, evs)
  | .removeNodeCmd nid nd conns =>
      match w.model.addNodeWithData nid nd with
      | .error e => .error e
      | .ok (m1, e1) =>
          match addConnsList m1 conns with
          | .error e => .error e
          | .ok (m2, e2) => .ok (c, { w with model := m2 }, e1 ++ e2)
  | .addConnCmd cd =>
      match w.model.removeConnection cd with
      | .error e => .error e
      | .ok (m', evs) => .ok (c, { w with model := m' }, evs)
  | .removeConnCmd cd =>
      match w.model.addConnection cd with
      | .error e => .error e
      | .ok (m', evs) => .ok (c, { w with model := m' }, evs)
  | .moveNodeCmd nid _ sp =>
      match w.model.updateNodePosition nid sp with
      | .error e => .error e
      | .ok (m', evs) => .ok (c, { w with model := m' }, evs)
  | .changeSettingCmd nid k _ ov =>
      match w.model.updateNodeSetting nid k ov with
      | .error e => .error e
      | .ok (m', evs) => .ok (c, { w with model := m' }, evs)
  | .loadImageCmd nid path ini nraw ofp _ =>
      -- release the new image handle and purge its thumbnail entry
      let relStep : Backend × Model :=
        match nraw with
        | some h => (w.backend.release h, w.model.purgeThumb h)
        | none => (w.backend, w.model)
      -- reload the old file to get a fresh handle (failure degrades)
      let reStep : SVal × SVal × Backend :=
        if ofp.truthy then
          match loadRawS lb relStep.1 ofp with
          | .ok (h, b') => (ofp, .vint h, b')
          | .error _ => (.vnull, .vnull, relStep.1)
        else (ofp, .vnull, relStep.1)
      match relStep.2.updateNodeSetting nid "filepath" reStep.1 with
      | .error e => .error e
      | .ok (m2, e1) =>
        match m2.updateNodeSetting nid "raw_image_id" reStep.2.1 with
        | .error e => .error e
        | .ok (m3, e2) =>
            .ok (.loadImageCmd nid path ini none reStep.1 reStep.2.1,
                 { w with model := m3, backend := reStep.2.2 }, e1 ++ e2)

/-! ### Controller push paths (`controller.py`) -/

/-- A user-level edit request, as issued to the controller. -/
inductive CmdSpec where
  | addNode (node_type : String) (position : Int × Int)
  | removeNode (node_id : String)
  | addConn (c : Connection)
  | removeConn (c : Connection)
  | moveNode (node_id : String) (end_pos start_pos : Int × Int)
  | changeSetting (node_id key : String) (v : SVal)
  | loadImage (node_id : String) (path : String)
deriving DecidableEq, Repr

/-- Command construction.  `removeNode` and `changeSetting` read the model at
construction time (a missing node raises `KeyError`); `loadImage` performs the
controller's pre-validating `backend.load_raw_image` (a failure means no
command is pushed at all) and captures the node's previous
filepath/handle settings. -/
def mkCmd (lb : String → Bool) (s : CmdSpec) (w : World) : Except Err (Cmd × World) :=
  match s with
  | .addNode ty pos => .ok (.addNodeCmd ty pos none, w)
  | .removeNode nid =>
    match alookup w.model.nodes nid with
    | none => .error .keyError
    | some nd =>
        .ok (.removeNodeCmd nid nd (w.model.connections.filter (·.touches nid)), w)
  | .addConn c => .ok (.addConnCmd c, w)
  | .removeConn c => .ok (.removeConnCmd c, w)
  | .moveNode nid ep sp => .ok (.moveNodeCmd nid ep sp, w)
  | .changeSetting nid k v =>
    match alookup w.model.nodes nid with
    | none => .error .keyError
    | some nd => .ok (.changeSettingCmd nid k v (getS nd.settings k), w)
  | .loadImage nid path =>
    match alookup w.model.nodes nid with
    | none => .error .keyError
    | some nd =>
        match loadRaw lb w.backend path with
        | .error e => .error e
        | .ok (h, b') =>
            .ok (.loadImageCmd nid path (some h) none
                   (getS nd.settings "filepath") (getS nd.settings "raw_image_id"),
                 { w with backend := b' })

/-- `QUndoStack.push`: construct the command, then execute its `redo`. -/
def pushCmd (lb : String → Bool) (s : CmdSpec) (w : World) :
    Except Err (Cmd × World) :=
  match mkCmd lb s w with
  | .error e => .error e
  | .ok (c, w1) =>
      match cmdRedo lb c w1 with
      | .error e => .error e
      | .ok (c', w2, _) => .ok (c', w2)

/-- Push a sequence of edits, collecting the executed commands in order. -/
def pushAll (lb : String → Bool) : List CmdSpec → World → Except Err (List Cmd × World)
  | [], w => .ok ([], w)
  | s :: ss, w =>
      match pushCmd lb s w with
      | .error e => .error e
      | .ok (c, w1) =>
          match pushAll lb ss w1 with
          | .error e => .error e
          | .ok (cs, w2) => .ok (c :: cs, w2)

/-- Undo every command of the history, most recent first, returning the
commands in their post-undo states (in original order). -/
def undoAll (lb : String → Bool) : List Cmd → World → Except Err (List Cmd × World)
  | [], w => .ok ([], w)
  | c :: cs, w =>
      match undoAll lb cs w with
      | .error e => .error e
      | .ok (cs', w1) =>
          match cmdUndo lb c w1 with
          | .error e => .error e
          | .ok (c', w2, _) => .ok (c' :: cs', w2)

/-- Redo every command of the history, oldest first. -/
def redoAll (lb : String → Bool) : List Cmd → World → Except Err (List Cmd × World)
  | [], w => .ok ([], w)
  | c :: cs, w =>
      match cmdRedo lb c w with
      | .error e => .error e
      | .ok (c', w1, _) =>
          match redoAll lb cs w1 with
          | .error e => .error e
          | .ok (cs', w2) => .ok (c' :: cs', w2)

/-! ### Socket declarations of the view layer (`nodes.py`)

`NodeImageLoader` declares multi-connection outputs `RAW_out`, `CFA_out`,
`Metadata_out`; `NodeBlackLevels` declares single-connection inputs and
multi-connection outputs for `RAW`, `CFA`, `Metadata`.  The document itself
stores no socket metadata — this table reproduces the GUI declarations so
that type tags and multiplicities can be spoken about. -/

/-- `(type tag, is single-connection)` of a socket, per the GUI node classes. -/
def socketInfo : String → String → Option (String × Bool)
  | "ImageLoader", "RAW_out" => some ("Raw", false)
  | "ImageLoader", "CFA_out" => some ("CFA", false)
  | "ImageLoader", "Metadata_out" => some ("Metadata", false)
  | "BlackLevels", "RAW_in" => some ("Raw", true)
  | "BlackLevels", "RAW_out" => some ("Raw", false)
  | "BlackLevels", "CFA_in" => some ("CFA", true)
  | "BlackLevels", "CFA_out" => some ("CFA", false)
  | "BlackLevels", "Metadata_in" => some ("Metadata", true)
  | "BlackLevels", "Metadata_out" => some ("Metadata", false)
  | _, _ => none

/-- The socket named `(node, socket)` is an endpoint of connection `c`. -/
def Connection.hasEndpoint (c : Connection) (node socket : String) : Bool :=
  (c.from_node == node && c.from_socket == socket) ||
  (c.to_node == node && c.to_socket == socket)

/-! ### Well-formedness of a document state

Dictionary keys are unique, the connection list is duplicate-free (enforced
by `add_connection`), and every connection references existing nodes. -/

def WFModel (m : Model) : Prop :=
  (m.nodes.map Prod.fst).Nodup ∧ m.connections.Nodup ∧
  ∀ c ∈ m.connections,
    (alookup m.nodes c.from_node).isSome ∧ (alookup m.nodes c.to_node).isSome

instance (m : Model) : Decidable (WFModel m) := by
  unfold WFModel; infer_instance

/-! ### Lemmas: association lists -/

theorem alookup_aset {α : Type} (l : List (String × α)) (k : String) (v : α)
    (k' : String) :
    alookup (aset l k v) k' = if k = k' then some v else alookup l k' := by
  induction l with
  | nil => simp [aset, alookup]
  | cons p t ih =>
      obtain ⟨k0, w⟩ := p
      by_cases h0 : k0 = k
      · subst h0
        simp only [aset, if_pos rfl, alookup]
        by_cases h1 : k0 = k'
        · simp [h1]
        · simp [h1, alookup]
      · simp only [aset, if_neg h0, alookup]
        by_cases h1 : k0 = k'
        · subst h1
          have : ¬ k = k0 := fun h => h0 h.symm
          simp [this]
        · simp [h1, ih]

theorem alookup_isSome_iff_mem {α : Type} (l : List (String × α)) (k : String) :
    (alookup l k).isSome ↔ k ∈ l.map Prod.fst := by
  induction l with
  | nil => simp [alookup]
  | cons p t ih =>
      obtain ⟨k0, w⟩ := p
      by_cases h0 : k0 = k
      · subst h0; simp [alookup]
      · simp [alookup, h0, ih, Ne.symm h0]

theorem alookup_eq_none_iff_not_mem {α : Type} (l : List (String × α)) (k : String) :
    alookup l k = none ↔ k ∉ l.map Prod.fst := by
  rw [← alookup_isSome_iff_mem, Option.isSome_iff_exists]
  cases alookup l k <;> simp

theorem keys_aset {α : Type} (l : List (String × α)) (k : String) (v : α) :
    (aset l k v).map Prod.fst =
      if k ∈ l.map Prod.fst then l.map Prod.fst else l.map Prod.fst ++ [k] := by
  induction l with
  | nil => simp [aset]
  | cons p t ih =>
      obtain ⟨k0, w⟩ := p
      by_cases h0 : k0 = k
      · subst h0; simp [aset]
      · simp only [aset, if_neg h0, List.map_cons]
        by_cases h1 : k ∈ t.map Prod.fst
        · simp [h1, ih, Ne.symm h0]
        · simp [h1, ih, Ne.symm h0]

theorem nodup_keys_aset {α : Type} {l : List (String × α)} (k : String) (v : α)
    (h : (l.map Prod.fst).Nodup) : ((aset l k v).map Prod.fst).Nodup := by
  rw [keys_aset]
  by_cases h1 : k ∈ l.map Prod.fst
  · simpa [h1] using h
  · simp only [h1, if_false]
    exact List.Nodup.append h (List.nodup_singleton k) (by simpa using h1)

theorem keys_adel {α : Type} (l : List (String × α)) (k : String) :
    (adel l k).map Prod.fst = (l.map Prod.fst).erase k := by
  induction l with
  | nil => simp [adel]
  | cons p t ih =>
      obtain ⟨k0, w⟩ := p
      by_cases h0 : k0 = k
      · subst h0; simp [adel, List.erase_cons_head]
      · simp [adel, h0, List.erase_cons_tail, ih, List.beq_eq_decide, h0]

theorem nodup_keys_adel {α : Type} {l : List (String × α)} (k : String)
    (h : (l.map Prod.fst).Nodup) : ((adel l k).map Prod.fst).Nodup := by
  rw [keys_adel]; exact h.erase k

theorem alookup_adel {α : Type} (l : List (String × α)) (k k' : String)
    (hnd : (l.map Prod.fst).Nodup) :
    alookup (adel l k) k' = if k = k' then none else alookup l k' := by
  induction l with
  | nil => simp [adel, alookup]
  | cons p t ih =>
      obtain ⟨k0, w⟩ := p
      simp only [List.map_cons, List.nodup_cons] at hnd
      by_cases h0 : k0 = k
      · subst h0
        simp only [adel, if_pos rfl]
        by_cases h1 : k0 = k'
        · subst h1
          simp only [if_pos rfl]
          exact (alookup_eq_none_iff_not_mem t k0).2 hnd.1
        · simp [alookup, h1]
      · simp only [adel, if_neg h0, alookup]
        by_cases h1 : k0 = k'
        · subst h1
          have : ¬ k = k0 := fun h => h0 h.symm
          simp [this]
        · simp [h1, ih hnd.2]

theorem alookup_append_some {α : Type} {l1 : List (String × α)}
    (l2 : List (String × α)) {k : String} {v : α}
    (h : alookup l1 k = some v) : alookup (l1 ++ l2) k = some v := by
  induction l1 with
  | nil => simp [alookup] at h
  | cons p t ih =>
      obtain ⟨k0, w⟩ := p
      by_cases h0 : k0 = k
      · subst h0; simp [alookup] at h ⊢; simpa using h
      · simp [alookup, h0] at h ⊢; exact ih h

theorem alookup_append_none {α : Type} {l1 : List (String × α)}
    (l2 : List (String × α)) {k : String}
    (h : alookup l1 k = none) : alookup (l1 ++ l2) k = alookup l2 k := by
  induction l1 with
  | nil => simp [alookup]
  | cons p t ih =>
      obtain ⟨k0, w⟩ := p
      by_cases h0 : k0 = k
      · subst h0; simp [alookup] at h
      · simp [alookup, h0] at h ⊢; exact ih h

/-! ### Lemmas: `lremove` -/

theorem lremove_of_not_mem {α : Type} [DecidableEq α] {l : List α} {a : α}
    (h : a ∉ l) : lremove l a = l := by
  induction l with
  | nil => rfl
  | cons x t ih =>
      simp only [List.mem_cons, not_or] at h
      simp [lremove, Ne.symm h.1, ih h.2]

theorem lremove_subset {α : Type} [DecidableEq α] (l : List α) (a : α) :
    lremove l a ⊆ l := by
  induction l with
  | nil => simp [lremove]
  | cons x t ih =>
      by_cases h : x = a
      · simp [lremove, h, List.subset_cons_self]
      · simp only [lremove, if_neg h]
        exact List.cons_subset_cons x ih

theorem mem_lremove {α : Type} [DecidableEq α] {l : List α} (hnd : l.Nodup)
    (a x : α) : x ∈ lremove l a ↔ x ∈ l ∧ x ≠ a := by
  induction l with
  | nil => simp [lremove]
  | cons y t ih =>
      simp only [List.nodup_cons] at hnd
      by_cases h : y = a
      · subst h
        simp only [lremove, if_pos rfl]
        constructor
        · intro hx
          exact ⟨List.mem_cons_of_mem _ hx, fun he => hnd.1 (he ▸ hx)⟩
        · rintro ⟨hx, hne⟩
          rcases List.mem_cons.1 hx with h1 | h1
          · exact absurd h1 hne
          · exact h1
      · simp only [lremove, if_neg h, List.mem_cons]
        rw [ih hnd.2]
        constructor
        · rintro (h1 | ⟨h1, h2⟩)
          · exact ⟨Or.inl h1, by rw [h1]; exact h⟩
          · exact ⟨Or.inr h1, h2⟩
        · rintro ⟨h1 | h1, h2⟩
          · exact Or.inl h1
          · exact Or.inr ⟨h1, h2⟩

theorem lremove_nodup {α : Type} [DecidableEq α] {l : List α} (hnd : l.Nodup)
    (a : α) : (lremove l a).Nodup := by
  induction l with
  | nil => simp [lremove]
  | cons y t ih =>
      simp only [List.nodup_cons] at hnd
      by_cases h : y = a
      · simp [lremove, h, hnd.2]
      · simp only [lremove, if_neg h, List.nodup_cons]
        exact ⟨fun hmem => hnd.1 (lremove_subset t a hmem), ih hnd.2⟩

theorem lremove_perm {α : Type} [DecidableEq α] {l : List α} {a : α}
    (h : a ∈ l) : List.Perm (a :: lremove l a) l := by
  induction l with
  | nil => simp at h
  | cons y t ih =>
      by_cases h0 : y = a
      · subst h0; simp [lremove]
      · simp only [lremove, if_neg h0]
        have hat : a ∈ t := by
          rcases List.mem_cons.1 h with h1 | h1
          · exact absurd h1.symm h0
          · exact h1
        exact (List.Perm.swap y a (lremove t a)).trans ((ih hat).cons y)

/-! ### Lemmas: removing / adding a batch of connections -/

/-- The pure effect on the connection list of removing each element of `xs`
in turn. -/
def eraseAll : List Connection → List Connection → List Connection
  | l, [] => l
  | l, x :: xs => eraseAll (lremove l x) xs

theorem eraseAll_nodup {l : List Connection} (hl : l.Nodup) (xs : List Connection) :
    (eraseAll l xs).Nodup := by
  induction xs generalizing l with
  | nil => exact hl
  | cons x xs ih => exact ih (lremove_nodup hl x)

theorem mem_eraseAll {l : List Connection} (hl : l.Nodup) (xs : List Connection)
    (c : Connection) : c ∈ eraseAll l xs ↔ c ∈ l ∧ c ∉ xs := by
  induction xs generalizing l with
  | nil => simp [eraseAll]
  | cons x xs ih =>
      simp only [eraseAll]
      rw [ih (lremove_nodup hl x), mem_lremove hl]
      simp only [List.mem_cons, not_or]
      tauto

theorem eraseAll_cons_not_mem {t : List Connection} {c : Connection}
    {xs : List Connection} (h : c ∉ xs) :
    eraseAll (c :: t) xs = c :: eraseAll t xs := by
  induction xs generalizing t with
  | nil => rfl
  | cons x xs ih =>
      simp only [List.mem_cons, not_or] at h
      simp only [eraseAll, lremove, if_neg h.1]
      exact ih h.2

theorem eraseAll_filter {l : List Connection} (hl : l.Nodup) (p : Connection → Bool) :
    eraseAll l (l.filter p) = l.filter (fun c => !(p c)) := by
  induction l with
  | nil => rfl
  | cons c t ih =>
      simp only [List.nodup_cons] at hl
      by_cases hp : p c
      · simp only [List.filter_cons, hp, if_pos, eraseAll, lremove, if_pos rfl]
        rw [ih hl.2]
        simp [hp]
      · have hpc : p c = false := by simpa using hp
        simp only [List.filter_cons, hpc, Bool.false_eq_true, if_false]
        have hnm : c ∉ t.filter p := fun hmem => hl.1 (List.mem_of_mem_filter hmem)
        rw [eraseAll_cons_not_mem hnm, ih hl.2]
        simp [hpc]

theorem eraseAll_append_perm {l xs : List Connection} (hl : l.Nodup)
    (hxs : xs.Nodup) (hsub : ∀ x ∈ xs, x ∈ l) :
    List.Perm (eraseAll l xs ++ xs) l := by
  induction xs generalizing l with
  | nil => simp [eraseAll]
  | cons x xs ih =>
      simp only [List.nodup_cons] at hxs
      have hxl : x ∈ l := hsub x (List.mem_cons_self x xs)
      have hsub' : ∀ y ∈ xs, y ∈ lremove l x := by
        intro y hy
        refine (mem_lremove hl x y).2 ⟨hsub y (List.mem_cons_of_mem _ hy), ?_⟩
        intro he; exact hxs.1 (he ▸ hy)
      have hperm := ih (lremove_nodup hl x) hxs.2 hsub'
      simp only [eraseAll]
      have h1 : List.Perm (eraseAll (lremove l x) xs ++ x :: xs)
          (x :: (eraseAll (lremove l x) xs ++ xs)) := List.perm_middle
      exact h1.trans ((hperm.cons x).trans (lremove_perm hxl))

theorem removeConnsList_ok (m : Model) (xs : List Connection)
    (hxs : xs.Nodup) (hsub : ∀ x ∈ xs, x ∈ m.connections)
    (hc : m.connections.Nodup) :
    removeConnsList m xs =
      .ok ({ m with connections := eraseAll m.connections xs },
           xs.map Event.connectionRemoved) := by
  induction xs generalizing m with
  | nil =>
      simp only [removeConnsList, eraseAll, List.map_nil]
  | cons x xs ih =>
      simp only [List.nodup_cons] at hxs
      have hx : x ∈ m.connections := hsub x (List.mem_cons_self x xs)
      have h1 : m.removeConnection x =
          .ok ({ m with connections := lremove m.connections x },
               [.connectionRemoved x]) := by
        simp [Model.removeConnection, hx]
      have hsub' : ∀ y ∈ xs, y ∈ lremove m.connections x := by
        intro y hy
        refine (mem_lremove hc x y).2 ⟨hsub y (List.mem_cons_of_mem _ hy), ?_⟩
        intro he; exact hxs.1 (he ▸ hy)
      simp only [removeConnsList, h1]
      rw [ih _ hxs.2 hsub' (lremove_nodup hc x)]
      simp [eraseAll]

theorem addConnsList_ok (m : Model) (xs : List Connection)
    (hxs : xs.Nodup)
    (hnodes : ∀ x ∈ xs, (alookup m.nodes x.from_node).isSome ∧
      (alookup m.nodes x.to_node).isSome)
    (hnew : ∀ x ∈ xs, x ∉ m.connections) :
    addConnsList m xs =
      .ok ({ m with connections := m.connections ++ xs },
           xs.map Event.connectionAdded) := by
  induction xs generalizing m with
  | nil => simp only [addConnsList, List.append_nil, List.map_nil]
  | cons x xs ih =>
      simp only [List.nodup_cons] at hxs
      have hx := hnodes x (List.mem_cons_self x xs)
      have hmem := hnew x (List.mem_cons_self x xs)
      have h1 : m.addConnection x =
          .ok ({ m with connections := m.connections ++ [x] },
               [.connectionAdded x]) := by
        simp only [Model.addConnection]
        rw [if_neg, if_neg hmem]
        simp only [Option.isNone_iff_eq_none]
        rw [not_or]
        constructor
        · intro hh; rw [hh] at hx; simp at hx
        · intro hh; rw [hh] at hx; simp at hx
      simp only [addConnsList, h1]
      rw [ih _ hxs.2 ?_ ?_]
      · simp
      · intro y hy
        simpa using hnodes y (List.mem_cons_of_mem _ hy)
      · intro y hy
        simp only [List.mem_append, List.mem_singleton, not_or]
        exact ⟨hnew y (List.mem_cons_of_mem _ hy), fun he => hxs.1 (he ▸ hy)⟩

/-! ### Observations on a model -/

/-- The node stored under an id. -/
def nlook (m : Model) (id : String) : Option NodeData := alookup m.nodes id

/-- The settings value stored under a key of a node. -/
def slook (m : Model) (id k : String) : Option SVal :=
  (nlook m id).bind (fun nd => alookup nd.settings k)

/-- The type of a node. -/
def ptype (m : Model) (id : String) : Option String :=
  (nlook m id).map NodeData.ntype

/-- The position of a node. -/
def ppos (m : Model) (id : String) : Option (Int × Int) :=
  (nlook m id).map NodeData.position

theorem nlook_set (m : Model) (nid : String) (nd' : NodeData) (id : String) :
    nlook { m with nodes := aset m.nodes nid nd' } id =
      if nid = id then some nd' else nlook m id := by
  simp only [nlook, alookup_aset]

theorem nlook_adel {m : Model} (hnd : (m.nodes.map Prod.fst).Nodup)
    (nid id : String) :
    nlook { m with nodes := adel m.nodes nid } id =
      if nid = id then none else nlook m id := by
  simp only [nlook, alookup_adel _ _ _ hnd]

theorem nlook_append {m : Model} {nid : String} (nd : NodeData)
    (h : alookup m.nodes nid = none) (id : String) :
    nlook { m with nodes := m.nodes ++ [(nid, nd)] } id =
      if nid = id then some nd else nlook m id := by
  simp only [nlook]
  by_cases he : nid = id
  · subst he
    rw [alookup_append_none _ h]
    simp [alookup]
  · rw [if_neg he]
    cases hl : alookup m.nodes id with
    | some v => exact alookup_append_some _ hl
    | none =>
        rw [alookup_append_none _ hl]
        simp [alookup, he]

/-! ### Characterization of the model operations -/

theorem updateNodeSetting_eq {m : Model} {nid : String} {nd : NodeData}
    (h : alookup m.nodes nid = some nd) (k : String) (v : SVal) :
    m.updateNodeSetting nid k v =
      .ok ({ m with nodes := (aset m.nodes nid
               ⟨nd.ntype, nd.position, aset nd.settings k v⟩) },
           [.nodeSettingChanged nid k v]) := by
  simp [Model.updateNodeSetting, h]

theorem updateNodeSetting_ok_inv {m m' : Model} {nid k : String} {v : SVal}
    {evs : List Event}
    (h : m.updateNodeSetting nid k v = .ok (m', evs)) :
    ∃ nd, alookup m.nodes nid = some nd ∧
      m' = { m with nodes := aset m.nodes nid ⟨nd.ntype, nd.position, aset nd.settings k v⟩ } ∧
      evs = [.nodeSettingChanged nid k v] := by
  cases hl : alookup m.nodes nid with
  | none => simp [Model.updateNodeSetting, hl] at h
  | some nd =>
      refine ⟨nd, rfl, ?_⟩
      rw [updateNodeSetting_eq hl] at h
      simpa [eq_comm] using (Except.ok.inj h)

theorem updateNodePosition_eq {m : Model} {nid : String} {nd : NodeData}
    (h : alookup m.nodes nid = some nd) (pos : Int × Int) :
    m.updateNodePosition nid pos =
      .ok ({ m with nodes := aset m.nodes nid ⟨nd.ntype, pos, nd.settings⟩ },
           [.nodePositionChanged nid pos]) := by
  simp [Model.updateNodePosition, h]

theorem updateNodePosition_ok_inv {m m' : Model} {nid : String} {pos : Int × Int}
    {evs : List Event}
    (h : m.updateNodePosition nid pos = .ok (m', evs)) :
    ∃ nd, alookup m.nodes nid = some nd ∧
      m' = { m with nodes := aset m.nodes nid ⟨nd.ntype, pos, nd.settings⟩ } ∧
      evs = [.nodePositionChanged nid pos] := by
  cases hl : alookup m.nodes nid with
  | none => simp [Model.updateNodePosition, hl] at h
  | some nd =>
      refine ⟨nd, rfl, ?_⟩
      rw [updateNodePosition_eq hl] at h
      simpa [eq_comm] using (Except.ok.inj h)

theorem addNodeWithData_eq {m : Model} {nid : String}
    (h : alookup m.nodes nid = none) (nd : NodeData) :
    m.addNodeWithData nid nd =
      .ok ({ m with nodes := m.nodes ++ [(nid, nd)] }, [.nodeAdded nid]) := by
  simp [Model.addNodeWithData, h]

theorem addNodeWithData_ok_inv {m m' : Model} {nid : String} {nd : NodeData}
    {evs : List Event}
    (h : m.addNodeWithData nid nd = .ok (m', evs)) :
    alookup m.nodes nid = none ∧
      m' = { m with nodes := m.nodes ++ [(nid, nd)] } ∧ evs = [.nodeAdded nid] := by
  by_cases hl : (alookup m.nodes nid).isSome
  · simp [Model.addNodeWithData, hl] at h
  · have hn : alookup m.nodes nid = none := by
      cases he : alookup m.nodes nid with
      | none => rfl
      | some v => rw [he] at hl; simp at hl
    refine ⟨hn, ?_⟩
    rw [addNodeWithData_eq hn] at h
    simpa [eq_comm] using (Except.ok.inj h)

theorem addConnection_eq {m : Model} {c : Connection}
    (h1 : (alookup m.nodes c.from_node).isSome)
    (h2 : (alookup m.nodes c.to_node).isSome)
    (h3 : c ∉ m.connections) :
    m.addConnection c =
      .ok ({ m with connections := m.connections ++ [c] }, [.connectionAdded c]) := by
  have hn1 : ¬ (alookup m.nodes c.from_node).isNone := by
    simp only [Option.isNone_iff_eq_none]
    intro hh; rw [hh] at h1; simp at h1
  have hn2 : ¬ (alookup m.nodes c.to_node).isNone := by
    simp only [Option.isNone_iff_eq_none]
    intro hh; rw [hh] at h2; simp at h2
  simp only [Model.addConnection]
  rw [if_neg (by rw [not_or]; exact ⟨hn1, hn2⟩), if_neg h3]

theorem addConnection_ok_inv {m m' : Model} {c : Connection} {evs : List Event}
    (h : m.addConnection c = .ok (m', evs)) :
    (alookup m.nodes c.from_node).isSome ∧ (alookup m.nodes c.to_node).isSome ∧
      c ∉ m.connections ∧
      m' = { m with connections := m.connections ++ [c] } ∧
      evs = [.connectionAdded c] := by
  by_cases h1 : (alookup m.nodes c.from_node).isNone ∨ (alookup m.nodes c.to_node).isNone
  · simp only [Model.addConnection, if_pos h1] at h
    exact absurd h (by simp)
  · by_cases h2 : c ∈ m.connections
    · simp only [Model.addConnection, if_neg h1, if_pos h2] at h
      exact absurd h (by simp)
    · rw [not_or] at h1
      obtain ⟨ha, hb⟩ := h1
      simp only [Option.isNone_iff_eq_none] at ha hb
      have ha' : (alookup m.nodes c.from_node).isSome := by
        cases he : alookup m.nodes c.from_node with
        | none => exact absurd he ha
        | some v => simp
      have hb' : (alookup m.nodes c.to_node).isSome := by
        cases he : alookup m.nodes c.to_node with
        | none => exact absurd he hb
        | some v => simp
      refine ⟨ha', hb', h2, ?_⟩
      rw [addConnection_eq ha' hb' h2] at h
      simpa [eq_comm] using (Except.ok.inj h)

theorem removeConnection_eq {m : Model} {c : Connection}
    (h : c ∈ m.connections) :
    m.removeConnection c =
      .ok ({ m with connections := lremove m.connections c },
           [.connectionRemoved c]) := by
  simp [Model.removeConnection, h]

theorem removeConnection_ok_inv {m m' : Model} {c : Connection} {evs : List Event}
    (h : m.removeConnection c = .ok (m', evs)) :
    c ∈ m.connections ∧
      m' = { m with connections := lremove m.connections c } ∧
      evs = [.connectionRemoved c] := by
  by_cases hc : c ∈ m.connections
  · refine ⟨hc, ?_⟩
    rw [removeConnection_eq hc] at h
    simpa [eq_comm] using (Except.ok.inj h)
  · simp [Model.removeConnection, hc] at h

/-- `raw_image_id` of a node's settings, as read with `.get`. -/
def rawOf (nd : NodeData) : SVal := getS nd.settings "raw_image_id"

/-- The release performed by `Model.remove_node` on an `ImageLoader` node. -/
def releaseIfHandle (b : Backend) (nd : NodeData) : Backend :=
  if nd.ntype = "ImageLoader" then
    match rawOf nd with
    | .vint h => b.release h
    | _ => b
  else b

/-- The thumbnail-cache purge performed by `Model.remove_node`. -/
def purgeIfHandle (tc : List Int) (nd : NodeData) : List Int :=
  if nd.ntype = "ImageLoader" then
    match rawOf nd with
    | .vint h => lremove tc h
    | _ => tc
  else tc

/-- `remove_node` does not raise iff an `ImageLoader` node's raw id is an
integer or `None`/absent. -/
def releaseSafe (nd : NodeData) : Prop :=
  nd.ntype = "ImageLoader" → (rawOf nd).isHandleLike = true

instance (nd : NodeData) : Decidable (releaseSafe nd) := by
  unfold releaseSafe; infer_instance

theorem removeNode_eq {m : Model} {nid : String} {nd : NodeData} (b : Backend)
    (h : alookup m.nodes nid = some nd) (hc : m.connections.Nodup)
    (hsafe : releaseSafe nd) :
    m.removeNode b nid =
      .ok ({ version := m.version,
             nodes := adel m.nodes nid,
             connections := m.connections.filter (fun c => !(c.touches nid)),
             thumbnail_cache := purgeIfHandle m.thumbnail_cache nd },
           releaseIfHandle b nd,
           (m.connections.filter (·.touches nid)).map Event.connectionRemoved
             ++ [.nodeRemoved nid]) := by
  have hrc := removeConnsList_ok m (m.connections.filter (·.touches nid))
      (hc.filter _) (fun x hx => List.mem_of_mem_filter hx) hc
  rw [eraseAll_filter hc] at hrc
  simp only [Model.removeNode, h, hrc]
  simp only [releaseIfHandle, purgeIfHandle, rawOf]
  by_cases hil : nd.ntype = "ImageLoader"
  · have hhl := hsafe hil
    simp only [rawOf] at hhl
    cases hraw : getS nd.settings "raw_image_id" with
    | vnull => simp [hil, hraw]
    | vstr s => rw [hraw] at hhl; simp [SVal.isHandleLike] at hhl
    | vint n => simp [hil, hraw, releaseS, Model.purgeThumb]
  · simp [hil]

theorem removeNode_err_absent {m : Model} {nid : String} (b : Backend)
    (h : alookup m.nodes nid = none) :
    m.removeNode b nid = .error .valueError := by
  simp [Model.removeNode, h]

theorem removeNode_ok_inv {m m' : Model} {b b' : Backend} {nid : String}
    {evs : List Event} (hc : m.connections.Nodup)
    (h : m.removeNode b nid = .ok (m', b', evs)) :
    ∃ nd, alookup m.nodes nid = some nd ∧ releaseSafe nd ∧
      m'.version = m.version ∧
      m'.nodes = adel m.nodes nid ∧
      m'.connections = m.connections.filter (fun c => !(c.touches nid)) ∧
      m'.thumbnail_cache = purgeIfHandle m.thumbnail_cache nd ∧
      b' = releaseIfHandle b nd ∧
      evs = (m.connections.filter (·.touches nid)).map Event.connectionRemoved
               ++ [.nodeRemoved nid] := by
  cases hl : alookup m.nodes nid with
  | none => rw [removeNode_err_absent b hl] at h; exact absurd h (by simp)
  | some nd =>
      by_cases hsafe : releaseSafe nd
      · rw [removeNode_eq b hl hc hsafe] at h
        obtain ⟨h1, h2⟩ := Prod.mk.injEq .. ▸ (Except.ok.inj h)
        obtain ⟨h2, h3⟩ := Prod.mk.injEq .. ▸ h2
        refine ⟨nd, rfl, hsafe, ?_⟩
        rw [← h1, ← h2, ← h3]
        exact ⟨rfl, rfl, rfl, rfl, rfl, rfl⟩
      · exfalso
        have hil : nd.ntype = "ImageLoader" := by
          by_contra hni
          exact hsafe (fun hx => absurd hx hni)
        have hstr : ∃ s, rawOf nd = .vstr s := by
          cases hr : rawOf nd with
          | vnull => exact absurd (fun _ => by rw [hr]; rfl) hsafe
          | vint n => exact absurd (fun _ => by rw [hr]; rfl) hsafe
          | vstr s => exact ⟨s, rfl⟩
        obtain ⟨s, hs⟩ := hstr
        simp only [rawOf] at hs
        have hrc := removeConnsList_ok m (m.connections.filter (·.touches nid))
            (hc.filter _) (fun x hx => List.mem_of_mem_filter hx) hc
        have hne : ¬ ((SVal.vstr s) = SVal.vnull) := by simp
        simp only [Model.removeNode, hl, hrc, hil, if_pos, hs, if_neg hne,
          releaseS] at h
        exact absurd h (by simp)

/-! ### Well-formedness preservation -/

theorem WF_of_updateNodeSetting {m m' : Model} {nid k : String} {v : SVal}
    {evs : List Event} (hwf : WFModel m)
    (h : m.updateNodeSetting nid k v = .ok (m', evs)) : WFModel m' := by
  obtain ⟨nd, hnd, hm', _⟩ := updateNodeSetting_ok_inv h
  obtain ⟨hk, hcn, hce⟩ := hwf
  subst hm'
  refine ⟨?_, hcn, ?_⟩
  · exact nodup_keys_aset _ _ hk
  · intro c hcmem
    obtain ⟨he1, he2⟩ := hce c hcmem
    constructor <;>
    · simp only [alookup_aset]
      split
      · simp
      · assumption

theorem WF_of_updateNodePosition {m m' : Model} {nid : String} {pos : Int × Int}
    {evs : List Event} (hwf : WFModel m)
    (h : m.updateNodePosition nid pos = .ok (m', evs)) : WFModel m' := by
  obtain ⟨nd, hnd, hm', _⟩ := updateNodePosition_ok_inv h
  obtain ⟨hk, hcn, hce⟩ := hwf
  subst hm'
  refine ⟨?_, hcn, ?_⟩
  · exact nodup_keys_aset _ _ hk
  · intro c hcmem
    obtain ⟨he1, he2⟩ := hce c hcmem
    constructor <;>
    · simp only [alookup_aset]
      split
      · simp
      · assumption

theorem WF_of_addNodeWithData {m m' : Model} {nid : String} {nd : NodeData}
    {evs : List Event} (hwf : WFModel m)
    (h : m.addNodeWithData nid nd = .ok (m', evs)) : WFModel m' := by
  obtain ⟨habs, hm', _⟩ := addNodeWithData_ok_inv h
  obtain ⟨hk, hcn, hce⟩ := hwf
  subst hm'
  refine ⟨?_, hcn, ?_⟩
  · simp only [List.map_append, List.map_cons, List.map_nil]
    refine List.Nodup.append hk (List.nodup_singleton nid) ?_
    simpa using (alookup_eq_none_iff_not_mem m.nodes nid).1 habs
  · intro c hcmem
    obtain ⟨he1, he2⟩ := hce c hcmem
    constructor
    · obtain ⟨v, hv⟩ := Option.isSome_iff_exists.1 he1
      rw [alookup_append_some _ hv]; simp
    · obtain ⟨v, hv⟩ := Option.isSome_iff_exists.1 he2
      rw [alookup_append_some _ hv]; simp

theorem WF_of_addConnection {m m' : Model} {c : Connection} {evs : List Event}
    (hwf : WFModel m) (h : m.addConnection c = .ok (m', evs)) : WFModel m' := by
  obtain ⟨h1, h2, h3, hm', _⟩ := addConnection_ok_inv h
  obtain ⟨hk, hcn, hce⟩ := hwf
  subst hm'
  refine ⟨hk, ?_, ?_⟩
  · simp only [List.nodup_append, List.nodup_singleton]
    exact ⟨hcn, trivial, by simpa using h3⟩
  · intro x hx
    rcases List.mem_append.1 hx with hx | hx
    · exact hce x hx
    · rw [List.mem_singleton] at hx
      subst hx
      exact ⟨h1, h2⟩

theorem WF_of_removeConnection {m m' : Model} {c : Connection} {evs : List Event}
    (hwf : WFModel m) (h : m.removeConnection c = .ok (m', evs)) : WFModel m' := by
  obtain ⟨h1, hm', _⟩ := removeConnection_ok_inv h
  obtain ⟨hk, hcn, hce⟩ := hwf
  subst hm'
  exact ⟨hk, lremove_nodup hcn c, fun x hx => hce x (lremove_subset _ _ hx)⟩

theorem WF_of_removeNode {m m' : Model} {b b' : Backend} {nid : String}
    {evs : List Event} (hwf : WFModel m)
    (h : m.removeNode b nid = .ok (m', b', evs)) : WFModel m' := by
  obtain ⟨nd, hnd, hsafe, _, hn, hcs, _, _, _⟩ := removeNode_ok_inv hwf.2.1 h
  obtain ⟨hk, hcn, hce⟩ := hwf
  refine ⟨?_, ?_, ?_⟩
  · rw [hn]; exact nodup_keys_adel _ hk
  · rw [hcs]; exact hcn.filter _
  · intro c hc
    rw [hcs] at hc
    have hcm := List.mem_of_mem_filter hc
    have hct : ¬ (c.touches nid = true) := by
      have := List.of_mem_filter hc
      simpa using this
    simp only [Connection.touches, Bool.or_eq_true, beq_iff_eq, not_or] at hct
    obtain ⟨he1, he2⟩ := hce c hcm
    rw [hn]
    constructor
    · rw [alookup_adel _ _ _ hk, if_neg (fun hx => hct.1 hx.symm)]
      exact he1
    · rw [alookup_adel _ _ _ hk, if_neg (fun hx => hct.2 hx.symm)]
      exact he2

theorem WF_purgeThumb {m : Model} (hwf : WFModel m) (h : Int) :
    WFModel (m.purgeThumb h) := hwf

theorem aset_aset {α : Type} (l : List (String × α)) (k : String) (v v' : α) :
    aset (aset l k v) k v' = aset l k v' := by
  induction l with
  | nil => simp [aset]
  | cons p t ih =>
      obtain ⟨k0, w⟩ := p
      by_cases h0 : k0 = k
      · subst h0; simp [aset]
      · simp [aset, h0, ih]

theorem WF_set_node {m : Model} {nid : String} {nd' : NodeData}
    (hwf : WFModel m) (hnd : (alookup m.nodes nid).isSome) :
    WFModel { m with nodes := aset m.nodes nid nd' } := by
  obtain ⟨hk, hcn, hce⟩ := hwf
  refine ⟨nodup_keys_aset _ _ hk, hcn, ?_⟩
  intro c hcmem
  obtain ⟨he1, he2⟩ := hce c hcmem
  constructor <;>
  · simp only [alookup_aset]
    split
    · simp
    · assumption

/-- The release-and-purge step of `LoadImageCommand.redo` (for a handle-like
`old_raw_image_id`) and of `LoadImageCommand.undo` (for `new_raw_image_id`). -/
def liRelease (b : Backend) (m : Model) (v : SVal) : Backend × Model :=
  match v with
  | .vint h => (b.release h, m.purgeThumb h)
  | _ => (b, m)

/-- The handle selection of `LoadImageCommand.redo`: consume the pre-validated
id on the first run, otherwise reload (a failure yields `None`). -/
def liPick (lb : String → Bool) (ini : Option Int) (b : Backend) (path : String) :
    Option Int × Backend :=
  match ini with
  | some h => (some h, b)
  | none =>
    match loadRaw lb b path with
    | .ok (h, b2) => (some h, b2)
    | .error _ => (none, b)

/-- The reload-the-old-file step of `LoadImageCommand.undo`: produces the
restored filepath value, raw id value, and the backend. -/
def liReload (lb : String → Bool) (b : Backend) (ofp : SVal) : SVal × SVal × Backend :=
  if ofp.truthy then
    match loadRawS lb b ofp with
    | .ok (h, b') => (ofp, .vint h, b')
    | .error _ => (.vnull, .vnull, b)
  else (ofp, .vnull, b)

/-- The result of `LoadImageCommand.redo` when the node exists and the
captured old raw id is handle-like. -/
def liRedoResult (lb : String → Bool) (w : World) (nid path : String)
    (ini : Option Int) (ofp oraw : SVal) (nd : NodeData) :
    Cmd × World × List Event :=
  let rm := liRelease w.backend w.model oraw
  let pk := liPick lb ini rm.1 path
  let nd3 : NodeData := ⟨nd.ntype, nd.position,
    aset (aset nd.settings "filepath" (.vstr path)) "raw_image_id" (optInt pk.1)⟩
  (.loadImageCmd nid path none pk.1 ofp oraw,
   ⟨{ rm.2 with nodes := aset rm.2.nodes nid nd3 }, pk.2, w.ctr⟩,
   [.nodeSettingChanged nid "filepath" (.vstr path),
    .nodeSettingChanged nid "raw_image_id" (optInt pk.1)])

/-- The result of `LoadImageCommand.undo` when the node exists. -/
def liUndoResult (lb : String → Bool) (w : World) (nid path : String)
    (ini : Option Int) (nraw : Option Int) (ofp : SVal) (nd : NodeData) :
    Cmd × World × List Event :=
  let rm : Backend × Model :=
    match nraw with
    | some h => (w.backend.release h, w.model.purgeThumb h)
    | none => (w.backend, w.model)
  let re := liReload lb rm.1 ofp
  let nd3 : NodeData := ⟨nd.ntype, nd.position,
    aset (aset nd.settings "filepath" re.1) "raw_image_id" re.2.1⟩
  (.loadImageCmd nid path ini none re.1 re.2.1,
   ⟨{ rm.2 with nodes := aset rm.2.nodes nid nd3 }, re.2.2, w.ctr⟩,
   [.nodeSettingChanged nid "filepath" re.1,
    .nodeSettingChanged nid "raw_image_id" re.2.1])

theorem liRelease_nodes (b : Backend) (m : Model) (v : SVal) :
    (liRelease b m v).2.nodes = m.nodes := by
  cases v <;> rfl

theorem liRelease_connections (b : Backend) (m : Model) (v : SVal) :
    (liRelease b m v).2.connections = m.connections := by
  cases v <;> rfl

theorem cmdRedo_loadImage_eq {w : World} {nid : String} {nd : NodeData}
    (lb : String → Bool) (path : String) (ini nraw : Option Int) (ofp oraw : SVal)
    (hnd : alookup w.model.nodes nid = some nd)
    (horaw : oraw.isHandleLike = true) :
    cmdRedo lb (.loadImageCmd nid path ini nraw ofp oraw) w =
      .ok (liRedoResult lb w nid path ini ofp oraw nd) := by
  have hnd1 : alookup (liRelease w.backend w.model oraw).2.nodes nid = some nd := by
    rw [liRelease_nodes]; exact hnd
  have hu1 := updateNodeSetting_eq hnd1 "filepath" (.vstr path)
  have hnd2 : alookup (aset (liRelease w.backend w.model oraw).2.nodes nid
      ⟨nd.ntype, nd.position, aset nd.settings "filepath" (.vstr path)⟩) nid =
      some ⟨nd.ntype, nd.position, aset nd.settings "filepath" (.vstr path)⟩ := by
    rw [alookup_aset, if_pos rfl]
  cases oraw with
  | vstr s => simp [SVal.isHandleLike] at horaw
  | vnull =>
      simp only [cmdRedo, eq_self_iff_true, if_true]
      simp only [liRelease] at hu1 hnd2 ⊢
      rw [hu1]
      have hu2 := updateNodeSetting_eq (m := { w.model with nodes := (aset
          w.model.nodes nid ⟨nd.ntype, nd.position,
            aset nd.settings "filepath" (.vstr path)⟩) }) hnd2 "raw_image_id"
          (optInt (liPick lb ini w.backend path).1)
      cases ini with
      | some hh =>
          simp only [liPick] at hu2 ⊢
          rw [hu2]
          simp [liRedoResult, liRelease, liPick, aset_aset]
      | none =>
          cases hld : loadRaw lb w.backend path with
          | ok p =>
              obtain ⟨hh, b2⟩ := p
              simp only [liPick, hld] at hu2 ⊢
              rw [hu2]
              simp [liRedoResult, liRelease, liPick, hld, aset_aset]
          | error e =>
              simp only [liPick, hld] at hu2 ⊢
              rw [hu2]
              simp [liRedoResult, liRelease, liPick, hld, aset_aset]
  | vint n =>
      have hne : ¬ (SVal.vint n = SVal.vnull) := by simp
      simp only [cmdRedo, if_neg hne, releaseS]
      simp only [liRelease] at hu1 hnd2 ⊢
      rw [hu1]
      have hu2 := updateNodeSetting_eq (m := { w.model.purgeThumb n with nodes := (aset
          (w.model.purgeThumb n).nodes nid ⟨nd.ntype, nd.position,
            aset nd.settings "filepath" (.vstr path)⟩) }) hnd2 "raw_image_id"
          (optInt (liPick lb ini (w.backend.release n) path).1)
      cases ini with
      | some hh =>
          simp only [liPick] at hu2 ⊢
          rw [hu2]
          simp [liRedoResult, liRelease, liPick, aset_aset, Model.purgeThumb]
      | none =>
          cases hld : loadRaw lb (w.backend.release n) path with
          | ok p =>
              obtain ⟨hh, b2⟩ := p
              simp only [liPick, hld] at hu2 ⊢
              rw [hu2]
              simp [liRedoResult, liRelease, liPick, hld, aset_aset, Model.purgeThumb]
          | error e =>
              simp only [liPick, hld] at hu2 ⊢
              rw [hu2]
              simp [liRedoResult, liRelease, liPick, hld, aset_aset, Model.purgeThumb]

theorem cmdUndo_loadImage_eq {w : World} {nid : String} {nd : NodeData}
    (lb : String → Bool) (path : String) (ini nraw : Option Int) (ofp oraw : SVal)
    (hnd : alookup w.model.nodes nid = some nd) :
    cmdUndo lb (.loadImageCmd nid path ini nraw ofp oraw) w =
      .ok (liUndoResult lb w nid path ini nraw ofp nd) := by
  have step : ∀ (m0 : Model) (v1 v2 : SVal), alookup m0.nodes nid = some nd →
      m0.updateNodeSetting nid "filepath" v1 =
        .ok ({ m0 with nodes := (aset m0.nodes nid
                ⟨nd.ntype, nd.position, aset nd.settings "filepath" v1⟩) },
             [.nodeSettingChanged nid "filepath" v1]) ∧
      Model.updateNodeSetting { m0 with nodes := (aset m0.nodes nid
          ⟨nd.ntype, nd.position, aset nd.settings "filepath" v1⟩) } nid
            "raw_image_id" v2 =
        .ok ({ m0 with nodes := (aset m0.nodes nid
                ⟨nd.ntype, nd.position,
                 aset (aset nd.settings "filepath" v1) "raw_image_id" v2⟩) },
             [.nodeSettingChanged nid "raw_image_id" v2]) := by
    intro m0 v1 v2 h0
    refine ⟨updateNodeSetting_eq h0 "filepath" v1, ?_⟩
    have h2 : alookup (aset m0.nodes nid
        ⟨nd.ntype, nd.position, aset nd.settings "filepath" v1⟩) nid =
        some ⟨nd.ntype, nd.position, aset nd.settings "filepath" v1⟩ := by
      rw [alookup_aset, if_pos rfl]
    have hu2 := updateNodeSetting_eq (m := { m0 with nodes := (aset m0.nodes nid
        ⟨nd.ntype, nd.position, aset nd.settings "filepath" v1⟩) }) h2
        "raw_image_id" v2
    rw [hu2, aset_aset]
  cases nraw with
  | none =>
      have h0 : alookup w.model.nodes nid = some nd := hnd
      cases htr : ofp.truthy with
      | false =>
          obtain ⟨hu1, hu2⟩ := step w.model ofp .vnull h0
          simp [cmdUndo, liUndoResult, liReload, htr, hu1, hu2]
      | true =>
          cases hld : loadRawS lb w.backend ofp with
          | ok p =>
              obtain ⟨hh, b'⟩ := p
              obtain ⟨hu1, hu2⟩ := step w.model ofp (.vint hh) h0
              simp [cmdUndo, liUndoResult, liReload, htr, hld, hu1, hu2]
          | error e =>
              obtain ⟨hu1, hu2⟩ := step w.model .vnull .vnull h0
              simp [cmdUndo, liUndoResult, liReload, htr, hld, hu1, hu2]
  | some hh0 =>
      have h0 : alookup (w.model.purgeThumb hh0).nodes nid = some nd := hnd
      cases htr : ofp.truthy with
      | false =>
          obtain ⟨hu1, hu2⟩ := step (w.model.purgeThumb hh0) ofp .vnull h0
          simp [cmdUndo, liUndoResult, liReload, htr, hu1, hu2]
      | true =>
          cases hld : loadRawS lb (w.backend.release hh0) ofp with
          | ok p =>
              obtain ⟨hh, b'⟩ := p
              obtain ⟨hu1, hu2⟩ := step (w.model.purgeThumb hh0) ofp (.vint hh) h0
              simp [cmdUndo, liUndoResult, liReload, htr, hld, hu1, hu2]
          | error e =>
              obtain ⟨hu1, hu2⟩ := step (w.model.purgeThumb hh0) .vnull .vnull h0
              simp [cmdUndo, liUndoResult, liReload, htr, hld, hu1, hu2]

theorem cmdRedo_loadImage_ok_inv {lb : String → Bool} {w : World}
    {nid path : String} {ini nraw : Option Int} {ofp oraw : SVal}
    {r : Cmd × World × List Event}
    (h : cmdRedo lb (.loadImageCmd nid path ini nraw ofp oraw) w = .ok r) :
    ∃ nd, alookup w.model.nodes nid = some nd ∧ oraw.isHandleLike = true := by
  cases oraw with
  | vstr s =>
      have hne : ¬ (SVal.vstr s = SVal.vnull) := by simp
      simp [cmdRedo, if_neg hne, releaseS] at h
  | vnull =>
      cases hl : alookup w.model.nodes nid with
      | some nd => exact ⟨nd, rfl, rfl⟩
      | none =>
          exfalso
          simp only [cmdRedo, eq_self_iff_true, if_true] at h
          rw [show w.model.updateNodeSetting nid "filepath" (.vstr path) =
            .error .valueError by simp [Model.updateNodeSetting, hl]] at h
          exact absurd h (by simp)
  | vint n =>
      cases hl : alookup w.model.nodes nid with
      | some nd => exact ⟨nd, rfl, rfl⟩
      | none =>
          exfalso
          have hne : ¬ (SVal.vint n = SVal.vnull) := by simp
          simp only [cmdRedo, if_neg hne, releaseS] at h
          rw [show (w.model.purgeThumb n).updateNodeSetting nid "filepath" (.vstr path) =
            .error .valueError by simp [Model.updateNodeSetting, Model.purgeThumb, hl]] at h
          exact absurd h (by simp)

theorem cmdUndo_loadImage_ok_inv {lb : String → Bool} {w : World}
    {nid path : String} {ini nraw : Option Int} {ofp oraw : SVal}
    {r : Cmd × World × List Event}
    (h : cmdUndo lb (.loadImageCmd nid path ini nraw ofp oraw) w = .ok r) :
    ∃ nd, alookup w.model.nodes nid = some nd := by
  cases hl : alookup w.model.nodes nid with
  | some nd => exact ⟨nd, rfl⟩
  | none =>
      exfalso
      cases nraw with
      | none =>
          simp only [cmdUndo] at h
          rw [show w.model.updateNodeSetting nid "filepath"
              (if ofp.truthy then
                match loadRawS lb w.backend ofp with
                | .ok (hh, b') => (ofp, SVal.vint hh, b')
                | .error _ => (SVal.vnull, SVal.vnull, w.backend)
              else (ofp, SVal.vnull, w.backend) : SVal × SVal × Backend).1 =
            .error .valueError by simp [Model.updateNodeSetting, hl]] at h
          exact absurd h (by simp)
      | some hh =>
          simp only [cmdUndo] at h
          rw [show (w.model.purgeThumb hh).updateNodeSetting nid "filepath"
              (if ofp.truthy then
                match loadRawS lb (w.backend.release hh) ofp with
                | .ok (h2, b') => (ofp, SVal.vint h2, b')
                | .error _ => (SVal.vnull, SVal.vnull, w.backend.release hh)
              else (ofp, SVal.vnull, w.backend.release hh) : SVal × SVal × Backend).1 =
            .error .valueError by simp [Model.updateNodeSetting, Model.purgeThumb, hl]] at h
          exact absurd h (by simp)

theorem addNode_ok_inv {m : Model} {ctr : Nat} {ty : String} {pos : Int × Int}
    {nid : String} {m' : Model} {ctr' : Nat} {evs : List Event}
    (h : m.addNode ctr ty pos = .ok (nid, m', ctr', evs)) :
    alookup m.nodes nid = none ∧
      m' = { m with nodes := m.nodes ++ [(nid, ⟨ty, pos, []⟩)] } ∧
      evs = [.nodeAdded nid] ∧
      nid = (freshIdAux m.nodes (m.nodes.length + 1) ctr).1 ∧
      ctr' = (freshIdAux m.nodes (m.nodes.length + 1) ctr).2 := by
  simp only [Model.addNode] at h
  cases ha : m.addNodeWithData (freshIdAux m.nodes (m.nodes.length + 1) ctr).1
      ⟨ty, pos, []⟩ with
  | error e => rw [ha] at h; exact absurd h (by simp)
  | ok p =>
      obtain ⟨ma, evsa⟩ := p
      rw [ha] at h
      simp only [Except.ok.injEq, Prod.mk.injEq] at h
      obtain ⟨h1, h2, h3, h4⟩ := h
      subst h1
      obtain ⟨habs, hm, hevs⟩ := addNodeWithData_ok_inv ha
      exact ⟨habs, by rw [← h2, hm], by rw [← h4, hevs], rfl, h3.symm⟩

theorem freshIdAux_ne_empty (nodes : List (String × NodeData)) (fuel k : Nat) :
    (freshIdAux nodes fuel k).1 ≠ "" := by
  induction fuel generalizing k with
  | zero =>
      simp only [freshIdAux]
      intro h
      have hlen := congrArg String.length h
      rw [String.length_append] at hlen
      have h5 : ("node_" : String).length = 5 := rfl
      have h0 : ("" : String).length = 0 := rfl
      rw [h5, h0] at hlen
      omega
  | succ n ih =>
      simp only [freshIdAux]
      split
      · exact ih (k + 1)
      · intro h
        have hlen := congrArg String.length h
        rw [String.length_append] at hlen
        have h5 : ("node_" : String).length = 5 := rfl
        have h0 : ("" : String).length = 0 := rfl
        rw [h5, h0] at hlen
        omega

theorem addConnsList_WF {xs : List Connection} :
    ∀ {m m' : Model} {evs : List Event}, WFModel m →
      addConnsList m xs = .ok (m', evs) → WFModel m' := by
  induction xs with
  | nil => intro m m' evs hwf h; simp only [addConnsList] at h;
           obtain ⟨h1, _⟩ := Prod.mk.injEq .. ▸ (Except.ok.inj h); rw [← h1]; exact hwf
  | cons x xs ih =>
      intro m m' evs hwf h
      cases ha : m.addConnection x with
      | error e => simp [addConnsList, ha] at h
      | ok p =>
          obtain ⟨m1, e1⟩ := p
          cases hb : addConnsList m1 xs with
          | error e => simp [addConnsList, ha, hb] at h
          | ok q =>
              obtain ⟨m2, e2⟩ := q
              simp only [addConnsList, ha, hb, Except.ok.injEq, Prod.mk.injEq] at h
              rw [← h.1]
              exact ih (WF_of_addConnection hwf ha) hb

theorem cmdRedo_WF {lb : String → Bool} {c : Cmd} {w : World} {c' : Cmd}
    {w' : World} {evs : List Event} (hwf : WFModel w.model)
    (h : cmdRedo lb c w = .ok (c', w', evs)) : WFModel w'.model := by
  cases c with
  | addNodeCmd ty pos oid =>
      cases oid with
      | none =>
          simp only [cmdRedo] at h
          cases ha : w.model.addNode w.ctr ty pos with
          | error e => rw [ha] at h; exact absurd h (by simp)
          | ok p =>
              obtain ⟨nid, m1, ctr1, evs1⟩ := p
              rw [ha] at h
              simp only [Except.ok.injEq, Prod.mk.injEq] at h
              obtain ⟨habs, hm, _⟩ := addNode_ok_inv ha
              have : WFModel m1 := by
                rw [hm]
                exact WF_of_addNodeWithData hwf (addNodeWithData_eq habs _)
              rw [← h.2.1]
              exact this
      | some nid =>
          simp only [cmdRedo] at h
          cases ha : w.model.addNodeWithData nid ⟨ty, pos, []⟩ with
          | error e => rw [ha] at h; exact absurd h (by simp)
          | ok p =>
              obtain ⟨m1, evs1⟩ := p
              rw [ha] at h
              simp only [Except.ok.injEq, Prod.mk.injEq] at h
              rw [← h.2.1]
              exact WF_of_addNodeWithData hwf ha
  | removeNodeCmd nid nd conns =>
      simp only [cmdRedo] at h
      cases ha : w.model.removeNode w.backend nid with
      | error e => rw [ha] at h; exact absurd h (by simp)
      | ok p =>
          obtain ⟨m1, b1, evs1⟩ := p
          rw [ha] at h
          simp only [Except.ok.injEq, Prod.mk.injEq] at h
          rw [← h.2.1]
          exact WF_of_removeNode hwf ha
  | addConnCmd cd =>
      simp only [cmdRedo] at h
      cases ha : w.model.addConnection cd with
      | error e => rw [ha] at h; exact absurd h (by simp)
      | ok p =>
          obtain ⟨m1, evs1⟩ := p
          rw [ha] at h
          simp only [Except.ok.injEq, Prod.mk.injEq] at h
          rw [← h.2.1]
          exact WF_of_addConnection hwf ha
  | removeConnCmd cd =>
      simp only [cmdRedo] at h
      cases ha : w.model.removeConnection cd with
      | error e => rw [ha] at h; exact absurd h (by simp)
      | ok p =>
          obtain ⟨m1, evs1⟩ := p
          rw [ha] at h
          simp only [Except.ok.injEq, Prod.mk.injEq] at h
          rw [← h.2.1]
          exact WF_of_removeConnection hwf ha
  | moveNodeCmd nid ep sp =>
      simp only [cmdRedo] at h
      cases ha : w.model.updateNodePosition nid ep with
      | error e => rw [ha] at h; exact absurd h (by simp)
      | ok p =>
          obtain ⟨m1, evs1⟩ := p
          rw [ha] at h
          simp only [Except.ok.injEq, Prod.mk.injEq] at h
          rw [← h.2.1]
          exact WF_of_updateNodePosition hwf ha
  | changeSettingCmd nid k nv ov =>
      simp only [cmdRedo] at h
      cases ha : w.model.updateNodeSetting nid k nv with
      | error e => rw [ha] at h; exact absurd h (by simp)
      | ok p =>
          obtain ⟨m1, evs1⟩ := p
          rw [ha] at h
          simp only [Except.ok.injEq, Prod.mk.injEq] at h
          rw [← h.2.1]
          exact WF_of_updateNodeSetting hwf ha
  | loadImageCmd nid path ini nraw ofp oraw =>
      obtain ⟨nd, hnd, horaw⟩ := cmdRedo_loadImage_ok_inv h
      rw [cmdRedo_loadImage_eq lb path ini nraw ofp oraw hnd horaw] at h
      obtain ⟨h1, h2⟩ := Prod.mk.injEq .. ▸ (Except.ok.inj h)
      obtain ⟨h2, h3⟩ := Prod.mk.injEq .. ▸ h2
      rw [← h2]
      simp only [liRedoResult]
      refine WF_set_node ?_ ?_
      · have hn := liRelease_nodes w.backend w.model oraw
        have hc := liRelease_connections w.backend w.model oraw
        obtain ⟨hk, hcn, hce⟩ := hwf
        refine ⟨?_, ?_, ?_⟩
        · rw [hn]; exact hk
        · rw [hc]; exact hcn
        · intro c hcm
          rw [hc] at hcm
          rw [hn]
          exact hce c hcm
      · rw [liRelease_nodes, hnd]; rfl

/-! ### The undo/redo simulation relation

During the undo phase and the redo phase the shadow state may differ from
the corresponding push-phase state only in ways that the remaining commands
are guaranteed to repair: settings keys the pending commands will rewrite
(stored as `None` where the original state had no key at all, or degraded by
a failed reload), positions a pending move will rewrite, and `raw_image_id`
values, which are permitted to differ outright (both sides holding a live
handle value or `None`). -/

/-- The settings keys unconditionally rewritten by a command's redo. -/
def writesKey : CmdSpec → String → String → Prop
  | .changeSetting id k _, id', k' => id = id' ∧ k = k'
  | .loadImage id _, id', k' => id = id' ∧ (k' = "filepath" ∨ k' = "raw_image_id")
  | _, _, _ => False

/-- The positions unconditionally rewritten by a command's redo. -/
def writesPos : CmdSpec → String → Prop
  | .moveNode id _ _, id' => id = id'
  | _, _ => False

/-- Relation between the document reached by the shadow (undo/redo) run and
the document of the original push run, indexed by the commands still to be
redone. -/
def Rel (pend : List CmdSpec) (t s : Model) : Prop :=
  (∀ id, (nlook t id).isSome = (nlook s id).isSome) ∧
  (∀ c, c ∈ t.connections ↔ c ∈ s.connections) ∧
  (∀ id, ptype t id = ptype s id) ∧
  (∀ id, ppos t id = ppos s id ∨ ∃ sp ∈ pend, writesPos sp id) ∧
  (∀ id k, slook t id k = slook s id k
      ∨ (k = "raw_image_id" ∧
          (∃ vt, slook t id k = some vt ∧ vt.isHandleLike = true) ∧
          (∃ vs, slook s id k = some vs ∧ vs.isHandleLike = true))
      ∨ ((∃ sp ∈ pend, writesKey sp id k) ∧
          (∀ v, slook t id k = some v → v.isHandleLike = true)))

/-- The claim's observable equality: identical nodes, connections and
settings, except that `raw_image_id` entries may hold different (handle-like)
values on the two sides. -/
def ObsEq (t s : Model) : Prop := Rel [] t s

theorem Rel.refl (pend : List CmdSpec) (m : Model) : Rel pend m m :=
  ⟨fun _ => rfl, fun _ => Iff.rfl, fun _ => rfl, fun _ => Or.inl rfl,
   fun _ _ => Or.inl rfl⟩

theorem Rel.mono {pend pend' : List CmdSpec} {t s : Model}
    (hsub : ∀ sp ∈ pend, sp ∈ pend') (h : Rel pend t s) : Rel pend' t s := by
  obtain ⟨h1, h2, h3, h4, h5⟩ := h
  refine ⟨h1, h2, h3, ?_, ?_⟩
  · intro id
    rcases h4 id with h | ⟨sp, hsp, hw⟩
    · exact Or.inl h
    · exact Or.inr ⟨sp, hsub sp hsp, hw⟩
  · intro id k
    rcases h5 id k with h | h | ⟨⟨sp, hsp, hw⟩, hhl⟩
    · exact Or.inl h
    · exact Or.inr (Or.inl h)
    · exact Or.inr (Or.inr ⟨⟨sp, hsub sp hsp, hw⟩, hhl⟩)

/-- Field correspondence between a command object in its post-push state and
the same object in its post-undo state, as consumed by the redo phase.  Only
`LoadImageCommand` mutates its own fields across an undo: the pre-validated
id stays consumed, and the reloaded old handle is handle-like. -/
def CmdMatch (lb : String → Bool) : Cmd → Cmd → Prop
  | .addNodeCmd ty pos oid, .addNodeCmd ty' pos' oid' =>
      ty' = ty ∧ pos' = pos ∧ oid' = oid
  | .removeNodeCmd nid nd cs, .removeNodeCmd nid' nd' cs' =>
      nid' = nid ∧ nd' = nd ∧ cs' = cs
  | .addConnCmd cd, .addConnCmd cd' => cd' = cd
  | .removeConnCmd cd, .removeConnCmd cd' => cd' = cd
  | .moveNodeCmd nid ep sp, .moveNodeCmd nid' ep' sp' =>
      nid' = nid ∧ ep' = ep ∧ sp' = sp
  | .changeSettingCmd nid k nv ov, .changeSettingCmd nid' k' nv' ov' =>
      nid' = nid ∧ k' = k ∧ nv' = nv ∧ ov' = ov
  | .loadImageCmd nid path _ _ _ _, .loadImageCmd nid' path' ini' _ _ oraw' =>
      nid' = nid ∧ path' = path ∧ ini' = none ∧ oraw'.isHandleLike = true ∧
        lb path = true
  | _, _ => False

/-! ### Transport of observations along single-node updates -/

theorem isSome_nlook_set {m : Model} {nid : String} {nd : NodeData}
    (h : alookup m.nodes nid = some nd) (nd' : NodeData) (id : String) :
    (nlook { m with nodes := aset m.nodes nid nd' } id).isSome =
      (nlook m id).isSome := by
  rw [nlook_set]
  by_cases he : nid = id
  · subst he; rw [if_pos rfl]; simp [nlook, h]
  · rw [if_neg he]

theorem slook_set_settings {m : Model} {nid : String} {nd : NodeData}
    (h : alookup m.nodes nid = some nd) (k : String) (v : SVal)
    (id k' : String) :
    slook { m with nodes := (aset m.nodes nid
        ⟨nd.ntype, nd.position, aset nd.settings k v⟩) } id k' =
      if nid = id then (if k = k' then some v else slook m nid k')
      else slook m id k' := by
  simp only [slook, nlook_set]
  by_cases he : nid = id
  · subst he
    rw [if_pos rfl, if_pos rfl]
    simp [nlook, h, alookup_aset]
  · rw [if_neg he, if_neg he]

theorem ptype_set_settings {m : Model} {nid : String} {nd : NodeData}
    (h : alookup m.nodes nid = some nd) (k : String) (v : SVal) (id : String) :
    ptype { m with nodes := (aset m.nodes nid
        ⟨nd.ntype, nd.position, aset nd.settings k v⟩) } id = ptype m id := by
  simp only [ptype, nlook_set]
  by_cases he : nid = id
  · subst he; rw [if_pos rfl]; simp [nlook, h]
  · rw [if_neg he]

theorem ppos_set_settings {m : Model} {nid : String} {nd : NodeData}
    (h : alookup m.nodes nid = some nd) (k : String) (v : SVal) (id : String) :
    ppos { m with nodes := (aset m.nodes nid
        ⟨nd.ntype, nd.position, aset nd.settings k v⟩) } id = ppos m id := by
  simp only [ppos, nlook_set]
  by_cases he : nid = id
  · subst he; rw [if_pos rfl]; simp [nlook, h]
  · rw [if_neg he]

theorem slook_set_two {m : Model} {nid : String} {nd : NodeData}
    (h : alookup m.nodes nid = some nd) (k1 : String) (v1 : SVal)
    (k2 : String) (v2 : SVal) (id k' : String) :
    slook { m with nodes := (aset m.nodes nid
        ⟨nd.ntype, nd.position, aset (aset nd.settings k1 v1) k2 v2⟩) } id k' =
      if nid = id then
        (if k2 = k' then some v2 else if k1 = k' then some v1 else slook m nid k')
      else slook m id k' := by
  simp only [slook, nlook_set]
  by_cases he : nid = id
  · subst he
    rw [if_pos rfl, if_pos rfl]
    simp [nlook, h, alookup_aset]
  · rw [if_neg he, if_neg he]

theorem ptype_set_two {m : Model} {nid : String} {nd : NodeData}
    (h : alookup m.nodes nid = some nd) (k1 : String) (v1 : SVal)
    (k2 : String) (v2 : SVal) (id : String) :
    ptype { m with nodes := (aset m.nodes nid
        ⟨nd.ntype, nd.position, aset (aset nd.settings k1 v1) k2 v2⟩) } id =
      ptype m id := by
  simp only [ptype, nlook_set]
  by_cases he : nid = id
  · subst he; rw [if_pos rfl]; simp [nlook, h]
  · rw [if_neg he]

theorem ppos_set_two {m : Model} {nid : String} {nd : NodeData}
    (h : alookup m.nodes nid = some nd) (k1 : String) (v1 : SVal)
    (k2 : String) (v2 : SVal) (id : String) :
    ppos { m with nodes := (aset m.nodes nid
        ⟨nd.ntype, nd.position, aset (aset nd.settings k1 v1) k2 v2⟩) } id =
      ppos m id := by
  simp only [ppos, nlook_set]
  by_cases he : nid = id
  · subst he; rw [if_pos rfl]; simp [nlook, h]
  · rw [if_neg he]

theorem slook_set_position {m : Model} {nid : String} {nd : NodeData}
    (h : alookup m.nodes nid = some nd) (pos : Int × Int) (id k' : String) :
    slook { m with nodes := (aset m.nodes nid ⟨nd.ntype, pos, nd.settings⟩) } id k' =
      slook m id k' := by
  simp only [slook, nlook_set]
  by_cases he : nid = id
  · subst he; rw [if_pos rfl]; simp [nlook, h]
  · rw [if_neg he]

theorem ptype_set_position {m : Model} {nid : String} {nd : NodeData}
    (h : alookup m.nodes nid = some nd) (pos : Int × Int) (id : String) :
    ptype { m with nodes := (aset m.nodes nid ⟨nd.ntype, pos, nd.settings⟩) } id =
      ptype m id := by
  simp only [ptype, nlook_set]
  by_cases he : nid = id
  · subst he; rw [if_pos rfl]; simp [nlook, h]
  · rw [if_neg he]

theorem ppos_set_position {m : Model} {nid : String} {nd : NodeData}
    (h : alookup m.nodes nid = some nd) (pos : Int × Int) (id : String) :
    ppos { m with nodes := (aset m.nodes nid ⟨nd.ntype, pos, nd.settings⟩) } id =
      if nid = id then some pos else ppos m id := by
  simp only [ppos, nlook_set]
  by_cases he : nid = id
  · subst he; rw [if_pos rfl, if_pos rfl]; rfl
  · rw [if_neg he, if_neg he]

theorem slook_append {m : Model} {nid : String} (nd : NodeData)
    (h : alookup m.nodes nid = none) (id k' : String) :
    slook { m with nodes := m.nodes ++ [(nid, nd)] } id k' =
      if nid = id then alookup nd.settings k' else slook m id k' := by
  simp only [slook, nlook_append nd h]
  by_cases he : nid = id
  · subst he; rw [if_pos rfl, if_pos rfl]; rfl
  · rw [if_neg he, if_neg he]

theorem ptype_append {m : Model} {nid : String} (nd : NodeData)
    (h : alookup m.nodes nid = none) (id : String) :
    ptype { m with nodes := m.nodes ++ [(nid, nd)] } id =
      if nid = id then some nd.ntype else ptype m id := by
  simp only [ptype, nlook_append nd h]
  by_cases he : nid = id
  · subst he; rw [if_pos rfl, if_pos rfl]; rfl
  · rw [if_neg he, if_neg he]

theorem ppos_append {m : Model} {nid : String} (nd : NodeData)
    (h : alookup m.nodes nid = none) (id : String) :
    ppos { m with nodes := m.nodes ++ [(nid, nd)] } id =
      if nid = id then some nd.position else ppos m id := by
  simp only [ppos, nlook_append nd h]
  by_cases he : nid = id
  · subst he; rw [if_pos rfl, if_pos rfl]; rfl
  · rw [if_neg he, if_neg he]

theorem isSome_nlook_append {m : Model} {nid : String} (nd : NodeData)
    (h : alookup m.nodes nid = none) (id : String) :
    (nlook { m with nodes := m.nodes ++ [(nid, nd)] } id).isSome =
      (if nid = id then true else (nlook m id).isSome) := by
  rw [nlook_append nd h]
  by_cases he : nid = id
  · subst he; rw [if_pos rfl, if_pos rfl]; rfl
  · rw [if_neg he, if_neg he]

theorem slook_adel {m : Model} (hk : (m.nodes.map Prod.fst).Nodup)
    (nid id k' : String) :
    slook { m with nodes := adel m.nodes nid } id k' =
      if nid = id then none else slook m id k' := by
  simp only [slook, nlook_adel hk]
  by_cases he : nid = id
  · subst he; rw [if_pos rfl, if_pos rfl]; rfl
  · rw [if_neg he, if_neg he]

theorem ptype_adel {m : Model} (hk : (m.nodes.map Prod.fst).Nodup)
    (nid id : String) :
    ptype { m with nodes := adel m.nodes nid } id =
      if nid = id then none else ptype m id := by
  simp only [ptype, nlook_adel hk]
  by_cases he : nid = id
  · subst he; rw [if_pos rfl, if_pos rfl]; rfl
  · rw [if_neg he, if_neg he]

theorem ppos_adel {m : Model} (hk : (m.nodes.map Prod.fst).Nodup)
    (nid id : String) :
    ppos { m with nodes := adel m.nodes nid } id =
      if nid = id then none else ppos m id := by
  simp only [ppos, nlook_adel hk]
  by_cases he : nid = id
  · subst he; rw [if_pos rfl, if_pos rfl]; rfl
  · rw [if_neg he, if_neg he]

theorem isSome_nlook_adel {m : Model} (hk : (m.nodes.map Prod.fst).Nodup)
    (nid id : String) :
    (nlook { m with nodes := adel m.nodes nid } id).isSome =
      (if nid = id then false else (nlook m id).isSome) := by
  rw [nlook_adel hk]
  by_cases he : nid = id
  · subst he; rw [if_pos rfl, if_pos rfl]; rfl
  · rw [if_neg he, if_neg he]

theorem slook_eq_of_nodes (m2 : Model) {m1 : Model} (h : m1.nodes = m2.nodes)
    (id k : String) : slook m1 id k = slook m2 id k := by
  simp [slook, nlook, h]

theorem ptype_eq_of_nodes (m2 : Model) {m1 : Model} (h : m1.nodes = m2.nodes)
    (id : String) : ptype m1 id = ptype m2 id := by
  simp [ptype, nlook, h]

theorem ppos_eq_of_nodes (m2 : Model) {m1 : Model} (h : m1.nodes = m2.nodes)
    (id : String) : ppos m1 id = ppos m2 id := by
  simp [ppos, nlook, h]

theorem nlook_eq_of_nodes (m2 : Model) {m1 : Model} (h : m1.nodes = m2.nodes)
    (id : String) : nlook m1 id = nlook m2 id := by
  simp [nlook, h]

/-! ### Characterization of `pushCmd` per edit kind -/

theorem mkCmd_model {lb : String → Bool} {sp : CmdSpec} {w : World} {c : Cmd}
    {w1 : World} (h : mkCmd lb sp w = .ok (c, w1)) : w1.model = w.model := by
  cases sp with
  | addNode ty pos => simp only [mkCmd, Except.ok.injEq, Prod.mk.injEq] at h; rw [← h.2]
  | removeNode nid =>
      simp only [mkCmd] at h
      cases hl : alookup w.model.nodes nid with
      | none => simp only [hl] at h; exact absurd h (by simp)
      | some nd =>
          simp only [hl] at h
          simp only [Except.ok.injEq, Prod.mk.injEq] at h
          rw [← h.2]
  | addConn c0 => simp only [mkCmd, Except.ok.injEq, Prod.mk.injEq] at h; rw [← h.2]
  | removeConn c0 => simp only [mkCmd, Except.ok.injEq, Prod.mk.injEq] at h; rw [← h.2]
  | moveNode nid ep sp => simp only [mkCmd, Except.ok.injEq, Prod.mk.injEq] at h; rw [← h.2]
  | changeSetting nid k v =>
      simp only [mkCmd] at h
      cases hl : alookup w.model.nodes nid with
      | none => simp only [hl] at h; exact absurd h (by simp)
      | some nd =>
          simp only [hl] at h
          simp only [Except.ok.injEq, Prod.mk.injEq] at h
          rw [← h.2]
  | loadImage nid path =>
      simp only [mkCmd] at h
      cases hl : alookup w.model.nodes nid with
      | none => simp only [hl] at h; exact absurd h (by simp)
      | some nd =>
          simp only [hl] at h
          cases hld : loadRaw lb w.backend path with
          | error e => simp only [hld] at h; exact absurd h (by simp)
          | ok p =>
              obtain ⟨hh, b'⟩ := p
              simp only [hld] at h
              simp only [Except.ok.injEq, Prod.mk.injEq] at h
              rw [← h.2]

theorem pushCmd_addNode_inv {lb : String → Bool} {w0 : World} {ty : String}
    {pos : Int × Int} {c : Cmd} {wA : World}
    (h : pushCmd lb (.addNode ty pos) w0 = .ok (c, wA)) :
    ∃ nid, c = .addNodeCmd ty pos (some nid) ∧ nid ≠ "" ∧
      alookup w0.model.nodes nid = none ∧
      wA.model = { w0.model with nodes := w0.model.nodes ++ [(nid, ⟨ty, pos, []⟩)] } := by
  simp only [pushCmd, mkCmd] at h
  cases hr : cmdRedo lb (.addNodeCmd ty pos none) w0 with
  | error e => simp only [hr] at h; exact absurd h (by simp)
  | ok p =>
      obtain ⟨c', w', evs⟩ := p
      simp only [hr] at h
      simp only [Except.ok.injEq, Prod.mk.injEq] at h
      simp only [cmdRedo] at hr
      cases ha : w0.model.addNode w0.ctr ty pos with
      | error e => simp only [ha] at hr; exact absurd hr (by simp)
      | ok q =>
          obtain ⟨nid, m1, ctr1, evs1⟩ := q
          simp only [ha] at hr
          simp only [Except.ok.injEq, Prod.mk.injEq] at hr
          obtain ⟨habs, hm, _, hfid, _⟩ := addNode_ok_inv ha
          refine ⟨nid, ?_, ?_, habs, ?_⟩
          · rw [← h.1, ← hr.1]
          · rw [hfid]; exact freshIdAux_ne_empty _ _ _
          · rw [← h.2, ← hr.2.1, hm]

theorem pushCmd_removeNode_inv {lb : String → Bool} {w0 : World} {nid : String}
    {c : Cmd} {wA : World} (hwf : WFModel w0.model)
    (h : pushCmd lb (.removeNode nid) w0 = .ok (c, wA)) :
    ∃ nd0, alookup w0.model.nodes nid = some nd0 ∧ releaseSafe nd0 ∧
      c = .removeNodeCmd nid nd0 (w0.model.connections.filter (·.touches nid)) ∧
      wA.model = { version := w0.model.version,
                   nodes := adel w0.model.nodes nid,
                   connections := w0.model.connections.filter (fun x => !(x.touches nid)),
                   thumbnail_cache := purgeIfHandle w0.model.thumbnail_cache nd0 } := by
  cases hl : alookup w0.model.nodes nid with
  | none => simp [pushCmd, mkCmd, hl] at h
  | some nd0 =>
      cases hr : cmdRedo lb (.removeNodeCmd nid nd0
          (w0.model.connections.filter (·.touches nid))) w0 with
      | error e => simp [pushCmd, mkCmd, hl, hr] at h
      | ok p =>
          obtain ⟨c', w', evs⟩ := p
          simp only [pushCmd, mkCmd, hl, hr, Except.ok.injEq, Prod.mk.injEq] at h
          simp only [cmdRedo] at hr
          cases ha : w0.model.removeNode w0.backend nid with
          | error e => simp [ha] at hr
          | ok q =>
              obtain ⟨m1, b1, evs1⟩ := q
              simp only [ha, Except.ok.injEq, Prod.mk.injEq] at hr
              obtain ⟨nd0', hnd0', hsafe, hv, hn, hc, htc, hb, hevs⟩ :=
                removeNode_ok_inv hwf.2.1 ha
              have hee : nd0' = nd0 := by
                rw [hl] at hnd0'
                exact (Option.some.inj hnd0').symm
              subst hee
              refine ⟨nd0', rfl, hsafe, ?_, ?_⟩
              · rw [← h.1, ← hr.1]
              · rw [← h.2, ← hr.2.1]
                show m1 = _
                cases m1 with
                | mk ver nds cns tc =>
                    simp only at hv hn hc htc
                    simp [hv, hn, hc, htc]

theorem pushCmd_addConn_inv {lb : String → Bool} {w0 : World} {c0 : Connection}
    {c : Cmd} {wA : World}
    (h : pushCmd lb (.addConn c0) w0 = .ok (c, wA)) :
    (alookup w0.model.nodes c0.from_node).isSome ∧
      (alookup w0.model.nodes c0.to_node).isSome ∧
      c0 ∉ w0.model.connections ∧
      c = .addConnCmd c0 ∧
      wA.model = { w0.model with connections := w0.model.connections ++ [c0] } := by
  simp only [pushCmd, mkCmd] at h
  cases hr : cmdRedo lb (.addConnCmd c0) w0 with
  | error e => simp only [hr] at h; exact absurd h (by simp)
  | ok p =>
      obtain ⟨c', w', evs⟩ := p
      simp only [hr] at h
      simp only [Except.ok.injEq, Prod.mk.injEq] at h
      simp only [cmdRedo] at hr
      cases ha : w0.model.addConnection c0 with
      | error e => simp only [ha] at hr; exact absurd hr (by simp)
      | ok q =>
          obtain ⟨m1, evs1⟩ := q
          simp only [ha] at hr
          simp only [Except.ok.injEq, Prod.mk.injEq] at hr
          obtain ⟨h1, h2, h3, hm, _⟩ := addConnection_ok_inv ha
          exact ⟨h1, h2, h3, by rw [← h.1, ← hr.1], by rw [← h.2, ← hr.2.1, hm]⟩

theorem pushCmd_removeConn_inv {lb : String → Bool} {w0 : World} {c0 : Connection}
    {c : Cmd} {wA : World}
    (h : pushCmd lb (.removeConn c0) w0 = .ok (c, wA)) :
    c0 ∈ w0.model.connections ∧
      c = .removeConnCmd c0 ∧
      wA.model = { w0.model with connections := lremove w0.model.connections c0 } := by
  simp only [pushCmd, mkCmd] at h
  cases hr : cmdRedo lb (.removeConnCmd c0) w0 with
  | error e => simp only [hr] at h; exact absurd h (by simp)
  | ok p =>
      obtain ⟨c', w', evs⟩ := p
      simp only [hr] at h
      simp only [Except.ok.injEq, Prod.mk.injEq] at h
      simp only [cmdRedo] at hr
      cases ha : w0.model.removeConnection c0 with
      | error e => simp only [ha] at hr; exact absurd hr (by simp)
      | ok q =>
          obtain ⟨m1, evs1⟩ := q
          simp only [ha] at hr
          simp only [Except.ok.injEq, Prod.mk.injEq] at hr
          obtain ⟨h1, hm, _⟩ := removeConnection_ok_inv ha
          exact ⟨h1, by rw [← h.1, ← hr.1], by rw [← h.2, ← hr.2.1, hm]⟩

theorem pushCmd_moveNode_inv {lb : String → Bool} {w0 : World} {nid : String}
    {ep sp : Int × Int} {c : Cmd} {wA : World}
    (h : pushCmd lb (.moveNode nid ep sp) w0 = .ok (c, wA)) :
    ∃ nd0, alookup w0.model.nodes nid = some nd0 ∧
      c = .moveNodeCmd nid ep sp ∧
      wA.model = { w0.model with nodes := (aset w0.model.nodes nid
        ⟨nd0.ntype, ep, nd0.settings⟩) } := by
  simp only [pushCmd, mkCmd] at h
  cases hr : cmdRedo lb (.moveNodeCmd nid ep sp) w0 with
  | error e => simp only [hr] at h; exact absurd h (by simp)
  | ok p =>
      obtain ⟨c', w', evs⟩ := p
      simp only [hr] at h
      simp only [Except.ok.injEq, Prod.mk.injEq] at h
      simp only [cmdRedo] at hr
      cases ha : w0.model.updateNodePosition nid ep with
      | error e => simp only [ha] at hr; exact absurd hr (by simp)
      | ok q =>
          obtain ⟨m1, evs1⟩ := q
          simp only [ha] at hr
          simp only [Except.ok.injEq, Prod.mk.injEq] at hr
          obtain ⟨nd0, hnd0, hm, _⟩ := updateNodePosition_ok_inv ha
          exact ⟨nd0, hnd0, by rw [← h.1, ← hr.1], by rw [← h.2, ← hr.2.1, hm]⟩

theorem pushCmd_changeSetting_inv {lb : String → Bool} {w0 : World}
    {nid k : String} {v : SVal} {c : Cmd} {wA : World}
    (h : pushCmd lb (.changeSetting nid k v) w0 = .ok (c, wA)) :
    ∃ nd0, alookup w0.model.nodes nid = some nd0 ∧
      c = .changeSettingCmd nid k v (getS nd0.settings k) ∧
      wA.model = { w0.model with nodes := (aset w0.model.nodes nid
        ⟨nd0.ntype, nd0.position, aset nd0.settings k v⟩) } := by
  cases hl : alookup w0.model.nodes nid with
  | none => simp [pushCmd, mkCmd, hl] at h
  | some nd0 =>
      cases hr : cmdRedo lb (.changeSettingCmd nid k v (getS nd0.settings k)) w0 with
      | error e => simp [pushCmd, mkCmd, hl, hr] at h
      | ok p =>
          obtain ⟨c', w', evs⟩ := p
          simp only [pushCmd, mkCmd, hl, hr, Except.ok.injEq, Prod.mk.injEq] at h
          simp only [cmdRedo] at hr
          cases ha : w0.model.updateNodeSetting nid k v with
          | error e => simp [ha] at hr
          | ok q =>
              obtain ⟨m1, evs1⟩ := q
              simp only [ha, Except.ok.injEq, Prod.mk.injEq] at hr
              obtain ⟨nd0', hnd0', hm, hevs⟩ := updateNodeSetting_ok_inv ha
              have hee : nd0' = nd0 := by
                rw [hl] at hnd0'
                exact (Option.some.inj hnd0').symm
              subst hee
              exact ⟨nd0', rfl, by rw [← h.1, ← hr.1],
                by rw [← h.2, ← hr.2.1, hm]⟩

theorem pushCmd_loadImage_inv {lb : String → Bool} {w0 : World}
    {nid path : String} {c : Cmd} {wA : World}
    (h : pushCmd lb (.loadImage nid path) w0 = .ok (c, wA)) :
    ∃ nd0 hh, alookup w0.model.nodes nid = some nd0 ∧ lb path = true ∧
      (getS nd0.settings "raw_image_id").isHandleLike = true ∧
      c = .loadImageCmd nid path none (some hh) (getS nd0.settings "filepath")
            (getS nd0.settings "raw_image_id") ∧
      wA.model.nodes = aset w0.model.nodes nid
        ⟨nd0.ntype, nd0.position,
         aset (aset nd0.settings "filepath" (.vstr path)) "raw_image_id" (.vint hh)⟩ ∧
      wA.model.connections = w0.model.connections := by
  simp only [pushCmd, mkCmd] at h
  cases hl : alookup w0.model.nodes nid with
  | none => simp only [hl] at h; exact absurd h (by simp)
  | some nd0 =>
      simp only [hl] at h
      cases hld : loadRaw lb w0.backend path with
      | error e => simp only [hld] at h; exact absurd h (by simp)
      | ok p =>
          obtain ⟨hh, b'⟩ := p
          simp only [hld] at h
          have hlb : lb path = true := by
            by_contra hnb
            simp only [loadRaw, hnb, Bool.false_eq_true, if_false] at hld
            exact absurd hld (by simp)
          cases hr : cmdRedo lb (.loadImageCmd nid path (some hh) none
              (getS nd0.settings "filepath") (getS nd0.settings "raw_image_id"))
              { w0 with backend := b' } with
          | error e => simp only [hr] at h; exact absurd h (by simp)
          | ok q =>
              obtain ⟨c', w', evs⟩ := q
              simp only [hr] at h
              simp only [Except.ok.injEq, Prod.mk.injEq] at h
              obtain ⟨nd0', hnd0', horaw⟩ := cmdRedo_loadImage_ok_inv hr
              have hnd0'' : nd0' = nd0 := by
                simp only at hnd0'
                simp only [hl] at hnd0'
                exact (Option.some.inj hnd0').symm
              subst hnd0''
              rw [cmdRedo_loadImage_eq lb path (some hh) none
                (getS nd0'.settings "filepath") (getS nd0'.settings "raw_image_id")
                hnd0' horaw] at hr
              have hr' := Except.ok.inj hr
              have hrc := congrArg Prod.fst hr'
              have hrw := congrArg (fun p => p.2.1) hr'
              simp only at hrc hrw
              refine ⟨nd0', hh, rfl, hlb, horaw, ?_, ?_, ?_⟩
              · rw [← h.1, ← hrc]
                simp [liRedoResult, liPick]
              · rw [← h.2, ← hrw]
                simp only [liRedoResult, liPick]
                rw [liRelease_nodes]
                rfl
              · rw [← h.2, ← hrw]
                simp only [liRedoResult, liPick]
                rw [liRelease_connections]

theorem pushCmd_WF {lb : String → Bool} {sp : CmdSpec} {w : World} {c : Cmd}
    {w' : World} (hwf : WFModel w.model)
    (h : pushCmd lb sp w = .ok (c, w')) : WFModel w'.model := by
  simp only [pushCmd] at h
  cases hm : mkCmd lb sp w with
  | error e => simp only [hm] at h; exact absurd h (by simp)
  | ok p =>
      obtain ⟨c0, w1⟩ := p
      simp only [hm] at h
      cases hr : cmdRedo lb c0 w1 with
      | error e => simp only [hr] at h; exact absurd h (by simp)
      | ok q =>
          obtain ⟨c1, w2, evs⟩ := q
          simp only [hr, Except.ok.injEq, Prod.mk.injEq] at h
          have hwf1 : WFModel w1.model := by rw [mkCmd_model hm]; exact hwf
          rw [← h.2]
          exact cmdRedo_WF hwf1 hr

theorem pushAll_WF {lb : String → Bool} :
    ∀ {specs : List CmdSpec} {w : World} {cmds : List Cmd} {w' : World},
      WFModel w.model → pushAll lb specs w = .ok (cmds, w') → WFModel w'.model := by
  intro specs
  induction specs with
  | nil =>
      intro w cmds w' hwf h
      simp only [pushAll, Except.ok.injEq, Prod.mk.injEq] at h
      rw [← h.2]; exact hwf
  | cons sp ss ih =>
      intro w cmds w' hwf h
      cases hp : pushCmd lb sp w with
      | error e => simp [pushAll, hp] at h
      | ok p =>
          obtain ⟨c, w1⟩ := p
          cases hps : pushAll lb ss w1 with
          | error e => simp [pushAll, hp, hps] at h
          | ok q =>
              obtain ⟨cs, w2⟩ := q
              simp only [pushAll, hp, hps, Except.ok.injEq, Prod.mk.injEq] at h
              rw [← h.2]
              exact ih (pushCmd_WF hwf hp) hps

/-! ### Undo-phase step lemmas -/

theorem undo_step_moveNode {lb : String → Bool} {w0 wA u : World}
    {nid : String} {ep sp0 : Int × Int} {c : Cmd} {pend : List CmdSpec}
    (hpush : pushCmd lb (.moveNode nid ep sp0) w0 = .ok (c, wA))
    (hwfu : WFModel u.model)
    (hrel : Rel pend u.model wA.model) :
    ∃ c2 u2 evs, cmdUndo lb c u = .ok (c2, u2, evs) ∧ WFModel u2.model ∧
      Rel (.moveNode nid ep sp0 :: pend) u2.model w0.model ∧
      CmdMatch lb c c2 := by
  obtain ⟨nd0, h0, hc, hMA⟩ := pushCmd_moveNode_inv hpush
  obtain ⟨r1, r2, r3, r4, r5⟩ := hrel
  rw [hMA] at r1 r2 r3 r4 r5
  have hsome : (nlook u.model nid).isSome = true := by
    rw [r1 nid, isSome_nlook_set h0]
    simp [nlook, h0]
  obtain ⟨ndU, hndU⟩ := Option.isSome_iff_exists.1 hsome
  have hndU : alookup u.model.nodes nid = some ndU := hndU
  have hupd := updateNodePosition_eq hndU sp0
  subst hc
  refine ⟨.moveNodeCmd nid ep sp0,
    { u with model := { u.model with nodes := (aset u.model.nodes nid
        ⟨ndU.ntype, sp0, ndU.settings⟩) } }, [.nodePositionChanged nid sp0],
    ?_, ?_, ?_, ⟨rfl, rfl, rfl⟩⟩
  · simp only [cmdUndo, hupd]
  · exact WF_of_updateNodePosition hwfu hupd
  · refine ⟨?_, ?_, ?_, ?_, ?_⟩
    · intro id
      rw [isSome_nlook_set hndU _ id, r1 id, isSome_nlook_set h0]
    · intro cc
      exact r2 cc
    · intro id
      rw [ptype_set_position hndU sp0 id, r3 id, ptype_set_position h0 ep id]
    · intro id
      by_cases he : nid = id
      · subst he
        exact Or.inr ⟨.moveNode nid ep sp0, List.mem_cons_self _ _, rfl⟩
      · rw [ppos_set_position hndU sp0 id, if_neg he]
        rcases r4 id with h4 | ⟨sp', hmem, hw⟩
        · rw [h4, ppos_set_position h0 ep id, if_neg he]
          exact Or.inl rfl
        · exact Or.inr ⟨sp', List.mem_cons_of_mem _ hmem, hw⟩
    · intro id k
      rw [slook_set_position hndU sp0 id k]
      rcases r5 id k with h5 | h5 | ⟨⟨sp', hmem, hw⟩, hhl⟩
      · rw [h5, slook_set_position h0 ep id k]
        exact Or.inl rfl
      · rw [slook_set_position h0 ep id k] at h5
        exact Or.inr (Or.inl h5)
      · exact Or.inr (Or.inr ⟨⟨sp', List.mem_cons_of_mem _ hmem, hw⟩, hhl⟩)

theorem undo_step_changeSetting {lb : String → Bool} {w0 wA u : World}
    {nid k : String} {v : SVal} {c : Cmd} {pend : List CmdSpec}
    (hpush : pushCmd lb (.changeSetting nid k v) w0 = .ok (c, wA))
    (hwfu : WFModel u.model)
    (hrel : Rel pend u.model wA.model) :
    ∃ c2 u2 evs, cmdUndo lb c u = .ok (c2, u2, evs) ∧ WFModel u2.model ∧
      Rel (.changeSetting nid k v :: pend) u2.model w0.model ∧
      CmdMatch lb c c2 := by
  obtain ⟨nd0, h0, hc, hMA⟩ := pushCmd_changeSetting_inv hpush
  obtain ⟨r1, r2, r3, r4, r5⟩ := hrel
  rw [hMA] at r1 r2 r3 r4 r5
  have hsome : (nlook u.model nid).isSome = true := by
    rw [r1 nid, isSome_nlook_set h0]
    simp [nlook, h0]
  obtain ⟨ndU, hndU⟩ := Option.isSome_iff_exists.1 hsome
  have hndU : alookup u.model.nodes nid = some ndU := hndU
  have hupd := updateNodeSetting_eq hndU k (getS nd0.settings k)
  subst hc
  refine ⟨.changeSettingCmd nid k v (getS nd0.settings k),
    { u with model := { u.model with nodes := (aset u.model.nodes nid
        ⟨ndU.ntype, ndU.position, aset ndU.settings k (getS nd0.settings k)⟩) } },
    [.nodeSettingChanged nid k (getS nd0.settings k)],
    ?_, ?_, ?_, ⟨rfl, rfl, rfl, rfl⟩⟩
  · simp only [cmdUndo, hupd]
  · exact WF_of_updateNodeSetting hwfu hupd
  · refine ⟨?_, ?_, ?_, ?_, ?_⟩
    · intro id
      rw [isSome_nlook_set hndU _ id, r1 id, isSome_nlook_set h0]
    · intro cc
      exact r2 cc
    · intro id
      rw [ptype_set_settings hndU k _ id, r3 id, ptype_set_settings h0 k v id]
    · intro id
      rw [ppos_set_settings hndU k _ id]
      rcases r4 id with h4 | ⟨sp', hmem, hw⟩
      · rw [h4, ppos_set_settings h0 k v id]
        exact Or.inl rfl
      · exact Or.inr ⟨sp', List.mem_cons_of_mem _ hmem, hw⟩
    · intro id k'
      rw [slook_set_settings hndU k _ id k']
      by_cases he : nid = id
      · subst he
        rw [if_pos rfl]
        by_cases hk : k = k'
        · subst hk
          rw [if_pos rfl]
          -- restored value is the captured old value
          cases hold : alookup nd0.settings k with
          | some v0 =>
              refine Or.inl ?_
              simp [getS, hold, slook, nlook, h0]
          | none =>
              refine Or.inr (Or.inr ⟨⟨.changeSetting nid k v,
                List.mem_cons_self _ _, rfl, rfl⟩, ?_⟩)
              intro vv hvv
              simp only [getS, hold, Option.getD_none] at hvv
              rw [← Option.some.inj hvv]
              rfl
        · rw [if_neg hk]
          rcases r5 nid k' with h5 | h5 | ⟨⟨sp', hmem, hw⟩, hhl⟩
          · rw [h5, slook_set_settings h0 k v nid k', if_pos rfl, if_neg hk]
            exact Or.inl rfl
          · rw [slook_set_settings h0 k v nid k', if_pos rfl, if_neg hk] at h5
            exact Or.inr (Or.inl h5)
          · exact Or.inr (Or.inr ⟨⟨sp', List.mem_cons_of_mem _ hmem, hw⟩, hhl⟩)
      · rw [if_neg he]
        rcases r5 id k' with h5 | h5 | ⟨⟨sp', hmem, hw⟩, hhl⟩
        · rw [h5, slook_set_settings h0 k v id k', if_neg he]
          exact Or.inl rfl
        · rw [slook_set_settings h0 k v id k', if_neg he] at h5
          exact Or.inr (Or.inl h5)
        · exact Or.inr (Or.inr ⟨⟨sp', List.mem_cons_of_mem _ hmem, hw⟩, hhl⟩)

theorem undo_step_addConn {lb : String → Bool} {w0 wA u : World}
    {c0 : Connection} {c : Cmd} {pend : List CmdSpec}
    (hpush : pushCmd lb (.addConn c0) w0 = .ok (c, wA))
    (hwfu : WFModel u.model)
    (hrel : Rel pend u.model wA.model) :
    ∃ c2 u2 evs, cmdUndo lb c u = .ok (c2, u2, evs) ∧ WFModel u2.model ∧
      Rel (.addConn c0 :: pend) u2.model w0.model ∧
      CmdMatch lb c c2 := by
  obtain ⟨he1, he2, hnm, hc, hMA⟩ := pushCmd_addConn_inv hpush
  obtain ⟨r1, r2, r3, r4, r5⟩ := hrel
  rw [hMA] at r1 r2 r3 r4 r5
  have hmem : c0 ∈ u.model.connections := by
    rw [r2 c0]
    simp
  have hrem := removeConnection_eq hmem
  subst hc
  refine ⟨.addConnCmd c0,
    { u with model := { u.model with connections := lremove u.model.connections c0 } },
    [.connectionRemoved c0], ?_, ?_, ?_, rfl⟩
  · simp only [cmdUndo, hrem]
  · exact WF_of_removeConnection hwfu hrem
  · refine ⟨?_, ?_, ?_, ?_, ?_⟩
    · intro id; exact r1 id
    · intro cc
      rw [mem_lremove hwfu.2.1]
      constructor
      · rintro ⟨hin, hne⟩
        rcases List.mem_append.1 ((r2 cc).1 hin) with hx | hx
        · exact hx
        · exact absurd (List.mem_singleton.1 hx) hne
      · intro hin
        refine ⟨(r2 cc).2 (List.mem_append.2 (Or.inl hin)), ?_⟩
        intro hee
        exact hnm (hee ▸ hin)
    · intro id; exact r3 id
    · intro id
      rcases r4 id with h4 | ⟨sp', hmem', hw⟩
      · exact Or.inl h4
      · exact Or.inr ⟨sp', List.mem_cons_of_mem _ hmem', hw⟩
    · intro id k
      rcases r5 id k with h5 | h5 | ⟨⟨sp', hmem', hw⟩, hhl⟩
      · exact Or.inl h5
      · exact Or.inr (Or.inl h5)
      · exact Or.inr (Or.inr ⟨⟨sp', List.mem_cons_of_mem _ hmem', hw⟩, hhl⟩)

theorem undo_step_removeConn {lb : String → Bool} {w0 wA u : World}
    {c0 : Connection} {c : Cmd} {pend : List CmdSpec}
    (hpush : pushCmd lb (.removeConn c0) w0 = .ok (c, wA))
    (hwf0 : WFModel w0.model) (hwfu : WFModel u.model)
    (hrel : Rel pend u.model wA.model) :
    ∃ c2 u2 evs, cmdUndo lb c u = .ok (c2, u2, evs) ∧ WFModel u2.model ∧
      Rel (.removeConn c0 :: pend) u2.model w0.model ∧
      CmdMatch lb c c2 := by
  obtain ⟨hmem0, hc, hMA⟩ := pushCmd_removeConn_inv hpush
  obtain ⟨r1, r2, r3, r4, r5⟩ := hrel
  rw [hMA] at r1 r2 r3 r4 r5
  have he0 := hwf0.2.2 c0 hmem0
  have hnm : c0 ∉ u.model.connections := by
    intro hx
    have := (r2 c0).1 hx
    rw [mem_lremove hwf0.2.1] at this
    exact this.2 rfl
  have he1 : (alookup u.model.nodes c0.from_node).isSome = true := by
    rw [show (alookup u.model.nodes c0.from_node) = nlook u.model c0.from_node from rfl,
      r1 c0.from_node]
    exact he0.1
  have he2 : (alookup u.model.nodes c0.to_node).isSome = true := by
    rw [show (alookup u.model.nodes c0.to_node) = nlook u.model c0.to_node from rfl,
      r1 c0.to_node]
    exact he0.2
  have hadd := addConnection_eq he1 he2 hnm
  subst hc
  refine ⟨.removeConnCmd c0,
    { u with model := { u.model with connections := u.model.connections ++ [c0] } },
    [.connectionAdded c0], ?_, ?_, ?_, rfl⟩
  · simp only [cmdUndo, hadd]
  · exact WF_of_addConnection hwfu hadd
  · refine ⟨?_, ?_, ?_, ?_, ?_⟩
    · intro id; exact r1 id
    · intro cc
      constructor
      · intro hin
        rcases List.mem_append.1 hin with hx | hx
        · exact lremove_subset _ _ ((r2 cc).1 hx)
        · rw [List.mem_singleton.1 hx]; exact hmem0
      · intro hin
        by_cases hee : cc = c0
        · subst hee; simp
        · refine List.mem_append.2 (Or.inl ((r2 cc).2 ?_))
          rw [mem_lremove hwf0.2.1]
          exact ⟨hin, hee⟩
    · intro id; exact r3 id
    · intro id
      rcases r4 id with h4 | ⟨sp', hmem', hw⟩
      · exact Or.inl h4
      · exact Or.inr ⟨sp', List.mem_cons_of_mem _ hmem', hw⟩
    · intro id k
      rcases r5 id k with h5 | h5 | ⟨⟨sp', hmem', hw⟩, hhl⟩
      · exact Or.inl h5
      · exact Or.inr (Or.inl h5)
      · exact Or.inr (Or.inr ⟨⟨sp', List.mem_cons_of_mem _ hmem', hw⟩, hhl⟩)

theorem undo_step_addNode {lb : String → Bool} {w0 wA u : World}
    {ty : String} {pos : Int × Int} {c : Cmd} {pend : List CmdSpec}
    (hpush : pushCmd lb (.addNode ty pos) w0 = .ok (c, wA))
    (hwf0 : WFModel w0.model) (hwfu : WFModel u.model)
    (hrel : Rel pend u.model wA.model) :
    ∃ c2 u2 evs, cmdUndo lb c u = .ok (c2, u2, evs) ∧ WFModel u2.model ∧
      Rel (.addNode ty pos :: pend) u2.model w0.model ∧
      CmdMatch lb c c2 := by
  obtain ⟨nid, hc, hne, habs, hMA⟩ := pushCmd_addNode_inv hpush
  obtain ⟨r1, r2, r3, r4, r5⟩ := hrel
  rw [hMA] at r1 r2 r3 r4 r5
  -- the node exists on the shadow side
  have hsome : (nlook u.model nid).isSome = true := by
    rw [r1 nid, isSome_nlook_append _ habs, if_pos rfl]
  obtain ⟨ndU, hndU⟩ := Option.isSome_iff_exists.1 hsome
  have hndU : alookup u.model.nodes nid = some ndU := hndU
  -- its type agrees with the fresh node's type
  have hty : ndU.ntype = ty := by
    have h3 := r3 nid
    rw [ptype_append _ habs, if_pos rfl] at h3
    simp only [ptype, nlook, hndU, Option.map_some] at h3
    exact Option.some.inj h3
  -- removal is release-safe
  have hsafe : releaseSafe ndU := by
    intro hil
    have h5 := r5 nid "raw_image_id"
    rw [slook_append _ habs, if_pos rfl] at h5
    have hnone : alookup (NodeData.settings ⟨ty, pos, []⟩) "raw_image_id" = none := rfl
    rw [hnone] at h5
    rcases h5 with h5 | h5 | ⟨_, hhl⟩
    · simp only [slook, nlook, hndU, Option.some_bind] at h5
      simp only [rawOf, getS, h5, Option.getD_none]
      rfl
    · rcases h5.2.1 with ⟨vt, hvt, hlt⟩
      simp only [slook, nlook, hndU, Option.some_bind] at hvt
      simp only [rawOf, getS, hvt, Option.getD_some]
      exact hlt
    · cases hv : alookup ndU.settings "raw_image_id" with
      | none => simp only [rawOf, getS, hv, Option.getD_none]; rfl
      | some vv =>
          have : slook u.model nid "raw_image_id" = some vv := by
            simp only [slook, nlook, hndU, Option.some_bind, hv]
          simp only [rawOf, getS, hv, Option.getD_some]
          exact hhl vv this
  have hrem := removeNode_eq u.backend hndU hwfu.2.1 hsafe
  subst hc
  refine ⟨.addNodeCmd ty pos (some nid),
    { u with
      model := { version := u.model.version,
                 nodes := adel u.model.nodes nid,
                 connections := u.model.connections.filter (fun x => !(x.touches nid)),
                 thumbnail_cache := purgeIfHandle u.model.thumbnail_cache ndU },
      backend := releaseIfHandle u.backend ndU },
    (u.model.connections.filter (·.touches nid)).map Event.connectionRemoved
      ++ [.nodeRemoved nid], ?_, ?_, ?_, ⟨rfl, rfl, rfl⟩⟩
  · simp only [cmdUndo, if_neg hne, hrem]
  · exact WF_of_removeNode hwfu hrem
  -- no connection of the original document touches the fresh node id
  · have hnotouch : ∀ cc : Connection, cc ∈ w0.model.connections →
        cc.touches nid = false := by
      intro cc hcc
      obtain ⟨hf, ht⟩ := hwf0.2.2 cc hcc
      simp only [Connection.touches, Bool.or_eq_false_iff, beq_eq_false_iff_ne,
        ne_eq]
      constructor
      · intro hx
        rw [hx] at hf
        rw [habs] at hf
        simp at hf
      · intro hx
        rw [hx] at ht
        rw [habs] at ht
        simp at ht
    have hbig1 : ∀ id, nlook { version := u.model.version, nodes := adel u.model.nodes nid, connections := u.model.connections.filter (fun x => !(x.touches nid)), thumbnail_cache := purgeIfHandle u.model.thumbnail_cache ndU } id = nlook { u.model with nodes := adel u.model.nodes nid } id := fun _ => rfl
    have hbig3 : ∀ id, ptype { version := u.model.version, nodes := adel u.model.nodes nid, connections := u.model.connections.filter (fun x => !(x.touches nid)), thumbnail_cache := purgeIfHandle u.model.thumbnail_cache ndU } id = ptype { u.model with nodes := adel u.model.nodes nid } id := fun _ => rfl
    have hbig4 : ∀ id, ppos { version := u.model.version, nodes := adel u.model.nodes nid, connections := u.model.connections.filter (fun x => !(x.touches nid)), thumbnail_cache := purgeIfHandle u.model.thumbnail_cache ndU } id = ppos { u.model with nodes := adel u.model.nodes nid } id := fun _ => rfl
    have hbig5 : ∀ id k, slook { version := u.model.version, nodes := adel u.model.nodes nid, connections := u.model.connections.filter (fun x => !(x.touches nid)), thumbnail_cache := purgeIfHandle u.model.thumbnail_cache ndU } id k = slook { u.model with nodes := adel u.model.nodes nid } id k := fun _ _ => rfl
    refine ⟨?_, ?_, ?_, ?_, ?_⟩
    · intro id
      rw [hbig1 id, isSome_nlook_adel hwfu.1]
      by_cases he : nid = id
      · subst he
        rw [if_pos rfl]
        simp [nlook, habs]
      · rw [if_neg he, r1 id, isSome_nlook_append _ habs, if_neg he]
    · intro cc
      simp only [List.mem_filter, Bool.not_eq_eq_eq_not, Bool.not_true]
      constructor
      · rintro ⟨hin, _⟩
        exact (r2 cc).1 hin
      · intro hin
        exact ⟨(r2 cc).2 hin, hnotouch cc hin⟩
    · intro id
      rw [hbig3 id, ptype_adel hwfu.1]
      by_cases he : nid = id
      · subst he
        rw [if_pos rfl]
        simp [ptype, nlook, habs]
      · rw [if_neg he, r3 id, ptype_append _ habs, if_neg he]
    · intro id
      rw [hbig4 id, ppos_adel hwfu.1]
      by_cases he : nid = id
      · subst he
        rw [if_pos rfl]
        refine Or.inl ?_
        simp [ppos, nlook, habs]
      · rw [if_neg he]
        rcases r4 id with h4 | ⟨sp', hmem', hw⟩
        · rw [h4, ppos_append _ habs, if_neg he]
          exact Or.inl rfl
        · exact Or.inr ⟨sp', List.mem_cons_of_mem _ hmem', hw⟩
    · intro id k
      rw [hbig5 id k, slook_adel hwfu.1]
      by_cases he : nid = id
      · subst he
        rw [if_pos rfl]
        refine Or.inl ?_
        simp [slook, nlook, habs]
      · rw [if_neg he]
        rcases r5 id k with h5 | h5 | ⟨⟨sp', hmem', hw⟩, hhl⟩
        · rw [h5, slook_append _ habs, if_neg he]
          exact Or.inl rfl
        · rw [slook_append _ habs, if_neg he] at h5
          exact Or.inr (Or.inl h5)
        · exact Or.inr (Or.inr ⟨⟨sp', List.mem_cons_of_mem _ hmem', hw⟩, hhl⟩)

theorem undo_step_removeNode {lb : String → Bool} {w0 wA u : World}
    {nid : String} {c : Cmd} {pend : List CmdSpec}
    (hpush : pushCmd lb (.removeNode nid) w0 = .ok (c, wA))
    (hwf0 : WFModel w0.model) (hwfu : WFModel u.model)
    (hrel : Rel pend u.model wA.model) :
    ∃ c2 u2 evs, cmdUndo lb c u = .ok (c2, u2, evs) ∧ WFModel u2.model ∧
      Rel (.removeNode nid :: pend) u2.model w0.model ∧
      CmdMatch lb c c2 := by
  obtain ⟨nd0, h0, hsafe0, hc, hMA⟩ := pushCmd_removeNode_inv hwf0 hpush
  obtain ⟨r1, r2, r3, r4, r5⟩ := hrel
  rw [hMA] at r1 r2 r3 r4 r5
  have hadelT : ∀ id, nlook { version := w0.model.version, nodes := adel w0.model.nodes nid, connections := w0.model.connections.filter (fun x => !(x.touches nid)), thumbnail_cache := purgeIfHandle w0.model.thumbnail_cache nd0 } id = nlook { w0.model with nodes := adel w0.model.nodes nid } id := fun _ => rfl
  have hadelT3 : ∀ id, ptype { version := w0.model.version, nodes := adel w0.model.nodes nid, connections := w0.model.connections.filter (fun x => !(x.touches nid)), thumbnail_cache := purgeIfHandle w0.model.thumbnail_cache nd0 } id = ptype { w0.model with nodes := adel w0.model.nodes nid } id := fun _ => rfl
  have hadelT4 : ∀ id, ppos { version := w0.model.version, nodes := adel w0.model.nodes nid, connections := w0.model.connections.filter (fun x => !(x.touches nid)), thumbnail_cache := purgeIfHandle w0.model.thumbnail_cache nd0 } id = ppos { w0.model with nodes := adel w0.model.nodes nid } id := fun _ => rfl
  have hadelT5 : ∀ id k, slook { version := w0.model.version, nodes := adel w0.model.nodes nid, connections := w0.model.connections.filter (fun x => !(x.touches nid)), thumbnail_cache := purgeIfHandle w0.model.thumbnail_cache nd0 } id k = slook { w0.model with nodes := adel w0.model.nodes nid } id k := fun _ _ => rfl
  -- the node is absent on the shadow side
  have habs_u : alookup u.model.nodes nid = none := by
    have h1 := r1 nid
    rw [hadelT nid, isSome_nlook_adel hwf0.1, if_pos rfl] at h1
    cases hx : alookup u.model.nodes nid with
    | none => rfl
    | some v =>
        exfalso
        rw [show nlook u.model nid = alookup u.model.nodes nid from rfl, hx] at h1
        simp at h1
  have hadd := addNodeWithData_eq habs_u nd0
  have hconnsub : ∀ x ∈ w0.model.connections.filter (·.touches nid),
      x ∈ w0.model.connections := fun x hx => List.mem_of_mem_filter hx
  have hconns := addConnsList_ok
      { u.model with nodes := u.model.nodes ++ [(nid, nd0)] }
      (w0.model.connections.filter (·.touches nid))
      (hwf0.2.1.filter _)
      (by
        intro x hx
        obtain ⟨hf, ht⟩ := hwf0.2.2 x (hconnsub x hx)
        have hfrom : ∀ e : String, (alookup w0.model.nodes e).isSome = true →
            (alookup ({ u.model with nodes := u.model.nodes ++ [(nid, nd0)] } : Model).nodes e).isSome = true := by
          intro e hee
          rw [show alookup ({ u.model with nodes := u.model.nodes ++ [(nid, nd0)] } : Model).nodes e = nlook { u.model with nodes := u.model.nodes ++ [(nid, nd0)] } e from rfl, nlook_append nd0 habs_u e]
          by_cases he : nid = e
          · rw [if_pos he]; rfl
          · rw [if_neg he]
            have h2 := r1 e
            rw [hadelT e, isSome_nlook_adel hwf0.1, if_neg he] at h2
            rw [h2]
            exact hee
        exact ⟨hfrom x.from_node hf, hfrom x.to_node ht⟩)
      (by
        intro x hx hmem
        have hmem2 : x ∈ w0.model.connections.filter (fun y => !(y.touches nid)) :=
          (r2 x).1 hmem
        have hxt := List.of_mem_filter hx
        have hxnt := List.of_mem_filter hmem2
        simp only at hxt hxnt
        rw [hxt] at hxnt
        simp at hxnt)
  subst hc
  refine ⟨.removeNodeCmd nid nd0 (w0.model.connections.filter (·.touches nid)),
    { u with model := { u.model with
        nodes := u.model.nodes ++ [(nid, nd0)],
        connections := u.model.connections ++
          w0.model.connections.filter (·.touches nid) } },
    [.nodeAdded nid] ++ (w0.model.connections.filter (·.touches nid)).map
      Event.connectionAdded, ?_, ?_, ?_, ⟨rfl, rfl, rfl⟩⟩
  · simp only [cmdUndo, hadd, hconns]
  · exact addConnsList_WF (WF_of_addNodeWithData hwfu hadd) hconns
  · have hu2T : ∀ id, nlook { u.model with nodes := u.model.nodes ++ [(nid, nd0)], connections := u.model.connections ++ w0.model.connections.filter (·.touches nid) } id = nlook { u.model with nodes := u.model.nodes ++ [(nid, nd0)] } id := fun _ => rfl
    have hu2T3 : ∀ id, ptype { u.model with nodes := u.model.nodes ++ [(nid, nd0)], connections := u.model.connections ++ w0.model.connections.filter (·.touches nid) } id = ptype { u.model with nodes := u.model.nodes ++ [(nid, nd0)] } id := fun _ => rfl
    have hu2T4 : ∀ id, ppos { u.model with nodes := u.model.nodes ++ [(nid, nd0)], connections := u.model.connections ++ w0.model.connections.filter (·.touches nid) } id = ppos { u.model with nodes := u.model.nodes ++ [(nid, nd0)] } id := fun _ => rfl
    have hu2T5 : ∀ id k, slook { u.model with nodes := u.model.nodes ++ [(nid, nd0)], connections := u.model.connections ++ w0.model.connections.filter (·.touches nid) } id k = slook { u.model with nodes := u.model.nodes ++ [(nid, nd0)] } id k := fun _ _ => rfl
    refine ⟨?_, ?_, ?_, ?_, ?_⟩
    · intro id
      rw [hu2T id, isSome_nlook_append nd0 habs_u]
      by_cases he : nid = id
      · subst he
        rw [if_pos rfl]
        simp [nlook, h0]
      · rw [if_neg he, r1 id, hadelT id, isSome_nlook_adel hwf0.1, if_neg he]
    · intro cc
      constructor
      · intro hin
        rcases List.mem_append.1 hin with hx | hx
        · have := (r2 cc).1 hx
          exact List.mem_of_mem_filter this
        · exact List.mem_of_mem_filter hx
      · intro hin
        by_cases htc : cc.touches nid
        · exact List.mem_append.2 (Or.inr (List.mem_filter.2 ⟨hin, htc⟩))
        · refine List.mem_append.2 (Or.inl ((r2 cc).2 ?_))
          exact List.mem_filter.2 ⟨hin, by simpa using htc⟩
    · intro id
      rw [hu2T3 id, ptype_append nd0 habs_u]
      by_cases he : nid = id
      · subst he
        rw [if_pos rfl]
        simp [ptype, nlook, h0]
      · rw [if_neg he, r3 id, hadelT3 id, ptype_adel hwf0.1, if_neg he]
    · intro id
      rw [hu2T4 id, ppos_append nd0 habs_u]
      by_cases he : nid = id
      · subst he
        rw [if_pos rfl]
        refine Or.inl ?_
        simp [ppos, nlook, h0]
      · rw [if_neg he]
        rcases r4 id with h4 | ⟨sp', hmem', hw⟩
        · rw [h4, hadelT4 id, ppos_adel hwf0.1, if_neg he]
          exact Or.inl rfl
        · exact Or.inr ⟨sp', List.mem_cons_of_mem _ hmem', hw⟩
    · intro id k
      rw [hu2T5 id k, slook_append nd0 habs_u]
      by_cases he : nid = id
      · subst he
        rw [if_pos rfl]
        refine Or.inl ?_
        simp [slook, nlook, h0]
      · rw [if_neg he]
        rcases r5 id k with h5 | h5 | ⟨⟨sp', hmem', hw⟩, hhl⟩
        · rw [h5, hadelT5 id k, slook_adel hwf0.1, if_neg he]
          exact Or.inl rfl
        · rw [hadelT5 id k, slook_adel hwf0.1, if_neg he] at h5
          exact Or.inr (Or.inl h5)
        · exact Or.inr (Or.inr ⟨⟨sp', List.mem_cons_of_mem _ hmem', hw⟩, hhl⟩)

theorem liReload_hl (lb : String → Bool) (b : Backend) (v : SVal) :
    ((liReload lb b v).2.1).isHandleLike = true := by
  unfold liReload
  by_cases ht : v.truthy
  · rw [if_pos ht]
    cases hld : loadRawS lb b v with
    | ok p => obtain ⟨a, b2⟩ := p; rfl
    | error e => rfl
  · rw [if_neg ht]; rfl

theorem liReload_fst (lb : String → Bool) (b : Backend) (v : SVal) :
    (liReload lb b v).1 = v ∨ (liReload lb b v).1 = SVal.vnull := by
  unfold liReload
  by_cases ht : v.truthy
  · rw [if_pos ht]
    cases hld : loadRawS lb b v with
    | ok p => obtain ⟨a, b2⟩ := p; exact Or.inl rfl
    | error e => exact Or.inr rfl
  · rw [if_neg ht]; exact Or.inl rfl

theorem undo_step_loadImage {lb : String → Bool} {w0 wA u : World}
    {nid path : String} {c : Cmd} {pend : List CmdSpec}
    (hpush : pushCmd lb (.loadImage nid path) w0 = .ok (c, wA))
    (hwfu : WFModel u.model)
    (hrel : Rel pend u.model wA.model) :
    ∃ c2 u2 evs, cmdUndo lb c u = .ok (c2, u2, evs) ∧ WFModel u2.model ∧
      Rel (.loadImage nid path :: pend) u2.model w0.model ∧
      CmdMatch lb c c2 := by
  obtain ⟨nd0, hh, h0, hlb, horaw0, hc, hMAn, hMAc⟩ := pushCmd_loadImage_inv hpush
  obtain ⟨r1, r2, r3, r4, r5⟩ := hrel
  -- transports from the post-push model to the pre-push model
  have tA1 : ∀ id, nlook wA.model id =
      nlook { w0.model with nodes := (aset w0.model.nodes nid
        ⟨nd0.ntype, nd0.position,
         aset (aset nd0.settings "filepath" (.vstr path)) "raw_image_id" (.vint hh)⟩) } id :=
    fun id => nlook_eq_of_nodes _ hMAn id
  have tA3 : ∀ id, ptype wA.model id = ptype w0.model id := by
    intro id
    rw [ptype_eq_of_nodes { w0.model with nodes := (aset w0.model.nodes nid ⟨nd0.ntype, nd0.position, aset (aset nd0.settings "filepath" (.vstr path)) "raw_image_id" (.vint hh)⟩) } hMAn id]
    exact ptype_set_two h0 _ _ _ _ id
  have tA4 : ∀ id, ppos wA.model id = ppos w0.model id := by
    intro id
    rw [ppos_eq_of_nodes { w0.model with nodes := (aset w0.model.nodes nid ⟨nd0.ntype, nd0.position, aset (aset nd0.settings "filepath" (.vstr path)) "raw_image_id" (.vint hh)⟩) } hMAn id]
    exact ppos_set_two h0 _ _ _ _ id
  have tA5 : ∀ id k, slook wA.model id k =
      if nid = id then
        (if "raw_image_id" = k then some (.vint hh)
         else if "filepath" = k then some (.vstr path) else slook w0.model nid k)
      else slook w0.model id k := by
    intro id k
    rw [slook_eq_of_nodes { w0.model with nodes := (aset w0.model.nodes nid ⟨nd0.ntype, nd0.position, aset (aset nd0.settings "filepath" (.vstr path)) "raw_image_id" (.vint hh)⟩) } hMAn id k]
    exact slook_set_two h0 _ _ _ _ id k
  -- the node exists on the shadow side
  have hsome : (nlook u.model nid).isSome = true := by
    rw [r1 nid, tA1 nid, isSome_nlook_set h0, show (nlook w0.model nid).isSome = true
      from by simp [nlook, h0]]
  obtain ⟨ndU, hndU⟩ := Option.isSome_iff_exists.1 hsome
  have hndU : alookup u.model.nodes nid = some ndU := hndU
  have hndUp : alookup (u.model.purgeThumb hh).nodes nid = some ndU := hndU
  have hundo := cmdUndo_loadImage_eq lb path none (some hh)
    (getS nd0.settings "filepath") (getS nd0.settings "raw_image_id") hndU
  subst hc
  refine ⟨.loadImageCmd nid path none none
      (liReload lb (u.backend.release hh) (getS nd0.settings "filepath")).1
      (liReload lb (u.backend.release hh) (getS nd0.settings "filepath")).2.1,
    { u with
      model := { u.model.purgeThumb hh with nodes := (aset (u.model.purgeThumb hh).nodes nid
        ⟨ndU.ntype, ndU.position,
         aset (aset ndU.settings "filepath"
             (liReload lb (u.backend.release hh) (getS nd0.settings "filepath")).1)
           "raw_image_id"
           (liReload lb (u.backend.release hh) (getS nd0.settings "filepath")).2.1⟩) },
      backend := (liReload lb (u.backend.release hh) (getS nd0.settings "filepath")).2.2 },
    [.nodeSettingChanged nid "filepath"
        (liReload lb (u.backend.release hh) (getS nd0.settings "filepath")).1,
     .nodeSettingChanged nid "raw_image_id"
        (liReload lb (u.backend.release hh) (getS nd0.settings "filepath")).2.1],
    ?_, ?_, ?_, ⟨rfl, rfl, rfl, liReload_hl lb _ _, hlb⟩⟩
  · exact hundo
  · exact WF_set_node (show WFModel (u.model.purgeThumb hh) from hwfu)
      (by rw [hndUp]; rfl)
  · refine ⟨?_, ?_, ?_, ?_, ?_⟩
    · intro id
      rw [isSome_nlook_set hndUp _ id, show ∀ i, (nlook (u.model.purgeThumb hh) i).isSome = (nlook u.model i).isSome from fun _ => rfl, r1 id, tA1 id, isSome_nlook_set h0]
    · intro cc
      rw [show cc ∈ ({ u.model.purgeThumb hh with nodes := (aset (u.model.purgeThumb hh).nodes nid ⟨ndU.ntype, ndU.position, aset (aset ndU.settings "filepath" (liReload lb (u.backend.release hh) (getS nd0.settings "filepath")).1) "raw_image_id" (liReload lb (u.backend.release hh) (getS nd0.settings "filepath")).2.1⟩) } : Model).connections ↔ cc ∈ u.model.connections from Iff.rfl, r2 cc, hMAc]
    · intro id
      rw [show ptype { u.model.purgeThumb hh with nodes := (aset (u.model.purgeThumb hh).nodes nid ⟨ndU.ntype, ndU.position, aset (aset ndU.settings "filepath" (liReload lb (u.backend.release hh) (getS nd0.settings "filepath")).1) "raw_image_id" (liReload lb (u.backend.release hh) (getS nd0.settings "filepath")).2.1⟩) } id = ptype u.model id from by
          rw [ptype_set_two hndUp]
          rfl
        , r3 id, tA3 id]
    · intro id
      rw [show ppos { u.model.purgeThumb hh with nodes := (aset (u.model.purgeThumb hh).nodes nid ⟨ndU.ntype, ndU.position, aset (aset ndU.settings "filepath" (liReload lb (u.backend.release hh) (getS nd0.settings "filepath")).1) "raw_image_id" (liReload lb (u.backend.release hh) (getS nd0.settings "filepath")).2.1⟩) } id = ppos u.model id from by
          rw [ppos_set_two hndUp]
          rfl]
      rcases r4 id with h4 | ⟨sp', hmem', hw⟩
      · rw [h4, tA4 id]
        exact Or.inl rfl
      · exact Or.inr ⟨sp', List.mem_cons_of_mem _ hmem', hw⟩
    · intro id k
      have hpg : ∀ i k2, slook (u.model.purgeThumb hh) i k2 = slook u.model i k2 :=
        fun _ _ => rfl
      rw [slook_set_two hndUp "filepath" _ "raw_image_id" _ id k]
      simp only [hpg]
      by_cases he : nid = id
      · subst he
        rw [if_pos rfl]
        by_cases hk2 : ("raw_image_id" : String) = k
        · subst hk2
          rw [if_pos rfl]
          cases hold : alookup nd0.settings "raw_image_id" with
          | some v0 =>
              refine Or.inr (Or.inl ⟨rfl, ⟨_, rfl, liReload_hl lb _ _⟩, ⟨v0, ?_, ?_⟩⟩)
              · simp [slook, nlook, h0, hold]
              · have : getS nd0.settings "raw_image_id" = v0 := by
                  simp [getS, hold]
                rw [← this]
                exact horaw0
          | none =>
              refine Or.inr (Or.inr ⟨⟨.loadImage nid path,
                List.mem_cons_self _ _, rfl, Or.inr rfl⟩, ?_⟩)
              intro vv hvv
              rw [← Option.some.inj hvv]
              exact liReload_hl lb _ _
        · rw [if_neg hk2]
          by_cases hk1 : ("filepath" : String) = k
          · subst hk1
            rw [if_pos rfl]
            rcases liReload_fst lb (u.backend.release hh) (getS nd0.settings "filepath")
              with hre | hre
            · rw [hre]
              cases hold : alookup nd0.settings "filepath" with
              | some v0 =>
                  refine Or.inl ?_
                  have : getS nd0.settings "filepath" = v0 := by simp [getS, hold]
                  rw [this]
                  simp [slook, nlook, h0, hold]
              | none =>
                  have : getS nd0.settings "filepath" = .vnull := by simp [getS, hold]
                  rw [this]
                  refine Or.inr (Or.inr ⟨⟨.loadImage nid path,
                    List.mem_cons_self _ _, rfl, Or.inl rfl⟩, ?_⟩)
                  intro vv hvv
                  rw [← Option.some.inj hvv]
                  rfl
            · rw [hre]
              refine Or.inr (Or.inr ⟨⟨.loadImage nid path,
                List.mem_cons_self _ _, rfl, Or.inl rfl⟩, ?_⟩)
              intro vv hvv
              rw [← Option.some.inj hvv]
              rfl
          · rw [if_neg hk1]
            rcases r5 nid k with h5 | h5 | ⟨⟨sp', hmem', hw⟩, hhl⟩
            · rw [h5, tA5 nid k, if_pos rfl, if_neg hk2, if_neg hk1]
              exact Or.inl rfl
            · rw [tA5 nid k, if_pos rfl, if_neg hk2, if_neg hk1] at h5
              exact Or.inr (Or.inl h5)
            · exact Or.inr (Or.inr ⟨⟨sp', List.mem_cons_of_mem _ hmem', hw⟩, hhl⟩)
      · rw [if_neg he]
        rcases r5 id k with h5 | h5 | ⟨⟨sp', hmem', hw⟩, hhl⟩
        · rw [h5, tA5 id k, if_neg he]
          exact Or.inl rfl
        · rw [tA5 id k, if_neg he] at h5
          exact Or.inr (Or.inl h5)
        · exact Or.inr (Or.inr ⟨⟨sp', List.mem_cons_of_mem _ hmem', hw⟩, hhl⟩)

theorem undo_step {lb : String → Bool} {w0 wA u : World} {sp : CmdSpec} {c : Cmd}
    {pend : List CmdSpec}
    (hpush : pushCmd lb sp w0 = .ok (c, wA)) (hwf0 : WFModel w0.model)
    (hwfu : WFModel u.model) (hrel : Rel pend u.model wA.model) :
    ∃ c2 u2 evs, cmdUndo lb c u = .ok (c2, u2, evs) ∧ WFModel u2.model ∧
      Rel (sp :: pend) u2.model w0.model ∧ CmdMatch lb c c2 := by
  cases sp with
  | addNode ty pos => exact undo_step_addNode hpush hwf0 hwfu hrel
  | removeNode nid => exact undo_step_removeNode hpush hwf0 hwfu hrel
  | addConn c0 => exact undo_step_addConn hpush hwfu hrel
  | removeConn c0 => exact undo_step_removeConn hpush hwf0 hwfu hrel
  | moveNode nid ep sp0 => exact undo_step_moveNode hpush hwfu hrel
  | changeSetting nid k v => exact undo_step_changeSetting hpush hwfu hrel
  | loadImage nid path => exact undo_step_loadImage hpush hwfu hrel

/-- Undoing every pushed command succeeds and lands in a state related to the
initial one, with every discrepancy repairable by the full command list. -/
theorem undo_phase {lb : String → Bool} :
    ∀ (specs : List CmdSpec) (w0 : World) (cmds : List Cmd) (w1 : World),
      WFModel w0.model → pushAll lb specs w0 = .ok (cmds, w1) →
      ∃ cmds2 w2, undoAll lb cmds w1 = .ok (cmds2, w2) ∧ WFModel w2.model ∧
        Rel specs w2.model w0.model ∧ List.Forall₂ (CmdMatch lb) cmds cmds2 := by
  intro specs
  induction specs with
  | nil =>
      intro w0 cmds w1 hwf h
      simp only [pushAll, Except.ok.injEq, Prod.mk.injEq] at h
      obtain ⟨h1, h2⟩ := h
      subst h1
      subst h2
      exact ⟨[], _, rfl, hwf, Rel.refl [] _, List.Forall₂.nil⟩
  | cons sp ss ih =>
      intro w0 cmds w1 hwf h
      cases hp : pushCmd lb sp w0 with
      | error e => simp [pushAll, hp] at h
      | ok p =>
          obtain ⟨c, wA⟩ := p
          cases hps : pushAll lb ss wA with
          | error e => simp [pushAll, hp, hps] at h
          | ok q =>
              obtain ⟨cs, w1'⟩ := q
              simp only [pushAll, hp, hps, Except.ok.injEq, Prod.mk.injEq] at h
              obtain ⟨hcmds, hw1⟩ := h
              subst hcmds
              subst hw1
              have hwfA := pushCmd_WF hwf hp
              obtain ⟨cs2, w2', hundoAll, hwf2', hrel', hmatch'⟩ :=
                ih wA cs w1' hwfA hps
              obtain ⟨c2, u2, evs, hundoC, hwfu2, hrelOut, hsm⟩ :=
                undo_step hp hwf hwf2' hrel'
              refine ⟨c2 :: cs2, u2, ?_, hwfu2, hrelOut,
                List.Forall₂.cons hsm hmatch'⟩
              simp only [undoAll, hundoAll, hundoC]

/-! ### Redo-phase step lemmas -/

theorem redo_step_moveNode {lb : String → Bool} {w0 wA t0 : World}
    {nid : String} {ep sp0 : Int × Int} {c c2 : Cmd} {pend : List CmdSpec}
    (hpush : pushCmd lb (.moveNode nid ep sp0) w0 = .ok (c, wA))
    (hcm : CmdMatch lb c c2) (hwft : WFModel t0.model)
    (hrel : Rel (.moveNode nid ep sp0 :: pend) t0.model w0.model) :
    ∃ c3 t1 evs, cmdRedo lb c2 t0 = .ok (c3, t1, evs) ∧ WFModel t1.model ∧
      Rel pend t1.model wA.model := by
  obtain ⟨nd0, h0, hc, hMA⟩ := pushCmd_moveNode_inv hpush
  subst hc
  cases c2 with
  | moveNodeCmd nid' ep' sp' =>
      obtain ⟨he1, he2, he3⟩ := hcm
      rw [he1, he2, he3]
      obtain ⟨r1, r2, r3, r4, r5⟩ := hrel
      have hsome : (nlook t0.model nid).isSome = true := by
        rw [r1 nid]
        simp [nlook, h0]
      obtain ⟨ndT, hndT⟩ := Option.isSome_iff_exists.1 hsome
      have hndT : alookup t0.model.nodes nid = some ndT := hndT
      have hupd := updateNodePosition_eq hndT ep
      rw [hMA]
      refine ⟨.moveNodeCmd nid ep sp0,
        { t0 with model := { t0.model with nodes := (aset t0.model.nodes nid
            ⟨ndT.ntype, ep, ndT.settings⟩) } }, [.nodePositionChanged nid ep],
        ?_, ?_, ?_⟩
      · simp only [cmdRedo, hupd]
      · exact WF_of_updateNodePosition hwft hupd
      · refine ⟨?_, ?_, ?_, ?_, ?_⟩
        · intro id
          rw [isSome_nlook_set hndT _ id, r1 id, isSome_nlook_set h0]
        · intro cc
          exact r2 cc
        · intro id
          rw [ptype_set_position hndT ep id, r3 id, ptype_set_position h0 ep id]
        · intro id
          rw [ppos_set_position hndT ep id, ppos_set_position h0 ep id]
          by_cases he : nid = id
          · subst he
            rw [if_pos rfl, if_pos rfl]
            exact Or.inl rfl
          · rw [if_neg he, if_neg he]
            rcases r4 id with h4 | ⟨sp', hmem, hw⟩
            · exact Or.inl h4
            · rcases List.mem_cons.1 hmem with rfl | hmem'
              · exact absurd hw he
              · exact Or.inr ⟨sp', hmem', hw⟩
        · intro id k
          rw [slook_set_position hndT ep id k, slook_set_position h0 ep id k]
          rcases r5 id k with h5 | h5 | ⟨⟨sp', hmem, hw⟩, hhl⟩
          · exact Or.inl h5
          · exact Or.inr (Or.inl h5)
          · rcases List.mem_cons.1 hmem with rfl | hmem'
            · exact absurd hw (by simp [writesKey])
            · exact Or.inr (Or.inr ⟨⟨sp', hmem', hw⟩, hhl⟩)
  | addNodeCmd a b c => exact absurd hcm (by simp [CmdMatch])
  | removeNodeCmd a b c => exact absurd hcm (by simp [CmdMatch])
  | addConnCmd a => exact absurd hcm (by simp [CmdMatch])
  | removeConnCmd a => exact absurd hcm (by simp [CmdMatch])
  | changeSettingCmd a b c d => exact absurd hcm (by simp [CmdMatch])
  | loadImageCmd a b c d e f => exact absurd hcm (by simp [CmdMatch])

theorem redo_step_changeSetting {lb : String → Bool} {w0 wA t0 : World}
    {nid k : String} {v : SVal} {c c2 : Cmd} {pend : List CmdSpec}
    (hpush : pushCmd lb (.changeSetting nid k v) w0 = .ok (c, wA))
    (hcm : CmdMatch lb c c2) (hwft : WFModel t0.model)
    (hrel : Rel (.changeSetting nid k v :: pend) t0.model w0.model) :
    ∃ c3 t1 evs, cmdRedo lb c2 t0 = .ok (c3, t1, evs) ∧ WFModel t1.model ∧
      Rel pend t1.model wA.model := by
  obtain ⟨nd0, h0, hc, hMA⟩ := pushCmd_changeSetting_inv hpush
  subst hc
  cases c2 with
  | changeSettingCmd nid' k' nv' ov' =>
      obtain ⟨he1, he2, he3, he4⟩ := hcm
      rw [he1, he2, he3, he4]
      obtain ⟨r1, r2, r3, r4, r5⟩ := hrel
      have hsome : (nlook t0.model nid).isSome = true := by
        rw [r1 nid]
        simp [nlook, h0]
      obtain ⟨ndT, hndT⟩ := Option.isSome_iff_exists.1 hsome
      have hndT : alookup t0.model.nodes nid = some ndT := hndT
      have hupd := updateNodeSetting_eq hndT k v
      rw [hMA]
      refine ⟨.changeSettingCmd nid k v (getS nd0.settings k),
        { t0 with model := { t0.model with nodes := (aset t0.model.nodes nid
            ⟨ndT.ntype, ndT.position, aset ndT.settings k v⟩) } },
        [.nodeSettingChanged nid k v], ?_, ?_, ?_⟩
      · simp only [cmdRedo, hupd]
      · exact WF_of_updateNodeSetting hwft hupd
      · refine ⟨?_, ?_, ?_, ?_, ?_⟩
        · intro id
          rw [isSome_nlook_set hndT _ id, r1 id, isSome_nlook_set h0]
        · intro cc
          exact r2 cc
        · intro id
          rw [ptype_set_settings hndT k v id, r3 id, ptype_set_settings h0 k v id]
        · intro id
          rw [ppos_set_settings hndT k v id, ppos_set_settings h0 k v id]
          rcases r4 id with h4 | ⟨sp', hmem, hw⟩
          · exact Or.inl h4
          · rcases List.mem_cons.1 hmem with rfl | hmem'
            · exact absurd hw (by simp [writesPos])
            · exact Or.inr ⟨sp', hmem', hw⟩
        · intro id k2
          rw [slook_set_settings hndT k v id k2, slook_set_settings h0 k v id k2]
          by_cases he : nid = id
          · subst he
            rw [if_pos rfl, if_pos rfl]
            by_cases hk : k = k2
            · rw [if_pos hk, if_pos hk]
              exact Or.inl rfl
            · rw [if_neg hk, if_neg hk]
              rcases r5 nid k2 with h5 | h5 | ⟨⟨sp', hmem, hw⟩, hhl⟩
              · exact Or.inl h5
              · exact Or.inr (Or.inl h5)
              · rcases List.mem_cons.1 hmem with rfl | hmem'
                · exact absurd hw.2 hk
                · exact Or.inr (Or.inr ⟨⟨sp', hmem', hw⟩, hhl⟩)
          · rw [if_neg he, if_neg he]
            rcases r5 id k2 with h5 | h5 | ⟨⟨sp', hmem, hw⟩, hhl⟩
            · exact Or.inl h5
            · exact Or.inr (Or.inl h5)
            · rcases List.mem_cons.1 hmem with rfl | hmem'
              · exact absurd hw.1 he
              · exact Or.inr (Or.inr ⟨⟨sp', hmem', hw⟩, hhl⟩)
  | addNodeCmd a b c => exact absurd hcm (by simp [CmdMatch])
  | removeNodeCmd a b c => exact absurd hcm (by simp [CmdMatch])
  | addConnCmd a => exact absurd hcm (by simp [CmdMatch])
  | removeConnCmd a => exact absurd hcm (by simp [CmdMatch])
  | moveNodeCmd a b c => exact absurd hcm (by simp [CmdMatch])
  | loadImageCmd a b c d e f => exact absurd hcm (by simp [CmdMatch])

theorem redo_step_addConn {lb : String → Bool} {w0 wA t0 : World}
    {c0 : Connection} {c c2 : Cmd} {pend : List CmdSpec}
    (hpush : pushCmd lb (.addConn c0) w0 = .ok (c, wA))
    (hcm : CmdMatch lb c c2) (hwft : WFModel t0.model)
    (hrel : Rel (.addConn c0 :: pend) t0.model w0.model) :
    ∃ c3 t1 evs, cmdRedo lb c2 t0 = .ok (c3, t1, evs) ∧ WFModel t1.model ∧
      Rel pend t1.model wA.model := by
  obtain ⟨he1, he2, hnm, hc, hMA⟩ := pushCmd_addConn_inv hpush
  subst hc
  cases c2 with
  | addConnCmd cd =>
      have hcd : cd = c0 := hcm
      rw [hcd]
      obtain ⟨r1, r2, r3, r4, r5⟩ := hrel
      have ht1 : (alookup t0.model.nodes c0.from_node).isSome = true := by
        rw [show alookup t0.model.nodes c0.from_node = nlook t0.model c0.from_node
          from rfl, r1 c0.from_node]
        exact he1
      have ht2 : (alookup t0.model.nodes c0.to_node).isSome = true := by
        rw [show alookup t0.model.nodes c0.to_node = nlook t0.model c0.to_node
          from rfl, r1 c0.to_node]
        exact he2
      have htnm : c0 ∉ t0.model.connections := fun hx => hnm ((r2 c0).1 hx)
      have hadd := addConnection_eq ht1 ht2 htnm
      rw [hMA]
      refine ⟨.addConnCmd c0,
        { t0 with model := { t0.model with connections := (t0.model.connections ++ [c0]) } },
        [.connectionAdded c0], ?_, ?_, ?_⟩
      · simp only [cmdRedo, hadd]
      · exact WF_of_addConnection hwft hadd
      · refine ⟨?_, ?_, ?_, ?_, ?_⟩
        · intro id; exact r1 id
        · intro cc
          simp only [List.mem_append, List.mem_singleton]
          rw [r2 cc]
        · intro id; exact r3 id
        · intro id
          rcases r4 id with h4 | ⟨sp', hmem, hw⟩
          · exact Or.inl h4
          · rcases List.mem_cons.1 hmem with rfl | hmem'
            · exact absurd hw (by simp [writesPos])
            · exact Or.inr ⟨sp', hmem', hw⟩
        · intro id k
          rcases r5 id k with h5 | h5 | ⟨⟨sp', hmem, hw⟩, hhl⟩
          · exact Or.inl h5
          · exact Or.inr (Or.inl h5)
          · rcases List.mem_cons.1 hmem with rfl | hmem'
            · exact absurd hw (by simp [writesKey])
            · exact Or.inr (Or.inr ⟨⟨sp', hmem', hw⟩, hhl⟩)
  | addNodeCmd a b c => exact absurd hcm (by simp [CmdMatch])
  | removeNodeCmd a b c => exact absurd hcm (by simp [CmdMatch])
  | removeConnCmd a => exact absurd hcm (by simp [CmdMatch])
  | moveNodeCmd a b c => exact absurd hcm (by simp [CmdMatch])
  | changeSettingCmd a b c d => exact absurd hcm (by simp [CmdMatch])
  | loadImageCmd a b c d e f => exact absurd hcm (by simp [CmdMatch])

theorem redo_step_removeConn {lb : String → Bool} {w0 wA t0 : World}
    {c0 : Connection} {c c2 : Cmd} {pend : List CmdSpec}
    (hpush : pushCmd lb (.removeConn c0) w0 = .ok (c, wA))
    (hcm : CmdMatch lb c c2) (hwf0 : WFModel w0.model) (hwft : WFModel t0.model)
    (hrel : Rel (.removeConn c0 :: pend) t0.model w0.model) :
    ∃ c3 t1 evs, cmdRedo lb c2 t0 = .ok (c3, t1, evs) ∧ WFModel t1.model ∧
      Rel pend t1.model wA.model := by
  obtain ⟨hmem0, hc, hMA⟩ := pushCmd_removeConn_inv hpush
  subst hc
  cases c2 with
  | removeConnCmd cd =>
      have hcd : cd = c0 := hcm
      rw [hcd]
      obtain ⟨r1, r2, r3, r4, r5⟩ := hrel
      have htm : c0 ∈ t0.model.connections := (r2 c0).2 hmem0
      have hrem := removeConnection_eq htm
      rw [hMA]
      refine ⟨.removeConnCmd c0,
        { t0 with model := { t0.model with connections := (lremove t0.model.connections c0) } },
        [.connectionRemoved c0], ?_, ?_, ?_⟩
      · simp only [cmdRedo, hrem]
      · exact WF_of_removeConnection hwft hrem
      · refine ⟨?_, ?_, ?_, ?_, ?_⟩
        · intro id; exact r1 id
        · intro cc
          rw [mem_lremove hwft.2.1, mem_lremove hwf0.2.1, r2 cc]
        · intro id; exact r3 id
        · intro id
          rcases r4 id with h4 | ⟨sp', hmem, hw⟩
          · exact Or.inl h4
          · rcases List.mem_cons.1 hmem with rfl | hmem'
            · exact absurd hw (by simp [writesPos])
            · exact Or.inr ⟨sp', hmem', hw⟩
        · intro id k
          rcases r5 id k with h5 | h5 | ⟨⟨sp', hmem, hw⟩, hhl⟩
          · exact Or.inl h5
          · exact Or.inr (Or.inl h5)
          · rcases List.mem_cons.1 hmem with rfl | hmem'
            · exact absurd hw (by simp [writesKey])
            · exact Or.inr (Or.inr ⟨⟨sp', hmem', hw⟩, hhl⟩)
  | addNodeCmd a b c => exact absurd hcm (by simp [CmdMatch])
  | removeNodeCmd a b c => exact absurd hcm (by simp [CmdMatch])
  | addConnCmd a => exact absurd hcm (by simp [CmdMatch])
  | moveNodeCmd a b c => exact absurd hcm (by simp [CmdMatch])
  | changeSettingCmd a b c d => exact absurd hcm (by simp [CmdMatch])
  | loadImageCmd a b c d e f => exact absurd hcm (by simp [CmdMatch])

theorem redo_step_addNode {lb : String → Bool} {w0 wA t0 : World}
    {ty : String} {pos : Int × Int} {c c2 : Cmd} {pend : List CmdSpec}
    (hpush : pushCmd lb (.addNode ty pos) w0 = .ok (c, wA))
    (hcm : CmdMatch lb c c2) (hwft : WFModel t0.model)
    (hrel : Rel (.addNode ty pos :: pend) t0.model w0.model) :
    ∃ c3 t1 evs, cmdRedo lb c2 t0 = .ok (c3, t1, evs) ∧ WFModel t1.model ∧
      Rel pend t1.model wA.model := by
  obtain ⟨nid, hc, hne, habs, hMA⟩ := pushCmd_addNode_inv hpush
  subst hc
  cases c2 with
  | addNodeCmd ty' pos' oid' =>
      obtain ⟨he1, he2, he3⟩ := hcm
      rw [he1, he2, he3]
      obtain ⟨r1, r2, r3, r4, r5⟩ := hrel
      have habsT : alookup t0.model.nodes nid = none := by
        have h1 := r1 nid
        rw [show nlook w0.model nid = alookup w0.model.nodes nid from rfl, habs] at h1
        cases hx : alookup t0.model.nodes nid with
        | none => rfl
        | some v =>
            exfalso
            rw [show nlook t0.model nid = alookup t0.model.nodes nid from rfl, hx] at h1
            simp at h1
      have hadd := addNodeWithData_eq habsT (⟨ty, pos, []⟩ : NodeData)
      rw [hMA]
      refine ⟨.addNodeCmd ty pos (some nid),
        { t0 with model := { t0.model with nodes := (t0.model.nodes ++ [(nid, ⟨ty, pos, []⟩)]) } },
        [.nodeAdded nid], ?_, ?_, ?_⟩
      · simp only [cmdRedo, hadd]
      · exact WF_of_addNodeWithData hwft hadd
      · refine ⟨?_, ?_, ?_, ?_, ?_⟩
        · intro id
          rw [isSome_nlook_append (⟨ty, pos, []⟩ : NodeData) habsT id,
            isSome_nlook_append (⟨ty, pos, []⟩ : NodeData) habs id]
          by_cases he : nid = id
          · rw [if_pos he, if_pos he]
          · rw [if_neg he, if_neg he, r1 id]
        · intro cc
          exact r2 cc
        · intro id
          rw [ptype_append (⟨ty, pos, []⟩ : NodeData) habsT id,
            ptype_append (⟨ty, pos, []⟩ : NodeData) habs id]
          by_cases he : nid = id
          · rw [if_pos he, if_pos he]
          · rw [if_neg he, if_neg he, r3 id]
        · intro id
          rw [ppos_append (⟨ty, pos, []⟩ : NodeData) habsT id,
            ppos_append (⟨ty, pos, []⟩ : NodeData) habs id]
          by_cases he : nid = id
          · rw [if_pos he, if_pos he]
            exact Or.inl rfl
          · rw [if_neg he, if_neg he]
            rcases r4 id with h4 | ⟨sp', hmem, hw⟩
            · exact Or.inl h4
            · rcases List.mem_cons.1 hmem with rfl | hmem'
              · exact absurd hw (by simp [writesPos])
              · exact Or.inr ⟨sp', hmem', hw⟩
        · intro id k
          rw [slook_append (⟨ty, pos, []⟩ : NodeData) habsT id k,
            slook_append (⟨ty, pos, []⟩ : NodeData) habs id k]
          by_cases he : nid = id
          · rw [if_pos he, if_pos he]
            exact Or.inl rfl
          · rw [if_neg he, if_neg he]
            rcases r5 id k with h5 | h5 | ⟨⟨sp', hmem, hw⟩, hhl⟩
            · exact Or.inl h5
            · exact Or.inr (Or.inl h5)
            · rcases List.mem_cons.1 hmem with rfl | hmem'
              · exact absurd hw (by simp [writesKey])
              · exact Or.inr (Or.inr ⟨⟨sp', hmem', hw⟩, hhl⟩)
  | removeNodeCmd a b c => exact absurd hcm (by simp [CmdMatch])
  | addConnCmd a => exact absurd hcm (by simp [CmdMatch])
  | removeConnCmd a => exact absurd hcm (by simp [CmdMatch])
  | moveNodeCmd a b c => exact absurd hcm (by simp [CmdMatch])
  | changeSettingCmd a b c d => exact absurd hcm (by simp [CmdMatch])
  | loadImageCmd a b c d e f => exact absurd hcm (by simp [CmdMatch])

theorem redo_step_removeNode {lb : String → Bool} {w0 wA t0 : World}
    {nid : String} {c c2 : Cmd} {pend : List CmdSpec}
    (hpush : pushCmd lb (.removeNode nid) w0 = .ok (c, wA))
    (hcm : CmdMatch lb c c2) (hwf0 : WFModel w0.model) (hwft : WFModel t0.model)
    (hrel : Rel (.removeNode nid :: pend) t0.model w0.model) :
    ∃ c3 t1 evs, cmdRedo lb c2 t0 = .ok (c3, t1, evs) ∧ WFModel t1.model ∧
      Rel pend t1.model wA.model := by
  obtain ⟨nd0, h0, hsafe0, hc, hMA⟩ := pushCmd_removeNode_inv hwf0 hpush
  subst hc
  cases c2 with
  | removeNodeCmd nid' nd' cs' =>
      obtain ⟨he1, he2, he3⟩ := hcm
      rw [he1]
      obtain ⟨r1, r2, r3, r4, r5⟩ := hrel
      have hsomeT : (nlook t0.model nid).isSome = true := by
        rw [r1 nid]
        simp [nlook, h0]
      obtain ⟨ndT, hndT⟩ := Option.isSome_iff_exists.1 hsomeT
      have hndT : alookup t0.model.nodes nid = some ndT := hndT
      have hty : ndT.ntype = nd0.ntype := by
        have h3 := r3 nid
        simp only [ptype, nlook, hndT, h0, Option.map_some] at h3
        exact Option.some.inj h3
      have hsafeT : releaseSafe ndT := by
        intro hIL
        have hIL0 : nd0.ntype = "ImageLoader" := by rw [← hty]; exact hIL
        have hslookT : slook t0.model nid "raw_image_id" =
            alookup ndT.settings "raw_image_id" := by
          simp [slook, nlook, hndT]
        have hslook0 : slook w0.model nid "raw_image_id" =
            alookup nd0.settings "raw_image_id" := by
          simp [slook, nlook, h0]
        rcases r5 nid "raw_image_id" with h5 | ⟨_, ⟨vt, hvt, hvthl⟩, _⟩ | ⟨_, hhl⟩
        · rw [hslookT, hslook0] at h5
          show (getS ndT.settings "raw_image_id").isHandleLike = true
          rw [getS, h5, ← getS]
          exact hsafe0 hIL0
        · show (getS ndT.settings "raw_image_id").isHandleLike = true
          rw [hslookT] at hvt
          rw [getS, hvt]
          exact hvthl
        · show (getS ndT.settings "raw_image_id").isHandleLike = true
          rw [hslookT] at hhl
          cases hx : alookup ndT.settings "raw_image_id" with
          | none =>
              rw [getS, hx]
              rfl
          | some v =>
              rw [getS, hx]
              exact hhl v hx
      have hrem := removeNode_eq t0.backend hndT hwft.2.1 hsafeT
      rw [hMA]
      refine ⟨.removeNodeCmd nid nd' cs',
        { t0 with
          model := { version := t0.model.version,
                     nodes := adel t0.model.nodes nid,
                     connections := t0.model.connections.filter (fun x => !(x.touches nid)),
                     thumbnail_cache := purgeIfHandle t0.model.thumbnail_cache ndT },
          backend := releaseIfHandle t0.backend ndT },
        (t0.model.connections.filter (·.touches nid)).map Event.connectionRemoved
          ++ [.nodeRemoved nid], ?_, ?_, ?_⟩
      · simp only [cmdRedo, hrem]
      · exact WF_of_removeNode hwft hrem
      · have hT1 : ∀ id, nlook { version := t0.model.version, nodes := adel t0.model.nodes nid, connections := t0.model.connections.filter (fun x => !(x.touches nid)), thumbnail_cache := purgeIfHandle t0.model.thumbnail_cache ndT } id = nlook { t0.model with nodes := adel t0.model.nodes nid } id := fun _ => rfl
        have hT3 : ∀ id, ptype { version := t0.model.version, nodes := adel t0.model.nodes nid, connections := t0.model.connections.filter (fun x => !(x.touches nid)), thumbnail_cache := purgeIfHandle t0.model.thumbnail_cache ndT } id = ptype { t0.model with nodes := adel t0.model.nodes nid } id := fun _ => rfl
        have hT4 : ∀ id, ppos { version := t0.model.version, nodes := adel t0.model.nodes nid, connections := t0.model.connections.filter (fun x => !(x.touches nid)), thumbnail_cache := purgeIfHandle t0.model.thumbnail_cache ndT } id = ppos { t0.model with nodes := adel t0.model.nodes nid } id := fun _ => rfl
        have hT5 : ∀ id k, slook { version := t0.model.version, nodes := adel t0.model.nodes nid, connections := t0.model.connections.filter (fun x => !(x.touches nid)), thumbnail_cache := purgeIfHandle t0.model.thumbnail_cache ndT } id k = slook { t0.model with nodes := adel t0.model.nodes nid } id k := fun _ _ => rfl
        have hA1 : ∀ id, nlook { version := w0.model.version, nodes := adel w0.model.nodes nid, connections := w0.model.connections.filter (fun x => !(x.touches nid)), thumbnail_cache := purgeIfHandle w0.model.thumbnail_cache nd0 } id = nlook { w0.model with nodes := adel w0.model.nodes nid } id := fun _ => rfl
        have hA3 : ∀ id, ptype { version := w0.model.version, nodes := adel w0.model.nodes nid, connections := w0.model.connections.filter (fun x => !(x.touches nid)), thumbnail_cache := purgeIfHandle w0.model.thumbnail_cache nd0 } id = ptype { w0.model with nodes := adel w0.model.nodes nid } id := fun _ => rfl
        have hA4 : ∀ id, ppos { version := w0.model.version, nodes := adel w0.model.nodes nid, connections := w0.model.connections.filter (fun x => !(x.touches nid)), thumbnail_cache := purgeIfHandle w0.model.thumbnail_cache nd0 } id = ppos { w0.model with nodes := adel w0.model.nodes nid } id := fun _ => rfl
        have hA5 : ∀ id k, slook { version := w0.model.version, nodes := adel w0.model.nodes nid, connections := w0.model.connections.filter (fun x => !(x.touches nid)), thumbnail_cache := purgeIfHandle w0.model.thumbnail_cache nd0 } id k = slook { w0.model with nodes := adel w0.model.nodes nid } id k := fun _ _ => rfl
        refine ⟨?_, ?_, ?_, ?_, ?_⟩
        · intro id
          rw [hT1 id, hA1 id, isSome_nlook_adel hwft.1, isSome_nlook_adel hwf0.1]
          by_cases he : nid = id
          · rw [if_pos he, if_pos he]
          · rw [if_neg he, if_neg he, r1 id]
        · intro cc
          constructor
          · intro hin
            have h1 := List.mem_of_mem_filter hin
            have h2 := List.of_mem_filter hin
            exact List.mem_filter.2 ⟨(r2 cc).1 h1, h2⟩
          · intro hin
            have h1 := List.mem_of_mem_filter hin
            have h2 := List.of_mem_filter hin
            exact List.mem_filter.2 ⟨(r2 cc).2 h1, h2⟩
        · intro id
          rw [hT3 id, hA3 id, ptype_adel hwft.1, ptype_adel hwf0.1]
          by_cases he : nid = id
          · rw [if_pos he, if_pos he]
          · rw [if_neg he, if_neg he, r3 id]
        · intro id
          rw [hT4 id, hA4 id, ppos_adel hwft.1, ppos_adel hwf0.1]
          by_cases he : nid = id
          · rw [if_pos he, if_pos he]
            exact Or.inl rfl
          · rw [if_neg he, if_neg he]
            rcases r4 id with h4 | ⟨sp', hmem, hw⟩
            · exact Or.inl h4
            · rcases List.mem_cons.1 hmem with rfl | hmem'
              · exact absurd hw (by simp [writesPos])
              · exact Or.inr ⟨sp', hmem', hw⟩
        · intro id k
          rw [hT5 id k, hA5 id k, slook_adel hwft.1, slook_adel hwf0.1]
          by_cases he : nid = id
          · rw [if_pos he, if_pos he]
            exact Or.inl rfl
          · rw [if_neg he, if_neg he]
            rcases r5 id k with h5 | h5 | ⟨⟨sp', hmem, hw⟩, hhl⟩
            · exact Or.inl h5
            · exact Or.inr (Or.inl h5)
            · rcases List.mem_cons.1 hmem with rfl | hmem'
              · exact absurd hw (by simp [writesKey])
              · exact Or.inr (Or.inr ⟨⟨sp', hmem', hw⟩, hhl⟩)
  | addNodeCmd a b c => exact absurd hcm (by simp [CmdMatch])
  | addConnCmd a => exact absurd hcm (by simp [CmdMatch])
  | removeConnCmd a => exact absurd hcm (by simp [CmdMatch])
  | moveNodeCmd a b c => exact absurd hcm (by simp [CmdMatch])
  | changeSettingCmd a b c d => exact absurd hcm (by simp [CmdMatch])
  | loadImageCmd a b c d e f => exact absurd hcm (by simp [CmdMatch])

theorem WF_liRelease {m : Model} (b : Backend) (v : SVal) (hwf : WFModel m) :
    WFModel (liRelease b m v).2 := by
  cases v with
  | vnull => exact hwf
  | vstr s => exact hwf
  | vint h => exact hwf

theorem redo_step_loadImage {lb : String → Bool} {w0 wA t0 : World}
    {nid path : String} {c c2 : Cmd} {pend : List CmdSpec}
    (hpush : pushCmd lb (.loadImage nid path) w0 = .ok (c, wA))
    (hcm : CmdMatch lb c c2) (hwft : WFModel t0.model)
    (hrel : Rel (.loadImage nid path :: pend) t0.model w0.model) :
    ∃ c3 t1 evs, cmdRedo lb c2 t0 = .ok (c3, t1, evs) ∧ WFModel t1.model ∧
      Rel pend t1.model wA.model := by
  obtain ⟨nd0, hh, h0, hlb, horaw0, hc, hMAn, hMAc⟩ := pushCmd_loadImage_inv hpush
  subst hc
  cases c2 with
  | loadImageCmd nid' path' ini2 nraw2 ofp2 oraw2 =>
      obtain ⟨he1, he2, he3, hhl2, _⟩ := hcm
      rw [he1, he2, he3]
      obtain ⟨r1, r2, r3, r4, r5⟩ := hrel
      -- transports from the post-push model to the pre-push model
      have tA1 : ∀ id, nlook wA.model id =
          nlook { w0.model with nodes := (aset w0.model.nodes nid
            ⟨nd0.ntype, nd0.position,
             aset (aset nd0.settings "filepath" (.vstr path)) "raw_image_id" (.vint hh)⟩) } id :=
        fun id => nlook_eq_of_nodes _ hMAn id
      have tA3 : ∀ id, ptype wA.model id = ptype w0.model id := by
        intro id
        rw [ptype_eq_of_nodes { w0.model with nodes := (aset w0.model.nodes nid ⟨nd0.ntype, nd0.position, aset (aset nd0.settings "filepath" (.vstr path)) "raw_image_id" (.vint hh)⟩) } hMAn id]
        exact ptype_set_two h0 _ _ _ _ id
      have tA4 : ∀ id, ppos wA.model id = ppos w0.model id := by
        intro id
        rw [ppos_eq_of_nodes { w0.model with nodes := (aset w0.model.nodes nid ⟨nd0.ntype, nd0.position, aset (aset nd0.settings "filepath" (.vstr path)) "raw_image_id" (.vint hh)⟩) } hMAn id]
        exact ppos_set_two h0 _ _ _ _ id
      have tA5 : ∀ id k, slook wA.model id k =
          if nid = id then
            (if "raw_image_id" = k then some (.vint hh)
             else if "filepath" = k then some (.vstr path) else slook w0.model nid k)
          else slook w0.model id k := by
        intro id k
        rw [slook_eq_of_nodes { w0.model with nodes := (aset w0.model.nodes nid ⟨nd0.ntype, nd0.position, aset (aset nd0.settings "filepath" (.vstr path)) "raw_image_id" (.vint hh)⟩) } hMAn id k]
        exact slook_set_two h0 _ _ _ _ id k
      -- the node exists on the shadow side
      have hsome : (nlook t0.model nid).isSome = true := by
        rw [r1 nid]
        simp [nlook, h0]
      obtain ⟨ndT, hndT⟩ := Option.isSome_iff_exists.1 hsome
      have hndT : alookup t0.model.nodes nid = some ndT := hndT
      have hndTr : alookup (liRelease t0.backend t0.model oraw2).2.nodes nid = some ndT := by
        rw [liRelease_nodes]
        exact hndT
      have hred0 := cmdRedo_loadImage_eq lb path none nraw2 ofp2 oraw2 hndT hhl2
      have hred : cmdRedo lb (.loadImageCmd nid path none nraw2 ofp2 oraw2) t0 =
          .ok (.loadImageCmd nid path none
                 (some (liRelease t0.backend t0.model oraw2).1.nextId) ofp2 oraw2,
               ⟨{ (liRelease t0.backend t0.model oraw2).2 with nodes :=
                    (aset (liRelease t0.backend t0.model oraw2).2.nodes nid
                      ⟨ndT.ntype, ndT.position,
                       aset (aset ndT.settings "filepath" (.vstr path)) "raw_image_id"
                         (.vint (liRelease t0.backend t0.model oraw2).1.nextId)⟩) },
                ⟨(liRelease t0.backend t0.model oraw2).1.nextId + 1,
                 (liRelease t0.backend t0.model oraw2).1.nextId ::
                   (liRelease t0.backend t0.model oraw2).1.live⟩,
                t0.ctr⟩,
               [.nodeSettingChanged nid "filepath" (.vstr path),
                .nodeSettingChanged nid "raw_image_id"
                  (.vint (liRelease t0.backend t0.model oraw2).1.nextId)]) := by
        rw [hred0]
        simp [liRedoResult, liPick, loadRaw, hlb, optInt]
      refine ⟨_, _, _, hred, ?_, ?_⟩
      · exact WF_set_node (WF_liRelease t0.backend oraw2 hwft)
          (by rw [hndTr]; rfl)
      · have hpg : ∀ i k2, slook (liRelease t0.backend t0.model oraw2).2 i k2 =
            slook t0.model i k2 :=
          fun i k2 => slook_eq_of_nodes t0.model (liRelease_nodes _ _ _) i k2
        refine ⟨?_, ?_, ?_, ?_, ?_⟩
        · intro id
          rw [isSome_nlook_set hndTr _ id,
            show ∀ i, (nlook (liRelease t0.backend t0.model oraw2).2 i).isSome = (nlook t0.model i).isSome from fun i => by rw [nlook_eq_of_nodes t0.model (liRelease_nodes _ _ _) i],
            r1 id, tA1 id, isSome_nlook_set h0]
        · intro cc
          rw [show cc ∈ ({ (liRelease t0.backend t0.model oraw2).2 with nodes := (aset (liRelease t0.backend t0.model oraw2).2.nodes nid ⟨ndT.ntype, ndT.position, aset (aset ndT.settings "filepath" (.vstr path)) "raw_image_id" (.vint (liRelease t0.backend t0.model oraw2).1.nextId)⟩) } : Model).connections ↔ cc ∈ (liRelease t0.backend t0.model oraw2).2.connections from Iff.rfl,
            liRelease_connections, hMAc]
          exact r2 cc
        · intro id
          rw [show ptype { (liRelease t0.backend t0.model oraw2).2 with nodes := (aset (liRelease t0.backend t0.model oraw2).2.nodes nid ⟨ndT.ntype, ndT.position, aset (aset ndT.settings "filepath" (.vstr path)) "raw_image_id" (.vint (liRelease t0.backend t0.model oraw2).1.nextId)⟩) } id = ptype t0.model id from by
              rw [ptype_set_two hndTr]
              exact ptype_eq_of_nodes t0.model (liRelease_nodes _ _ _) id,
            r3 id, tA3 id]
        · intro id
          rw [show ppos { (liRelease t0.backend t0.model oraw2).2 with nodes := (aset (liRelease t0.backend t0.model oraw2).2.nodes nid ⟨ndT.ntype, ndT.position, aset (aset ndT.settings "filepath" (.vstr path)) "raw_image_id" (.vint (liRelease t0.backend t0.model oraw2).1.nextId)⟩) } id = ppos t0.model id from by
              rw [ppos_set_two hndTr]
              exact ppos_eq_of_nodes t0.model (liRelease_nodes _ _ _) id]
          rcases r4 id with h4 | ⟨sp', hmem, hw⟩
          · rw [h4, tA4 id]
            exact Or.inl rfl
          · rcases List.mem_cons.1 hmem with rfl | hmem'
            · exact absurd hw (by simp [writesPos])
            · exact Or.inr ⟨sp', hmem', hw⟩
        · intro id k
          rw [slook_set_two hndTr "filepath" _ "raw_image_id" _ id k]
          simp only [hpg]
          rw [tA5 id k]
          by_cases he : nid = id
          · subst he
            simp only [eq_self_iff_true, if_true]
            by_cases hk2 : ("raw_image_id" : String) = k
            · simp only [if_pos hk2]
              exact Or.inr (Or.inl ⟨hk2.symm, ⟨_, rfl, rfl⟩, ⟨_, rfl, rfl⟩⟩)
            · simp only [if_neg hk2]
              by_cases hk1 : ("filepath" : String) = k
              · simp only [if_pos hk1]
                exact Or.inl trivial
              · simp only [if_neg hk1]
                rcases r5 nid k with h5 | h5 | ⟨⟨sp', hmem, hw⟩, hhl⟩
                · exact Or.inl h5
                · exact Or.inr (Or.inl h5)
                · rcases List.mem_cons.1 hmem with rfl | hmem'
                  · rcases hw.2 with hwk | hwk
                    · exact absurd hk1 (by rw [hwk]; exact fun hx => hx rfl)
                    · exact absurd hk2 (by rw [hwk]; exact fun hx => hx rfl)
                  · exact Or.inr (Or.inr ⟨⟨sp', hmem', hw⟩, hhl⟩)
          · simp only [if_neg he]
            rcases r5 id k with h5 | h5 | ⟨⟨sp', hmem, hw⟩, hhl⟩
            · exact Or.inl h5
            · exact Or.inr (Or.inl h5)
            · rcases List.mem_cons.1 hmem with rfl | hmem'
              · exact absurd hw.1 he
              · exact Or.inr (Or.inr ⟨⟨sp', hmem', hw⟩, hhl⟩)
  | addNodeCmd a b c => exact absurd hcm (by simp [CmdMatch])
  | removeNodeCmd a b c => exact absurd hcm (by simp [CmdMatch])
  | addConnCmd a => exact absurd hcm (by simp [CmdMatch])
  | removeConnCmd a => exact absurd hcm (by simp [CmdMatch])
  | moveNodeCmd a b c => exact absurd hcm (by simp [CmdMatch])
  | changeSettingCmd a b c d => exact absurd hcm (by simp [CmdMatch])

theorem redo_step {lb : String → Bool} {w0 wA t0 : World} {sp : CmdSpec}
    {c c2 : Cmd} {pend : List CmdSpec}
    (hpush : pushCmd lb sp w0 = .ok (c, wA)) (hcm : CmdMatch lb c c2)
    (hwf0 : WFModel w0.model) (hwft : WFModel t0.model)
    (hrel : Rel (sp :: pend) t0.model w0.model) :
    ∃ c3 t1 evs, cmdRedo lb c2 t0 = .ok (c3, t1, evs) ∧ WFModel t1.model ∧
      Rel pend t1.model wA.model := by
  cases sp with
  | addNode ty pos => exact redo_step_addNode hpush hcm hwft hrel
  | removeNode nid => exact redo_step_removeNode hpush hcm hwf0 hwft hrel
  | addConn c0 => exact redo_step_addConn hpush hcm hwft hrel
  | removeConn c0 => exact redo_step_removeConn hpush hcm hwf0 hwft hrel
  | moveNode nid ep sp0 => exact redo_step_moveNode hpush hcm hwft hrel
  | changeSetting nid k v => exact redo_step_changeSetting hpush hcm hwft hrel
  | loadImage nid path => exact redo_step_loadImage hpush hcm hwft hrel

/-- Redoing the undone commands (oldest first) succeeds and reproduces the
post-push document up to `raw_image_id` replacement. -/
theorem redo_phase {lb : String → Bool} :
    ∀ (specs : List CmdSpec) (w0 : World) (cmds : List Cmd) (w1 : World)
      (cmds2 : List Cmd) (t0 : World),
      WFModel w0.model → WFModel t0.model →
      pushAll lb specs w0 = .ok (cmds, w1) →
      List.Forall₂ (CmdMatch lb) cmds cmds2 →
      Rel specs t0.model w0.model →
      ∃ cmds3 t1, redoAll lb cmds2 t0 = .ok (cmds3, t1) ∧ WFModel t1.model ∧
        Rel [] t1.model w1.model := by
  intro specs
  induction specs with
  | nil =>
      intro w0 cmds w1 cmds2 t0 hwf0 hwft hpush hmatch hrel
      simp only [pushAll, Except.ok.injEq, Prod.mk.injEq] at hpush
      obtain ⟨h1, h2⟩ := hpush
      subst h1
      subst h2
      cases hmatch with
      | nil => exact ⟨[], t0, rfl, hwft, hrel⟩
  | cons sp ss ih =>
      intro w0 cmds w1 cmds2 t0 hwf0 hwft hpush hmatch hrel
      cases hp : pushCmd lb sp w0 with
      | error e => simp [pushAll, hp] at hpush
      | ok p =>
          obtain ⟨c, wA⟩ := p
          cases hps : pushAll lb ss wA with
          | error e => simp [pushAll, hp, hps] at hpush
          | ok q =>
              obtain ⟨cs, w1'⟩ := q
              simp only [pushAll, hp, hps, Except.ok.injEq, Prod.mk.injEq] at hpush
              obtain ⟨hcmds, hw1⟩ := hpush
              subst hcmds
              subst hw1
              cases hmatch with
              | cons hcm hmatch' =>
                  obtain ⟨c3, t1, evs, hredo, hwft1, hrelA⟩ :=
                    redo_step hp hcm hwf0 hwft hrel
                  have hwfA : WFModel wA.model := pushCmd_WF hwf0 hp
                  obtain ⟨cmds3, t2, hredoAll, hwft2, hrelOut⟩ :=
                    ih wA cs w1' _ t1 hwfA hwft1 hps hmatch' hrelA
                  refine ⟨c3 :: cmds3, t2, ?_, hwft2, hrelOut⟩
                  simp only [redoAll, hredo, hredoAll]

/-! ### Claim theorems -/

/-- C1: for every sequence of successful command pushes against a well-formed
document, undoing all of them (most recent first) and then redoing all of them
(oldest first) succeeds and yields a document whose nodes, connections and
settings are identical to the post-push document, except that `raw_image_id`
entries may hold different (handle-like) values. -/
theorem C1_round_trip_undo_redo {lb : String → Bool} {specs : List CmdSpec}
    {w0 : World} {cmds : List Cmd} {w1 : World}
    (hwf : WFModel w0.model)
    (hpush : pushAll lb specs w0 = .ok (cmds, w1)) :
    ∃ cmds2 w2 cmds3 w3,
      undoAll lb cmds w1 = .ok (cmds2, w2) ∧
      redoAll lb cmds2 w2 = .ok (cmds3, w3) ∧
      ObsEq w3.model w1.model := by
  obtain ⟨cmds2, w2, hundo, hwf2, hrel, hmatch⟩ :=
    undo_phase specs w0 cmds w1 hwf hpush
  obtain ⟨cmds3, w3, hredo, hwf3, hout⟩ :=
    redo_phase specs w0 cmds w1 cmds2 w2 hwf hwf2 hpush hmatch hrel
  exact ⟨cmds2, w2, cmds3, w3, hundo, hredo, hout⟩

/-- Witness for C1 at a concrete three-command history (add an `ImageLoader`
node, load an image into it, change one of its settings). -/
theorem C1_round_trip_undo_redo_witness :
    WFModel ((⟨⟨"0.1.0", [], [], []⟩, ⟨100, []⟩, 0⟩ : World)).model ∧
    ∃ cmds2 w2 cmds3 w3,
      undoAll (fun _ => true)
        [.addNodeCmd "ImageLoader" (1, 2) (some "node_0"),
         .loadImageCmd "node_0" "/x.cr2" none (some 100) .vnull .vnull,
         .changeSettingCmd "node_0" "k" (.vint 3) .vnull]
        (⟨⟨"0.1.0",
           [("node_0", ⟨"ImageLoader", (1, 2),
             [("filepath", .vstr "/x.cr2"), ("raw_image_id", .vint 100),
              ("k", .vint 3)]⟩)], [], []⟩,
          ⟨101, [100]⟩, 1⟩ : World) = .ok (cmds2, w2) ∧
      redoAll (fun _ => true) cmds2 w2 = .ok (cmds3, w3) ∧
      ObsEq w3.model
        ((⟨⟨"0.1.0",
            [("node_0", ⟨"ImageLoader", (1, 2),
              [("filepath", .vstr "/x.cr2"), ("raw_image_id", .vint 100),
               ("k", .vint 3)]⟩)], [], []⟩,
           ⟨101, [100]⟩, 1⟩ : World)).model :=
  ⟨by decide,
   @C1_round_trip_undo_redo (fun _ => true)
     [.addNode "ImageLoader" (1, 2), .loadImage "node_0" "/x.cr2",
      .changeSetting "node_0" "k" (.vint 3)]
     (⟨⟨"0.1.0", [], [], []⟩, ⟨100, []⟩, 0⟩ : World)
     [.addNodeCmd "ImageLoader" (1, 2) (some "node_0"),
      .loadImageCmd "node_0" "/x.cr2" none (some 100) .vnull .vnull,
      .changeSettingCmd "node_0" "k" (.vint 3) .vnull]
     (⟨⟨"0.1.0",
        [("node_0", ⟨"ImageLoader", (1, 2),
          [("filepath", .vstr "/x.cr2"), ("raw_image_id", .vint 100),
           ("k", .vint 3)]⟩)], [], []⟩,
       ⟨101, [100]⟩, 1⟩ : World)
     (by decide) (by rfl)⟩

/-- C2 (counterexample): `Model.add_connection` performs no single-connection
eviction.  The destination socket `RAW_in` of a `BlackLevels` node is declared
single-connection in the view layer, already has an active connection, yet
adding a second connection to it succeeds and leaves the socket as an endpoint
of two connections in the document. -/
theorem C2_counterexample :
    ∃ m' evs,
      Model.addConnection
        ⟨"0.1.0",
         [("n1", ⟨"ImageLoader", (0, 0), []⟩), ("n2", ⟨"BlackLevels", (0, 0), []⟩)],
         [⟨"n1", "RAW_out", "n2", "RAW_in"⟩], []⟩
        ⟨"n1", "CFA_out", "n2", "RAW_in"⟩ = .ok (m', evs) ∧
      socketInfo "BlackLevels" "RAW_in" = some ("Raw", true) ∧
      (m'.connections.filter (·.hasEndpoint "n2" "RAW_in")).length = 2 := by
  refine ⟨_, _, rfl, rfl, rfl⟩

/-- C2 (amended): on success `Model.add_connection` only appends the new
connection; every prior connection — including any on an occupied
single-connection socket — remains in the document, and the only notification
is the `ConnectionAdded` for the new edge. -/
theorem C2_no_eviction {m m' : Model} {c : Connection} {evs : List Event}
    (h : m.addConnection c = .ok (m', evs)) :
    m'.connections = m.connections ++ [c] ∧ evs = [.connectionAdded c] := by
  obtain ⟨_, _, _, hm, he⟩ := addConnection_ok_inv h
  subst hm
  exact ⟨rfl, he⟩

/-- Witness for C2 (amended) at the occupied single-connection socket of the
counterexample. -/
theorem C2_no_eviction_witness :
    Model.addConnection
      ⟨"0.1.0",
       [("n1", ⟨"ImageLoader", (0, 0), []⟩), ("n2", ⟨"BlackLevels", (0, 0), []⟩)],
       [⟨"n1", "RAW_out", "n2", "RAW_in"⟩], []⟩
      ⟨"n1", "CFA_out", "n2", "RAW_in"⟩ =
      .ok (⟨"0.1.0",
            [("n1", ⟨"ImageLoader", (0, 0), []⟩), ("n2", ⟨"BlackLevels", (0, 0), []⟩)],
            [⟨"n1", "RAW_out", "n2", "RAW_in"⟩, ⟨"n1", "CFA_out", "n2", "RAW_in"⟩], []⟩,
           [.connectionAdded ⟨"n1", "CFA_out", "n2", "RAW_in"⟩]) ∧
    (⟨"0.1.0",
      [("n1", ⟨"ImageLoader", (0, 0), []⟩), ("n2", ⟨"BlackLevels", (0, 0), []⟩)],
      [⟨"n1", "RAW_out", "n2", "RAW_in"⟩, ⟨"n1", "CFA_out", "n2", "RAW_in"⟩],
      []⟩ : Model).connections =
      (⟨"0.1.0",
        [("n1", ⟨"ImageLoader", (0, 0), []⟩), ("n2", ⟨"BlackLevels", (0, 0), []⟩)],
        [⟨"n1", "RAW_out", "n2", "RAW_in"⟩], []⟩ : Model).connections ++
        [⟨"n1", "CFA_out", "n2", "RAW_in"⟩] ∧
    [Event.connectionAdded ⟨"n1", "CFA_out", "n2", "RAW_in"⟩] =
      [.connectionAdded ⟨"n1", "CFA_out", "n2", "RAW_in"⟩] :=
  ⟨by rfl, C2_no_eviction (by rfl)⟩

/-- C5 (counterexample): a node whose settings hold an integer resource handle
but whose type is not `"ImageLoader"` is removed without any backend release
or thumbnail purge: the backend still lists the handle as live and the
thumbnail cache entry remains. -/
theorem C5_counterexample :
    ∃ m' evs,
      alookup [("raw_image_id", SVal.vint 5)] "raw_image_id" = some (.vint 5) ∧
      Model.removeNode
        ⟨"0.1.0", [("n", ⟨"Custom", (0, 0), [("raw_image_id", .vint 5)]⟩)], [], [5]⟩
        ⟨6, [5]⟩ "n" = .ok (m', ⟨6, [5]⟩, evs) ∧
      m'.thumbnail_cache = [5] := by
  refine ⟨_, _, rfl, rfl, rfl⟩

/-- C5 (amended): `Model.remove_node` on an absent id fails with the
not-found `ValueError`; on a present id it removes every touching connection
(each notified by `ConnectionRemoved`), releases the handle and purges the
thumbnail cache only when the node's type is `"ImageLoader"`
(`releaseIfHandle`/`purgeIfHandle`), deletes the node entry, and notifies
`NodeRemoved` last. -/
theorem C5_remove_node {m : Model} {nid : String} {nd : NodeData} {b : Backend}
    (h : alookup m.nodes nid = some nd) (hk : (m.nodes.map Prod.fst).Nodup)
    (hc : m.connections.Nodup) (hsafe : releaseSafe nd) :
    m.removeNode b nid =
      .ok ({ version := m.version,
             nodes := adel m.nodes nid,
             connections := m.connections.filter (fun c => !(c.touches nid)),
             thumbnail_cache := purgeIfHandle m.thumbnail_cache nd },
           releaseIfHandle b nd,
           (m.connections.filter (·.touches nid)).map Event.connectionRemoved
             ++ [.nodeRemoved nid]) ∧
    Model.removeNode { m with nodes := adel m.nodes nid } b nid =
      .error .valueError := by
  refine ⟨removeNode_eq b h hc hsafe, removeNode_err_absent b ?_⟩
  show alookup (adel m.nodes nid) nid = none
  rw [alookup_adel _ _ _ hk, if_pos rfl]

/-- Witness for C5 (amended) at an `ImageLoader` node with a live handle and
one incident connection. -/
theorem C5_remove_node_witness :
    alookup (⟨"0.1.0",
      [("a", ⟨"ImageLoader", (0, 0), [("raw_image_id", .vint 7)]⟩),
       ("b", ⟨"BlackLevels", (0, 0), []⟩)],
      [⟨"a", "RAW_out", "b", "RAW_in"⟩], [7]⟩ : Model).nodes "a" =
      some ⟨"ImageLoader", (0, 0), [("raw_image_id", .vint 7)]⟩ ∧
    releaseSafe (⟨"ImageLoader", (0, 0), [("raw_image_id", .vint 7)]⟩ : NodeData) ∧
    (Model.removeNode
        ⟨"0.1.0",
         [("a", ⟨"ImageLoader", (0, 0), [("raw_image_id", .vint 7)]⟩),
          ("b", ⟨"BlackLevels", (0, 0), []⟩)],
         [⟨"a", "RAW_out", "b", "RAW_in"⟩], [7]⟩ ⟨8, [7]⟩ "a" =
       .ok (⟨"0.1.0", [("b", ⟨"BlackLevels", (0, 0), []⟩)], [], []⟩,
            ⟨8, []⟩,
            [.connectionRemoved ⟨"a", "RAW_out", "b", "RAW_in"⟩,
             .nodeRemoved "a"])) :=
  ⟨by rfl, by decide,
   (@C5_remove_node
      ⟨"0.1.0",
       [("a", ⟨"ImageLoader", (0, 0), [("raw_image_id", .vint 7)]⟩),
        ("b", ⟨"BlackLevels", (0, 0), []⟩)],
       [⟨"a", "RAW_out", "b", "RAW_in"⟩], [7]⟩
      "a" ⟨"ImageLoader", (0, 0), [("raw_image_id", .vint 7)]⟩ ⟨8, [7]⟩
      (by rfl) (by decide) (by decide) (by decide)).1⟩

/-- C6 (invariant violation): after pushing a `RemoveNodeCommand` the backend
has released handle 7 (its live list is empty), yet undoing the command
writes the stale value 7 back into the restored node's `raw_image_id`
setting while the backend still does not hold it — a command retains a handle
past the point where the document released it. -/
theorem C6_stale_handle :
    ∃ c wA c2 u evs2,
      pushCmd (fun _ => true) (.removeNode "n")
        ⟨⟨"0.1.0", [("n", ⟨"ImageLoader", (0, 0), [("raw_image_id", .vint 7)]⟩)],
          [], [7]⟩, ⟨8, [7]⟩, 0⟩ = .ok (c, wA) ∧
      wA.backend.live = [] ∧
      cmdUndo (fun _ => true) c wA = .ok (c2, u, evs2) ∧
      slook u.model "n" "raw_image_id" = some (.vint 7) ∧
      u.backend.live = [] := by
  refine ⟨_, _, _, _, _, rfl, rfl, rfl, rfl, rfl⟩

/-- C7 (counterexample): `Model.add_connection` performs no socket-type
check: connecting the `Raw`-tagged output `RAW_out` of an `ImageLoader` to the
`CFA`-tagged input `CFA_in` of a `BlackLevels` node succeeds and mutates the
document instead of failing with a type-mismatch error. -/
theorem C7_counterexample :
    ∃ m' evs,
      Model.addConnection
        ⟨"0.1.0",
         [("n1", ⟨"ImageLoader", (0, 0), []⟩), ("n2", ⟨"BlackLevels", (0, 0), []⟩)],
         [], []⟩
        ⟨"n1", "RAW_out", "n2", "CFA_in"⟩ = .ok (m', evs) ∧
      socketInfo "ImageLoader" "RAW_out" = some ("Raw", false) ∧
      socketInfo "BlackLevels" "CFA_in" = some ("CFA", true) ∧
      ("Raw" : String) ≠ "CFA" ∧
      m'.connections = [⟨"n1", "RAW_out", "n2", "CFA_in"⟩] := by
  refine ⟨_, _, rfl, rfl, rfl, by decide, rfl⟩

/-- C7 (amended): `Model.add_connection` succeeds whenever both endpoint
nodes exist and the tuple is not a duplicate, even when the two sockets'
type tags differ — no type check is made and no `typeError` is raised. -/
theorem C7_no_type_check {m : Model} {c : Connection} {nd1 nd2 : NodeData}
    {t1 t2 : String} {s1 s2 : Bool}
    (h1 : alookup m.nodes c.from_node = some nd1)
    (h2 : alookup m.nodes c.to_node = some nd2)
    (h3 : c ∉ m.connections)
    (ht1 : socketInfo nd1.ntype c.from_socket = some (t1, s1))
    (ht2 : socketInfo nd2.ntype c.to_socket = some (t2, s2))
    (hne : t1 ≠ t2) :
    m.addConnection c =
      .ok ({ m with connections := m.connections ++ [c] },
           [.connectionAdded c]) :=
  addConnection_eq (by rw [h1]; rfl) (by rw [h2]; rfl) h3

/-- Witness for C7 (amended) at the mismatched `Raw`/`CFA` connection of the
counterexample. -/
theorem C7_no_type_check_witness :
    alookup (⟨"0.1.0",
      [("n1", ⟨"ImageLoader", (0, 0), []⟩), ("n2", ⟨"BlackLevels", (0, 0), []⟩)],
      [], []⟩ : Model).nodes "n1" = some ⟨"ImageLoader", (0, 0), []⟩ ∧
    socketInfo "ImageLoader" "RAW_out" = some ("Raw", false) ∧
    socketInfo "BlackLevels" "CFA_in" = some ("CFA", true) ∧
    Model.addConnection
      ⟨"0.1.0",
       [("n1", ⟨"ImageLoader", (0, 0), []⟩), ("n2", ⟨"BlackLevels", (0, 0), []⟩)],
       [], []⟩
      ⟨"n1", "RAW_out", "n2", "CFA_in"⟩ =
      .ok (⟨"0.1.0",
            [("n1", ⟨"ImageLoader", (0, 0), []⟩), ("n2", ⟨"BlackLevels", (0, 0), []⟩)],
            [⟨"n1", "RAW_out", "n2", "CFA_in"⟩], []⟩,
           [.connectionAdded ⟨"n1", "RAW_out", "n2", "CFA_in"⟩]) :=
  ⟨by rfl, by rfl, by rfl,
   C7_no_type_check (by rfl) (by rfl) (by decide) (by rfl) (by rfl) (by decide)⟩

/-- C8 (counterexample): the serialized form of a document whose node holds
resource handle 5 contains that handle: the node's serialized settings still
map `raw_image_id` to 5. -/
theorem C8_counterexample :
    ∃ nd,
      alookup (Model.toDict
        ⟨"0.1.0", [("n", ⟨"ImageLoader", (0, 0), [("raw_image_id", .vint 5)]⟩)],
         [], []⟩).nodes "n" = some nd ∧
      alookup nd.settings "raw_image_id" = some (.vint 5) :=
  ⟨⟨"ImageLoader", (0, 0), [("raw_image_id", .vint 5)]⟩, rfl, rfl⟩

/-- C8 (amended): `Model.to_dict` passes the node table through verbatim, so
any `raw_image_id` handle held in a node's settings appears unchanged in the
serialized persisted form. -/
theorem C8_serializes_handles {m : Model} {nid : String} {nd : NodeData}
    {h : Int}
    (hnd : alookup m.nodes nid = some nd)
    (hraw : alookup nd.settings "raw_image_id" = some (.vint h)) :
    ∃ nd2, alookup (Model.toDict m).nodes nid = some nd2 ∧
      alookup nd2.settings "raw_image_id" = some (.vint h) :=
  ⟨nd, hnd, hraw⟩

/-- Witness for C8 (amended) at a document holding handle 5. -/
theorem C8_serializes_handles_witness :
    alookup (⟨"0.1.0",
      [("n", ⟨"ImageLoader", (0, 0), [("raw_image_id", .vint 5)]⟩)], [], []⟩
        : Model).nodes "n" =
      some ⟨"ImageLoader", (0, 0), [("raw_image_id", .vint 5)]⟩ ∧
    alookup [("raw_image_id", SVal.vint 5)] "raw_image_id" = some (.vint 5) ∧
    ∃ nd2,
      alookup (Model.toDict
        ⟨"0.1.0", [("n", ⟨"ImageLoader", (0, 0), [("raw_image_id", .vint 5)]⟩)],
         [], []⟩).nodes "n" = some nd2 ∧
      alookup nd2.settings "raw_image_id" = some (.vint 5) :=
  ⟨by rfl, by rfl, C8_serializes_handles (by rfl) (by rfl)⟩

/-- C10: pushing a `ChangeSettingCommand` for a key absent from the node's
settings and then undoing it leaves the key present with value `None`
(`ChangeSettingCommand` captures the old value with `.get`, and
`update_node_setting` stores it back), so undo does not restore the settings
mapping's original domain. -/
theorem C10_change_setting_undo {lb : String → Bool} {w0 : World}
    {nid k : String} {v : SVal} {nd0 : NodeData}
    (h0 : alookup w0.model.nodes nid = some nd0)
    (habs : alookup nd0.settings k = none) :
    slook w0.model nid k = none ∧
    ∃ c wA c2 u evs,
      pushCmd lb (.changeSetting nid k v) w0 = .ok (c, wA) ∧
      cmdUndo lb c wA = .ok (c2, u, evs) ∧
      slook u.model nid k = some .vnull := by
  have hs0 : slook w0.model nid k = none := by
    simp [slook, nlook, h0, habs]
  have hget : getS nd0.settings k = .vnull := by
    simp [getS, habs]
  have hred := updateNodeSetting_eq h0 k v
  have hpush : pushCmd lb (.changeSetting nid k v) w0 =
      .ok (.changeSettingCmd nid k v (getS nd0.settings k),
           { w0 with model := { w0.model with nodes := (aset w0.model.nodes nid
               ⟨nd0.ntype, nd0.position, aset nd0.settings k v⟩) } }) := by
    simp only [pushCmd, mkCmd, h0, cmdRedo, hred]
  have h1 : alookup (aset w0.model.nodes nid
      ⟨nd0.ntype, nd0.position, aset nd0.settings k v⟩) nid =
      some ⟨nd0.ntype, nd0.position, aset nd0.settings k v⟩ := by
    rw [alookup_aset, if_pos rfl]
  have hundo0 := updateNodeSetting_eq
      (m := { w0.model with nodes := (aset w0.model.nodes nid
        ⟨nd0.ntype, nd0.position, aset nd0.settings k v⟩) })
      h1 k (getS nd0.settings k)
  refine ⟨hs0, .changeSettingCmd nid k v (getS nd0.settings k),
    { w0 with model := { w0.model with nodes := (aset w0.model.nodes nid
        ⟨nd0.ntype, nd0.position, aset nd0.settings k v⟩) } },
    .changeSettingCmd nid k v (getS nd0.settings k),
    { w0 with model := { w0.model with nodes := (aset (aset w0.model.nodes nid
        ⟨nd0.ntype, nd0.position, aset nd0.settings k v⟩) nid
        ⟨nd0.ntype, nd0.position,
         aset (aset nd0.settings k v) k (getS nd0.settings k)⟩) } },
    [.nodeSettingChanged nid k (getS nd0.settings k)],
    hpush, ?_, ?_⟩
  · simp only [cmdUndo, hundo0]
  · simp [slook, nlook, alookup_aset, hget]

/-- Witness for C10 at a node with empty settings. -/
theorem C10_change_setting_undo_witness :
    alookup ((⟨⟨"0.1.0", [("n", ⟨"T", (0, 0), []⟩)], [], []⟩, ⟨0, []⟩, 0⟩
        : World)).model.nodes "n" = some ⟨"T", (0, 0), []⟩ ∧
    alookup (⟨"T", (0, 0), []⟩ : NodeData).settings "k" = none ∧
    (slook ((⟨⟨"0.1.0", [("n", ⟨"T", (0, 0), []⟩)], [], []⟩, ⟨0, []⟩, 0⟩
        : World)).model "n" "k" = none ∧
     ∃ c wA c2 u evs,
       pushCmd (fun _ => true) (.changeSetting "n" "k" (.vint 3))
         (⟨⟨"0.1.0", [("n", ⟨"T", (0, 0), []⟩)], [], []⟩, ⟨0, []⟩, 0⟩ : World) =
         .ok (c, wA) ∧
       cmdUndo (fun _ => true) c wA = .ok (c2, u, evs) ∧
       slook u.model "n" "k" = some .vnull) :=
  ⟨by rfl, by rfl, C10_change_setting_undo (by rfl) (by rfl)⟩

/-- C9: a pushed `RemoveNodeCommand` captures the full node data and exactly
the incident connections at construction; its redo deletes the node and
filters out every touching connection; its undo re-adds the node under the
same id with the captured data, leaves all other nodes untouched, and re-adds
exactly the captured connections, so the final connection list is a
permutation (exact multiset match) of the original one. -/
theorem C9_remove_node_round_trip {lb : String → Bool} {w0 : World}
    {nid : String} {c : Cmd} {wA : World}
    (hwf : WFModel w0.model)
    (hpush : pushCmd lb (.removeNode nid) w0 = .ok (c, wA)) :
    ∃ nd0 c2 u evs,
      alookup w0.model.nodes nid = some nd0 ∧
      c = .removeNodeCmd nid nd0 (w0.model.connections.filter (·.touches nid)) ∧
      wA.model.nodes = adel w0.model.nodes nid ∧
      wA.model.connections = w0.model.connections.filter (fun x => !(x.touches nid)) ∧
      cmdUndo lb c wA = .ok (c2, u, evs) ∧
      alookup u.model.nodes nid = some nd0 ∧
      (∀ id, id ≠ nid → alookup u.model.nodes id = alookup w0.model.nodes id) ∧
      List.Perm u.model.connections w0.model.connections := by
  obtain ⟨nd0, h0, hsafe0, hc, hMA⟩ := pushCmd_removeNode_inv hwf hpush
  have hnodesA : wA.model.nodes = adel w0.model.nodes nid := by rw [hMA]
  have hconnsA : wA.model.connections =
      w0.model.connections.filter (fun x => !(x.touches nid)) := by rw [hMA]
  have habsA : alookup wA.model.nodes nid = none := by
    rw [hnodesA, alookup_adel _ _ _ hwf.1, if_pos rfl]
  have hadd := addNodeWithData_eq habsA nd0
  have hlift : ∀ e : String, (alookup w0.model.nodes e).isSome = true →
      (alookup (wA.model.nodes ++ [(nid, nd0)]) e).isSome = true := by
    intro e hee
    by_cases he : nid = e
    · subst he
      rw [alookup_append_none _ habsA]
      simp [alookup]
    · obtain ⟨v, hv⟩ := Option.isSome_iff_exists.1 hee
      have hWAe : alookup wA.model.nodes e = some v := by
        rw [hnodesA, alookup_adel _ _ _ hwf.1, if_neg he]
        exact hv
      rw [alookup_append_some _ hWAe]
      rfl
  have hconns := addConnsList_ok
      { wA.model with nodes := wA.model.nodes ++ [(nid, nd0)] }
      (w0.model.connections.filter (·.touches nid))
      (hwf.2.1.filter _)
      (by
        intro x hx
        obtain ⟨hf, ht⟩ := hwf.2.2 x (List.mem_of_mem_filter hx)
        exact ⟨hlift x.from_node hf, hlift x.to_node ht⟩)
      (by
        intro x hx hmem
        have hmem2 : x ∈ w0.model.connections.filter (fun y => !(y.touches nid)) := by
          rw [show ({ wA.model with nodes := wA.model.nodes ++ [(nid, nd0)] } : Model).connections = wA.model.connections from rfl, hconnsA] at hmem
          exact hmem
        have hxt := List.of_mem_filter hx
        have hxnt := List.of_mem_filter hmem2
        simp only at hxt hxnt
        rw [hxt] at hxnt
        simp at hxnt)
  subst hc
  refine ⟨nd0,
    .removeNodeCmd nid nd0 (w0.model.connections.filter (·.touches nid)),
    { wA with model := { wA.model with
        nodes := wA.model.nodes ++ [(nid, nd0)],
        connections := wA.model.connections ++
          w0.model.connections.filter (·.touches nid) } },
    [.nodeAdded nid] ++ (w0.model.connections.filter (·.touches nid)).map
      Event.connectionAdded,
    h0, rfl, hnodesA, hconnsA, ?_, ?_, ?_, ?_⟩
  · simp only [cmdUndo, hadd, hconns]
  · show alookup (wA.model.nodes ++ [(nid, nd0)]) nid = some nd0
    rw [alookup_append_none _ habsA]
    simp [alookup]
  · intro id hne
    show alookup (wA.model.nodes ++ [(nid, nd0)]) id = alookup w0.model.nodes id
    have hWAid : alookup wA.model.nodes id = alookup w0.model.nodes id := by
      rw [hnodesA, alookup_adel _ _ _ hwf.1,
        if_neg (fun hx => hne hx.symm)]
    cases hx : alookup w0.model.nodes id with
    | some v =>
        rw [alookup_append_some _ (hWAid.trans hx)]
    | none =>
        rw [alookup_append_none _ (hWAid.trans hx)]
        have hne2 : ¬ (nid = id) := fun hy => hne hy.symm
        simp [alookup, hne2]
  · show List.Perm (wA.model.connections ++
        w0.model.connections.filter (·.touches nid)) w0.model.connections
    rw [hconnsA]
    have hperm := eraseAll_append_perm hwf.2.1
      (hwf.2.1.filter (·.touches nid))
      (fun x hx => List.mem_of_mem_filter hx)
    rw [eraseAll_filter hwf.2.1] at hperm
    exact hperm

/-- Witness for C9 at a node with two incident connections. -/
theorem C9_remove_node_round_trip_witness :
    WFModel ((⟨⟨"0.1.0",
        [("a", ⟨"ImageLoader", (0, 0), []⟩), ("b", ⟨"BlackLevels", (0, 0), []⟩)],
        [⟨"a", "RAW_out", "b", "RAW_in"⟩, ⟨"a", "CFA_out", "b", "CFA_in"⟩], []⟩,
        ⟨0, []⟩, 0⟩ : World)).model ∧
    pushCmd (fun _ => true) (.removeNode "b")
      (⟨⟨"0.1.0",
        [("a", ⟨"ImageLoader", (0, 0), []⟩), ("b", ⟨"BlackLevels", (0, 0), []⟩)],
        [⟨"a", "RAW_out", "b", "RAW_in"⟩, ⟨"a", "CFA_out", "b", "CFA_in"⟩], []⟩,
        ⟨0, []⟩, 0⟩ : World) =
      .ok (.removeNodeCmd "b" ⟨"BlackLevels", (0, 0), []⟩
             [⟨"a", "RAW_out", "b", "RAW_in"⟩, ⟨"a", "CFA_out", "b", "CFA_in"⟩],
           (⟨⟨"0.1.0", [("a", ⟨"ImageLoader", (0, 0), []⟩)], [], []⟩,
             ⟨0, []⟩, 0⟩ : World)) ∧
    ∃ nd0 c2 u evs,
      alookup ((⟨⟨"0.1.0",
          [("a", ⟨"ImageLoader", (0, 0), []⟩), ("b", ⟨"BlackLevels", (0, 0), []⟩)],
          [⟨"a", "RAW_out", "b", "RAW_in"⟩, ⟨"a", "CFA_out", "b", "CFA_in"⟩], []⟩,
          ⟨0, []⟩, 0⟩ : World)).model.nodes "b" = some nd0 ∧
      (Cmd.removeNodeCmd "b" ⟨"BlackLevels", (0, 0), []⟩
          [⟨"a", "RAW_out", "b", "RAW_in"⟩, ⟨"a", "CFA_out", "b", "CFA_in"⟩]) =
        .removeNodeCmd "b" nd0
          (((⟨⟨"0.1.0",
              [("a", ⟨"ImageLoader", (0, 0), []⟩), ("b", ⟨"BlackLevels", (0, 0), []⟩)],
              [⟨"a", "RAW_out", "b", "RAW_in"⟩, ⟨"a", "CFA_out", "b", "CFA_in"⟩], []⟩,
              ⟨0, []⟩, 0⟩ : World)).model.connections.filter (·.touches "b")) ∧
      ((⟨⟨"0.1.0", [("a", ⟨"ImageLoader", (0, 0), []⟩)], [], []⟩,
          ⟨0, []⟩, 0⟩ : World)).model.nodes =
        adel ((⟨⟨"0.1.0",
          [("a", ⟨"ImageLoader", (0, 0), []⟩), ("b", ⟨"BlackLevels", (0, 0), []⟩)],
          [⟨"a", "RAW_out", "b", "RAW_in"⟩, ⟨"a", "CFA_out", "b", "CFA_in"⟩], []⟩,
          ⟨0, []⟩, 0⟩ : World)).model.nodes "b" ∧
      ((⟨⟨"0.1.0", [("a", ⟨"ImageLoader", (0, 0), []⟩)], [], []⟩,
          ⟨0, []⟩, 0⟩ : World)).model.connections =
        ((⟨⟨"0.1.0",
          [("a", ⟨"ImageLoader", (0, 0), []⟩), ("b", ⟨"BlackLevels", (0, 0), []⟩)],
          [⟨"a", "RAW_out", "b", "RAW_in"⟩, ⟨"a", "CFA_out", "b", "CFA_in"⟩], []⟩,
          ⟨0, []⟩, 0⟩ : World)).model.connections.filter (fun x => !(x.touches "b")) ∧
      cmdUndo (fun _ => true)
        (.removeNodeCmd "b" ⟨"BlackLevels", (0, 0), []⟩
          [⟨"a", "RAW_out", "b", "RAW_in"⟩, ⟨"a", "CFA_out", "b", "CFA_in"⟩])
        (⟨⟨"0.1.0", [("a", ⟨"ImageLoader", (0, 0), []⟩)], [], []⟩,
          ⟨0, []⟩, 0⟩ : World) = .ok (c2, u, evs) ∧
      alookup u.model.nodes "b" = some nd0 ∧
      (∀ id, id ≠ "b" → alookup u.model.nodes id =
        alookup ((⟨⟨"0.1.0",
          [("a", ⟨"ImageLoader", (0, 0), []⟩), ("b", ⟨"BlackLevels", (0, 0), []⟩)],
          [⟨"a", "RAW_out", "b", "RAW_in"⟩, ⟨"a", "CFA_out", "b", "CFA_in"⟩], []⟩,
          ⟨0, []⟩, 0⟩ : World)).model.nodes id) ∧
      List.Perm u.model.connections
        ((⟨⟨"0.1.0",
          [("a", ⟨"ImageLoader", (0, 0), []⟩), ("b", ⟨"BlackLevels", (0, 0), []⟩)],
          [⟨"a", "RAW_out", "b", "RAW_in"⟩, ⟨"a", "CFA_out", "b", "CFA_in"⟩], []⟩,
          ⟨0, []⟩, 0⟩ : World)).model.connections :=
  ⟨by decide, by rfl, C9_remove_node_round_trip (by decide) (by rfl)⟩

/-- C3: `LoadImageCommand.redo` consumes the pre-validated handle at most
once — the post-apply command always carries `initial_raw_image_id = None` —
and every later apply reloads the file instead; a failed reload does not
raise: the node's `raw_image_id` is set to `None` while `filepath` is still
written, leaving the node file-selected but unloaded. -/
theorem C3_load_image_redo {lb : String → Bool} {w : World} {nid path : String}
    {ini nraw : Option Int} {ofp oraw : SVal} {nd : NodeData}
    (hnd : alookup w.model.nodes nid = some nd)
    (horaw : oraw.isHandleLike = true) :
    ∃ nraw2 w2 evs,
      cmdRedo lb (.loadImageCmd nid path ini nraw ofp oraw) w =
        .ok (.loadImageCmd nid path none nraw2 ofp oraw, w2, evs) ∧
      slook w2.model nid "filepath" = some (.vstr path) ∧
      ((∃ h, ini = some h ∧ nraw2 = some h ∧
          slook w2.model nid "raw_image_id" = some (.vint h)) ∨
       (ini = none ∧ lb path = true ∧ ∃ h, nraw2 = some h ∧
          slook w2.model nid "raw_image_id" = some (.vint h)) ∨
       (ini = none ∧ lb path = false ∧ nraw2 = none ∧
          slook w2.model nid "raw_image_id" = some .vnull)) := by
  have hred := cmdRedo_loadImage_eq lb path ini nraw ofp oraw hnd horaw
  have hndr : alookup (liRelease w.backend w.model oraw).2.nodes nid = some nd := by
    rw [liRelease_nodes]
    exact hnd
  refine ⟨(liPick lb ini (liRelease w.backend w.model oraw).1 path).1,
    ⟨{ (liRelease w.backend w.model oraw).2 with nodes :=
        (aset (liRelease w.backend w.model oraw).2.nodes nid
          ⟨nd.ntype, nd.position,
           aset (aset nd.settings "filepath" (.vstr path)) "raw_image_id"
             (optInt (liPick lb ini (liRelease w.backend w.model oraw).1 path).1)⟩) },
     (liPick lb ini (liRelease w.backend w.model oraw).1 path).2, w.ctr⟩,
    [.nodeSettingChanged nid "filepath" (.vstr path),
     .nodeSettingChanged nid "raw_image_id"
       (optInt (liPick lb ini (liRelease w.backend w.model oraw).1 path).1)],
    ?_, ?_, ?_⟩
  · rw [hred]
    rfl
  · rw [slook_set_two hndr "filepath" (.vstr path) "raw_image_id"
      (optInt (liPick lb ini (liRelease w.backend w.model oraw).1 path).1) nid
      "filepath", if_pos rfl, if_neg (by decide), if_pos rfl]
  · have hslookraw : slook
        ({ (liRelease w.backend w.model oraw).2 with nodes :=
          (aset (liRelease w.backend w.model oraw).2.nodes nid
            ⟨nd.ntype, nd.position,
             aset (aset nd.settings "filepath" (.vstr path)) "raw_image_id"
               (optInt (liPick lb ini (liRelease w.backend w.model oraw).1 path).1)⟩) }
          : Model) nid "raw_image_id" =
        some (optInt (liPick lb ini (liRelease w.backend w.model oraw).1 path).1) := by
      rw [slook_set_two hndr "filepath" (.vstr path) "raw_image_id"
        (optInt (liPick lb ini (liRelease w.backend w.model oraw).1 path).1) nid
        "raw_image_id", if_pos rfl, if_pos rfl]
    cases ini with
    | some h =>
        refine Or.inl ⟨h, rfl, rfl, ?_⟩
        rw [hslookraw]
        rfl
    | none =>
        by_cases hlb : lb path = true
        · have hpk : liPick lb none (liRelease w.backend w.model oraw).1 path =
              (some (liRelease w.backend w.model oraw).1.nextId,
               ⟨(liRelease w.backend w.model oraw).1.nextId + 1,
                (liRelease w.backend w.model oraw).1.nextId ::
                  (liRelease w.backend w.model oraw).1.live⟩) := by
            simp [liPick, loadRaw, hlb]
          refine Or.inr (Or.inl ⟨rfl, hlb,
            (liRelease w.backend w.model oraw).1.nextId, ?_, ?_⟩)
          · rw [hpk]
          · rw [hslookraw, hpk]
            rfl
        · have hlb2 : lb path = false := by simpa using hlb
          have hpk : liPick lb none (liRelease w.backend w.model oraw).1 path =
              (none, (liRelease w.backend w.model oraw).1) := by
            simp [liPick, loadRaw, hlb2]
          refine Or.inr (Or.inr ⟨rfl, hlb2, ?_, ?_⟩)
          · rw [hpk]
          · rw [hslookraw, hpk]
            rfl

/-- Witness for C3 at a first apply (pre-validated handle 5) of a
`LoadImageCommand` on a node with empty settings. -/
theorem C3_load_image_redo_witness :
    alookup ((⟨⟨"0.1.0", [("n", ⟨"ImageLoader", (0, 0), []⟩)], [], []⟩,
        ⟨0, []⟩, 0⟩ : World)).model.nodes "n" = some ⟨"ImageLoader", (0, 0), []⟩ ∧
    SVal.isHandleLike .vnull = true ∧
    ∃ nraw2 w2 evs,
      cmdRedo (fun _ => true) (.loadImageCmd "n" "/x.cr2" (some 5) none .vnull .vnull)
        (⟨⟨"0.1.0", [("n", ⟨"ImageLoader", (0, 0), []⟩)], [], []⟩,
          ⟨0, []⟩, 0⟩ : World) =
        .ok (.loadImageCmd "n" "/x.cr2" none nraw2 .vnull .vnull, w2, evs) ∧
      slook w2.model "n" "filepath" = some (.vstr "/x.cr2") ∧
      ((∃ h, (some 5 : Option Int) = some h ∧ nraw2 = some h ∧
          slook w2.model "n" "raw_image_id" = some (.vint h)) ∨
       ((some 5 : Option Int) = none ∧ (fun  (_ : String) => true) "/x.cr2" = true ∧
          ∃ h, nraw2 = some h ∧
          slook w2.model "n" "raw_image_id" = some (.vint h)) ∨
       ((some 5 : Option Int) = none ∧ (fun  (_ : String) => true) "/x.cr2" = false ∧
          nraw2 = none ∧
          slook w2.model "n" "raw_image_id" = some .vnull)) :=
  ⟨by rfl, by rfl, C3_load_image_redo (by rfl) (by rfl)⟩

/-- C4: `LoadImageCommand.undo` with an active new handle releases it, purges
its thumbnail-cache entry and clears it (`new_raw_image_id = None` in the
post-undo command); then, if the old filepath was non-empty, it reloads it
for a fresh handle, and on reload failure it does not raise: the command's
old filepath/handle are both cleared and the node's `filepath` and
`raw_image_id` settings are written as `None`. -/
theorem C4_load_image_undo {lb : String → Bool} {w : World} {nid path : String}
    {ini : Option Int} {hh : Int} {ofp oraw : SVal} {nd : NodeData}
    (hnd : alookup w.model.nodes nid = some nd) :
    ∃ w2 evs,
      cmdUndo lb (.loadImageCmd nid path ini (some hh) ofp oraw) w =
        .ok (.loadImageCmd nid path ini none
               (liReload lb (w.backend.release hh) ofp).1
               (liReload lb (w.backend.release hh) ofp).2.1,
             w2, evs) ∧
      w2.model.thumbnail_cache = lremove w.model.thumbnail_cache hh ∧
      w2.backend = (liReload lb (w.backend.release hh) ofp).2.2 ∧
      slook w2.model nid "filepath" =
        some (liReload lb (w.backend.release hh) ofp).1 ∧
      slook w2.model nid "raw_image_id" =
        some (liReload lb (w.backend.release hh) ofp).2.1 ∧
      ((ofp.truthy = false ∧ (liReload lb (w.backend.release hh) ofp).1 = ofp ∧
          (liReload lb (w.backend.release hh) ofp).2.1 = .vnull) ∨
       (ofp.truthy = true ∧
          (∃ h2 b2, loadRawS lb (w.backend.release hh) ofp = .ok (h2, b2) ∧
            (liReload lb (w.backend.release hh) ofp).1 = ofp ∧
            (liReload lb (w.backend.release hh) ofp).2.1 = .vint h2)) ∨
       (ofp.truthy = true ∧
          (∃ e, loadRawS lb (w.backend.release hh) ofp = .error e) ∧
          (liReload lb (w.backend.release hh) ofp).1 = .vnull ∧
          (liReload lb (w.backend.release hh) ofp).2.1 = .vnull)) := by
  have hundo := cmdUndo_loadImage_eq lb path ini (some hh) ofp oraw hnd
  have hndp : alookup (w.model.purgeThumb hh).nodes nid = some nd := hnd
  refine ⟨⟨{ w.model.purgeThumb hh with nodes :=
      (aset (w.model.purgeThumb hh).nodes nid
        ⟨nd.ntype, nd.position,
         aset (aset nd.settings "filepath" (liReload lb (w.backend.release hh) ofp).1)
           "raw_image_id" (liReload lb (w.backend.release hh) ofp).2.1⟩) },
     (liReload lb (w.backend.release hh) ofp).2.2, w.ctr⟩,
    [.nodeSettingChanged nid "filepath" (liReload lb (w.backend.release hh) ofp).1,
     .nodeSettingChanged nid "raw_image_id"
       (liReload lb (w.backend.release hh) ofp).2.1],
    ?_, rfl, rfl, ?_, ?_, ?_⟩
  · rw [hundo]
    rfl
  · rw [slook_set_two hndp "filepath" (liReload lb (w.backend.release hh) ofp).1
      "raw_image_id" (liReload lb (w.backend.release hh) ofp).2.1 nid "filepath",
      if_pos rfl, if_neg (by decide), if_pos rfl]
  · rw [slook_set_two hndp "filepath" (liReload lb (w.backend.release hh) ofp).1
      "raw_image_id" (liReload lb (w.backend.release hh) ofp).2.1 nid
      "raw_image_id", if_pos rfl, if_pos rfl]
  · by_cases htr : ofp.truthy = true
    · cases hls : loadRawS lb (w.backend.release hh) ofp with
      | ok p =>
          obtain ⟨h2, b2⟩ := p
          refine Or.inr (Or.inl ⟨htr, h2, b2, rfl, ?_, ?_⟩) <;>
            simp [liReload, htr, hls]
      | error e =>
          refine Or.inr (Or.inr ⟨htr, ⟨e, rfl⟩, ?_, ?_⟩) <;>
            simp [liReload, htr, hls]
    · have htr2 : ofp.truthy = false := by simpa using htr
      refine Or.inl ⟨htr2, ?_, ?_⟩ <;> simp [liReload, htr2]

/-- Witness for C4 at an undo releasing active handle 5 with a truthy old
filepath that reloads successfully. -/
theorem C4_load_image_undo_witness :
    alookup ((⟨⟨"0.1.0",
        [("n", ⟨"ImageLoader", (0, 0),
          [("filepath", .vstr "/y.cr2"), ("raw_image_id", .vint 5)]⟩)],
        [], [5]⟩, ⟨6, [5]⟩, 0⟩ : World)).model.nodes "n" =
      some ⟨"ImageLoader", (0, 0),
        [("filepath", .vstr "/y.cr2"), ("raw_image_id", .vint 5)]⟩ ∧
    ∃ w2 evs,
      cmdUndo (fun _ => true)
        (.loadImageCmd "n" "/y.cr2" none (some 5) (.vstr "/x.cr2") (.vnull))
        (⟨⟨"0.1.0",
          [("n", ⟨"ImageLoader", (0, 0),
            [("filepath", .vstr "/y.cr2"), ("raw_image_id", .vint 5)]⟩)],
          [], [5]⟩, ⟨6, [5]⟩, 0⟩ : World) =
        .ok (.loadImageCmd "n" "/y.cr2" none none
               (liReload (fun _ => true) (Backend.release ⟨6, [5]⟩ 5) (.vstr "/x.cr2")).1
               (liReload (fun _ => true) (Backend.release ⟨6, [5]⟩ 5) (.vstr "/x.cr2")).2.1,
             w2, evs) ∧
      w2.model.thumbnail_cache = lremove [5] 5 ∧
      w2.backend =
        (liReload (fun _ => true) (Backend.release ⟨6, [5]⟩ 5) (.vstr "/x.cr2")).2.2 ∧
      slook w2.model "n" "filepath" =
        some (liReload (fun _ => true) (Backend.release ⟨6, [5]⟩ 5) (.vstr "/x.cr2")).1 ∧
      slook w2.model "n" "raw_image_id" =
        some (liReload (fun _ => true) (Backend.release ⟨6, [5]⟩ 5) (.vstr "/x.cr2")).2.1 ∧
      ((SVal.truthy (.vstr "/x.cr2") = false ∧
          (liReload (fun _ => true) (Backend.release ⟨6, [5]⟩ 5) (.vstr "/x.cr2")).1 = .vstr "/x.cr2" ∧
          (liReload (fun _ => true) (Backend.release ⟨6, [5]⟩ 5) (.vstr "/x.cr2")).2.1 = .vnull) ∨
       (SVal.truthy (.vstr "/x.cr2") = true ∧
          (∃ h2 b2, loadRawS (fun _ => true) (Backend.release ⟨6, [5]⟩ 5) (.vstr "/x.cr2") =
              .ok (h2, b2) ∧
            (liReload (fun _ => true) (Backend.release ⟨6, [5]⟩ 5) (.vstr "/x.cr2")).1 = .vstr "/x.cr2" ∧
            (liReload (fun _ => true) (Backend.release ⟨6, [5]⟩ 5) (.vstr "/x.cr2")).2.1 = .vint h2)) ∨
       (SVal.truthy (.vstr "/x.cr2") = true ∧
          (∃ e, loadRawS (fun _ => true) (Backend.release ⟨6, [5]⟩ 5) (.vstr "/x.cr2") = .error e) ∧
          (liReload (fun _ => true) (Backend.release ⟨6, [5]⟩ 5) (.vstr "/x.cr2")).1 = .vnull ∧
          (liReload (fun _ => true) (Backend.release ⟨6, [5]⟩ 5) (.vstr "/x.cr2")).2.1 = .vnull)) :=
  ⟨by rfl, C4_load_image_undo (by rfl)⟩

end MPE
